import Mathlib

/-!
# Split insertion for layer graphs (`src/caffe/util/insert_splits.cpp`)

A shallow embedding of `InsertSplits`, `ConfigureSplitLayer`, `SplitLayerName`
and `SplitBlobName`, followed by theorems about them. Three smaller units are
embedded as well: the layer registry (`include/caffe/layer_factory.hpp`), the
blocking queue (`src/caffe/util/blocking_queue.cpp`) in single-threaded use, and
`FlattenLayer::Reshape` (`src/caffe/layers/flatten_layer.cpp`).

Modelling conventions.
* `LayerParameter` / `NetParameter` keep the fields the pass reads or writes
  (`name`, `type`, `bottom`, `top`, `loss_weight`, `layer`); every other field of
  the protobuf message is carried, untouched, in the field `rest`.
* The `std::map`s of the source are total functions giving the value-initialised
  default that `operator[]` would insert (`(0, 0)`, `0`, the empty string);
  `blob_name_to_last_top_idx`, the only map queried with `find`, is a function
  into `Option`.
* `int` indices and counters are `Nat` (they are never decremented, and a count
  reaching `2 ^ 31` needs as many references in the network).
* A `float` loss weight is only stored, copied and tested against zero, so it is
  a rational number here (no NaN, no signed zero).
* `LOG(FATAL)` aborts the call: the pass returns `Except.error` carrying the
  logged message and no network.
* The static registry of `LayerRegistry` is passed explicitly: `AddCreator` and
  `CreateLayer` return their outcome together with the registry afterwards.
* The members of `Blob` that `FlattenLayer::Reshape` calls are parameters
  (`BlobApi`); what they compute is a hypothesis (`BlobApi.Lawful`).
-/

namespace caffe

/-- One layer declaration. -/
structure LayerParameter where
  name : String
  type : String
  bottom : List String
  top : List String
  loss_weight : List ℚ
  rest : String
deriving DecidableEq

/-- The network declaration: the ordered layers and the remaining fields. -/
structure NetParameter where
  name : String
  layer : List LayerParameter
  rest : String
deriving DecidableEq

/-- A freshly constructed layer message: every field at its default. -/
def LayerParameter.fresh : LayerParameter :=
  { name := "", type := "", bottom := [], top := [], loss_weight := [], rest := "" }

/-- `Clear()` resets every field of the message to its default. -/
def LayerParameter.Clear (_ : LayerParameter) : LayerParameter :=
  LayerParameter.fresh

/-- `SplitLayerName` of the source. -/
def SplitLayerName (layer_name blob_name : String) (blob_idx : Nat) : String :=
  blob_name ++ "_" ++ layer_name ++ "_" ++ toString blob_idx ++ "_split"

/-- `SplitBlobName` of the source. -/
def SplitBlobName (layer_name blob_name : String) (blob_idx split_idx : Nat) : String :=
  blob_name ++ "_" ++ layer_name ++ "_" ++ toString blob_idx ++ "_split_" ++ toString split_idx

/-- One iteration `k` of the loop of `ConfigureSplitLayer`. -/
def configureStep (layer_name blob_name : String) (blob_idx : Nat) (loss_weight : ℚ)
    (lp : LayerParameter) (k : Nat) : LayerParameter :=
  let lp1 := { lp with top := lp.top ++ [SplitBlobName layer_name blob_name blob_idx k] }
  if loss_weight ≠ 0 then
    if k = 0 then { lp1 with loss_weight := lp1.loss_weight ++ [loss_weight] }
    else { lp1 with loss_weight := lp1.loss_weight ++ [0] }
  else lp1

/-- `ConfigureSplitLayer` of the source; the last argument is the prior content of the
target message, the result its content on return. -/
def ConfigureSplitLayer (layer_name blob_name : String) (blob_idx split_count : Nat)
    (loss_weight : ℚ) (split_layer_param : LayerParameter) : LayerParameter :=
  let cleared := split_layer_param.Clear
  let init : LayerParameter :=
    { cleared with
      bottom := cleared.bottom ++ [blob_name]
      name := SplitLayerName layer_name blob_name blob_idx
      type := "Split" }
  (List.range split_count).foldl (configureStep layer_name blob_name blob_idx loss_weight) init

/-- The five maps that the first loop of `InsertSplits` fills. -/
structure Analysis where
  blob_name_to_last_top_idx : String → Option (Nat × Nat)
  bottom_idx_to_source_top_idx : Nat × Nat → Nat × Nat
  top_idx_to_bottom_count : Nat × Nat → Nat
  top_idx_to_loss_weight : Nat × Nat → ℚ
  layer_idx_to_layer_name : Nat → String

/-- All maps empty. -/
def Analysis.empty : Analysis :=
  { blob_name_to_last_top_idx := fun _ => none
    bottom_idx_to_source_top_idx := fun _ => (0, 0)
    top_idx_to_bottom_count := fun _ => 0
    top_idx_to_loss_weight := fun _ => 0
    layer_idx_to_layer_name := fun _ => "" }

/-- The message logged for an input name that no earlier layer produced. -/
def unknownBottom (blob_name layer_name : String) (j : Nat) : String :=
  "Unknown bottom blob \x27" ++ blob_name ++ "\x27 (layer \x27" ++ layer_name ++
    "\x27, bottom index " ++ toString j ++ ")"

/-- The loop over the inputs of layer `i` in the first pass, from input index `j` on. -/
def analyzeBottoms (layer_name : String) (i : Nat) :
    Nat → List String → Analysis → Except String Analysis
  | _, [], st => .ok st
  | j, blob_name :: rest, st =>
    match st.blob_name_to_last_top_idx blob_name with
    | none => .error (unknownBottom blob_name layer_name j)
    | some top_idx =>
      analyzeBottoms layer_name i (j + 1) rest
        { st with
          bottom_idx_to_source_top_idx :=
            Function.update st.bottom_idx_to_source_top_idx (i, j) top_idx
          top_idx_to_bottom_count :=
            Function.update st.top_idx_to_bottom_count top_idx
              (st.top_idx_to_bottom_count top_idx + 1) }

/-- The loop over the outputs of layer `i` in the first pass, from output index `j` on. -/
def analyzeTops (i : Nat) : Nat → List String → Analysis → Analysis
  | _, [], st => st
  | j, blob_name :: rest, st =>
    analyzeTops i (j + 1) rest
      { st with
        blob_name_to_last_top_idx :=
          Function.update st.blob_name_to_last_top_idx blob_name (some (i, j)) }

/-- The loop over the first `min (loss_weight_size, top_size)` outputs in the first pass:
the two lists are walked together until one of them ends. -/
def analyzeLoss : List String → List ℚ → Analysis → Analysis
  | blob_name :: tops, w :: ws, st =>
    let top_idx := (st.blob_name_to_last_top_idx blob_name).getD (0, 0)
    analyzeLoss tops ws
      { st with
        top_idx_to_loss_weight := Function.update st.top_idx_to_loss_weight top_idx w
        top_idx_to_bottom_count :=
          if w ≠ 0 then
            Function.update st.top_idx_to_bottom_count top_idx
              (st.top_idx_to_bottom_count top_idx + 1)
          else st.top_idx_to_bottom_count }
  | _, _, st => st

/-- The body of the first loop of `InsertSplits` for layer `i`. -/
def analyzeLayer (i : Nat) (layer_param : LayerParameter) (st : Analysis) :
    Except String Analysis :=
  let st1 :=
    { st with
      layer_idx_to_layer_name :=
        Function.update st.layer_idx_to_layer_name i layer_param.name }
  match analyzeBottoms layer_param.name i 0 layer_param.bottom st1 with
  | .error e => .error e
  | .ok st2 =>
    .ok (analyzeLoss layer_param.top layer_param.loss_weight
      (analyzeTops i 0 layer_param.top st2))

/-- The first loop of `InsertSplits`, from layer index `i` on. -/
def analyzeLayers : Nat → List LayerParameter → Analysis → Except String Analysis
  | _, [], st => .ok st
  | i, layer_param :: rest, st =>
    match analyzeLayer i layer_param st with
    | .error e => .error e
    | .ok st1 => analyzeLayers (i + 1) rest st1

/-- The loop over the inputs of the clone of layer `i` in the second pass, from input
index `j` on: the new input names and the updated `top_idx_to_bottom_split_idx`. -/
def rewriteBottoms (a : Analysis) (i : Nat) :
    Nat → List String → (Nat × Nat → Nat) → List String × (Nat × Nat → Nat)
  | _, [], idx => ([], idx)
  | j, blob_name :: rest, idx =>
    let top_idx := a.bottom_idx_to_source_top_idx (i, j)
    let split_count := a.top_idx_to_bottom_count top_idx
    if 1 < split_count then
      let layer_name := a.layer_idx_to_layer_name top_idx.1
      let r := rewriteBottoms a i (j + 1) rest (Function.update idx top_idx (idx top_idx + 1))
      (SplitBlobName layer_name blob_name top_idx.2 (idx top_idx) :: r.1, r.2)
    else
      let r := rewriteBottoms a i (j + 1) rest idx
      (blob_name :: r.1, r.2)

/-- What the loop over the outputs of the clone of layer `i` has built: the clone, the
Split layers added after it, and `top_idx_to_bottom_split_idx`. -/
structure TopsState where
  layer_param : LayerParameter
  splits : List LayerParameter
  split_idx : Nat × Nat → Nat

/-- The loop over the outputs of the clone of layer `i` in the second pass, from output
index `j` on. -/
def rewriteTops (a : Analysis) (i : Nat) : Nat → List String → TopsState → TopsState
  | _, [], st => st
  | j, blob_name :: rest, st =>
    let top_idx := (i, j)
    let split_count := a.top_idx_to_bottom_count top_idx
    if 1 < split_count then
      let layer_name := a.layer_idx_to_layer_name i
      let loss_weight := a.top_idx_to_loss_weight top_idx
      let split_layer_param :=
        ConfigureSplitLayer layer_name blob_name j split_count loss_weight
          LayerParameter.fresh
      if loss_weight ≠ 0 then
        rewriteTops a i (j + 1) rest
          { layer_param := { st.layer_param with loss_weight := [] }
            splits := st.splits ++ [split_layer_param]
            split_idx := Function.update st.split_idx top_idx (st.split_idx top_idx + 1) }
      else
        rewriteTops a i (j + 1) rest { st with splits := st.splits ++ [split_layer_param] }
    else rewriteTops a i (j + 1) rest st

/-- The body of the second loop of `InsertSplits` for layer `i`: the layers appended to the
output (the clone, then its Split layers) and the updated split counters. -/
def rewriteLayer (a : Analysis) (i : Nat) (orig : LayerParameter) (idx : Nat × Nat → Nat) :
    List LayerParameter × (Nat × Nat → Nat) :=
  let b := rewriteBottoms a i 0 orig.bottom idx
  let st := rewriteTops a i 0 orig.top
    { layer_param := { orig with bottom := b.1 }, splits := [], split_idx := b.2 }
  (st.layer_param :: st.splits, st.split_idx)

/-- The second loop of `InsertSplits`, from layer index `i` on. -/
def rewriteLayers (a : Analysis) : Nat → List LayerParameter → (Nat × Nat → Nat) →
    List LayerParameter
  | _, [], _ => []
  | i, layer_param :: rest, idx =>
    let r := rewriteLayer a i layer_param idx
    r.1 ++ rewriteLayers a (i + 1) rest r.2

/-- The analysis pass on a whole layer list. -/
def Analyze (layers : List LayerParameter) : Except String Analysis :=
  analyzeLayers 0 layers Analysis.empty

/-- `InsertSplits` of the source: the rewritten network, or the fatal message. -/
def InsertSplits (param : NetParameter) : Except String NetParameter :=
  match Analyze param.layer with
  | .error e => .error e
  | .ok a => .ok { param with layer := rewriteLayers a 0 param.layer (fun _ => 0) }

deriving instance DecidableEq for Except

/-- A layer with the given name, inputs, outputs and loss weights (type and remaining
fields fixed), for writing examples. -/
def mkLayer (name : String) (bottom top : List String) (loss_weight : List ℚ) :
    LayerParameter :=
  { name := name, type := "T", bottom := bottom, top := top, loss_weight := loss_weight,
    rest := "" }

/-- A network made of the given layers. -/
def mkNet (layers : List LayerParameter) : NetParameter :=
  { name := "net", layer := layers, rest := "" }

/-! ### Vocabulary of the statements and closed forms of the two passes -/

/-- The fan-out count the analysis recorded for an output slot. -/
abbrev Analysis.FanoutCount (a : Analysis) (s : Nat × Nat) : Nat := a.top_idx_to_bottom_count s

/-- The output slot the analysis recorded for input `j` of layer `i`. -/
abbrev Analysis.source (a : Analysis) (i j : Nat) : Nat × Nat :=
  a.bottom_idx_to_source_top_idx (i, j)

/-- The Split layer that the second pass builds for output slot `j` (named `blob_name`) of
layer `i`. -/
def splitLayerOf (a : Analysis) (i j : Nat) (blob_name : String) : LayerParameter :=
  ConfigureSplitLayer (a.layer_idx_to_layer_name i) blob_name j (a.FanoutCount (i, j))
    (a.top_idx_to_loss_weight (i, j)) LayerParameter.fresh

/-- The Split layers of the output slots `j, j + 1, ...` of layer `i`, in slot order. -/
def splitsFrom (a : Analysis) (i : Nat) : Nat → List String → List LayerParameter
  | _, [] => []
  | j, blob_name :: rest =>
    if 1 < a.FanoutCount (i, j) then splitLayerOf a i j blob_name :: splitsFrom a i (j + 1) rest
    else splitsFrom a i (j + 1) rest

/-- Whether one of the slots `j, j + 1, ...` of layer `i` is split and carries a nonzero
recorded loss weight, so that the second pass clears the loss weights of the clone. -/
def lossMoved (a : Analysis) (i : Nat) : Nat → List String → Bool
  | _, [] => false
  | j, _ :: rest =>
    (decide (1 < a.FanoutCount (i, j)) && decide (a.top_idx_to_loss_weight (i, j) ≠ 0))
      || lossMoved a i (j + 1) rest

/-- The new name of input `j` (named `blob_name`) of layer `i` when the split counter of its
source stands at `k`. -/
def renamedBottom (a : Analysis) (i j : Nat) (blob_name : String) (k : Nat) : String :=
  if 1 < a.FanoutCount (a.source i j) then
    SplitBlobName (a.layer_idx_to_layer_name (a.source i j).1) blob_name (a.source i j).2 k
  else blob_name

/-- By how much the loop over the outputs `j, ..., j + n - 1` of layer `i` advances the split
counter of slot `s`: by one when `s` is one of them, is split and has a nonzero recorded
loss weight. -/
def lossBump (a : Analysis) (i j n : Nat) (s : Nat × Nat) : Nat :=
  if s.1 = i ∧ j ≤ s.2 ∧ s.2 < j + n ∧ 1 < a.FanoutCount s ∧ a.top_idx_to_loss_weight s ≠ 0
  then 1 else 0

/-- The clone of layer `i` as the second pass leaves it, given the split counters `idx` on
entry to the layer. -/
def cloneOf (a : Analysis) (i : Nat) (orig : LayerParameter) (idx : Nat × Nat → Nat) :
    LayerParameter :=
  { orig with
    bottom := (rewriteBottoms a i 0 orig.bottom idx).1
    loss_weight := if lossMoved a i 0 orig.top then [] else orig.loss_weight }

/-- The split counters after the second pass has handled the layers of the list, the first
of which has index `i`. -/
def splitIdxAfter (a : Analysis) : Nat → List LayerParameter → (Nat × Nat → Nat) →
    (Nat × Nat → Nat)
  | _, [], idx => idx
  | i, layer_param :: rest, idx => splitIdxAfter a (i + 1) rest (rewriteLayer a i layer_param idx).2

/-- The number of split output slots (fan-out count above one) among the slots below `j` of
layer `i`. -/
def splitsBelow (a : Analysis) (i j : Nat) : Nat :=
  (List.range j).countP (fun j' => decide (1 < a.FanoutCount (i, j')))

/-- The number of split output slots of the layers of the list, the first of which has
index `i`. -/
def splitSites (a : Analysis) : Nat → List LayerParameter → Nat
  | _, [] => 0
  | i, layer_param :: rest => splitsBelow a i layer_param.top.length + splitSites a (i + 1) rest

/-- The position of the clone of layer `i` in the rewritten layer list. -/
def clonePos (a : Analysis) (layers : List LayerParameter) (i : Nat) : Nat :=
  i + splitSites a 0 (layers.take i)

/-- The position of the Split layer of output slot `j` of layer `i` in the rewritten layer
list. -/
def splitPos (a : Analysis) (layers : List LayerParameter) (i j : Nat) : Nat :=
  clonePos a layers i + 1 + splitsBelow a i j

/-- The number of input indices below `n` of layer `i` whose recorded source is `s`. -/
def refsIn (a : Analysis) (i n : Nat) (s : Nat × Nat) : Nat :=
  (List.range n).countP (fun j => decide (a.source i j = s))

/-- The greatest index at which the name occurs in the list, if it occurs. -/
def lastIdx : List String → String → Option Nat
  | [], _ => none
  | b :: rest, n =>
    match lastIdx rest n with
    | some k => some (k + 1)
    | none => if b = n then some 0 else none

/-- The most recent declaration of the name strictly before layer `i`: the output slot of the
greatest layer index below `i` that lists the name among its outputs (at the last index where
that layer lists it). -/
def producer (layers : List LayerParameter) : Nat → String → Option (Nat × Nat)
  | 0, _ => none
  | i + 1, n =>
    match layers[i]? with
    | some l =>
      match lastIdx l.top n with
      | some j => some (i, j)
      | none => producer layers i n
    | none => producer layers i n

/-- The loss weight an input layer declares for its output slot `j`: entry `j` of its
`loss_weight` list when `j` is below `min (loss_weight_size, top_size)`, and zero otherwise. -/
def declaredLoss (l : LayerParameter) (j : Nat) : ℚ :=
  if j < l.top.length then l.loss_weight.getD j 0 else 0

/-- The number of input references of the layers below `i` that resolve to slot `s`. -/
def refCount (layers : List LayerParameter) : Nat → Nat × Nat → Nat
  | 0, _ => 0
  | i + 1, s =>
    refCount layers i s +
      match layers[i]? with
      | some l => l.bottom.countP (fun b => decide (producer layers i b = some s))
      | none => 0

/-- The number of nonzero loss-weight entries of the layers below `i` whose output name
resolves, right after the layer declared it, to slot `s`. -/
def lossCount (layers : List LayerParameter) : Nat → Nat × Nat → Nat
  | 0, _ => 0
  | i + 1, s =>
    lossCount layers i s +
      match layers[i]? with
      | some l => (l.top.zip l.loss_weight).countP
          (fun p => decide (p.2 ≠ 0) && decide (producer layers (i + 1) p.1 = some s))
      | none => 0

/-- What the maps of the first pass hold once the layers below `i` have been analysed. -/
structure AnalysisInv (layers : List LayerParameter) (i : Nat) (st : Analysis) : Prop where
  blob : ∀ n, st.blob_name_to_last_top_idx n = producer layers i n
  src : ∀ i' j l b, i' < i → layers[i']? = some l → l.bottom[j]? = some b →
    producer layers i' b = some (st.bottom_idx_to_source_top_idx (i', j))
  count : ∀ s, st.top_idx_to_bottom_count s = refCount layers i s + lossCount layers i s
  lw : ∀ i' l, i' < i → layers[i']? = some l → l.top.Nodup →
    ∀ j, st.top_idx_to_loss_weight (i', j) = declaredLoss l j
  lw_zero : ∀ s : Nat × Nat, i ≤ s.1 → st.top_idx_to_loss_weight s = 0
  lname : ∀ i' l, i' < i → layers[i']? = some l → st.layer_idx_to_layer_name i' = l.name

/-- Input `j` of layer `i` is the first input reference, in layer order and then input order,
that names no output of a strictly earlier layer; `l` is that layer and `b` the name. -/
def FirstUnresolved (layers : List LayerParameter) (i j : Nat) (l : LayerParameter)
    (b : String) : Prop :=
  layers[i]? = some l ∧ l.bottom[j]? = some b ∧ producer layers i b = none ∧
    (∀ j' b', j' < j → l.bottom[j']? = some b' → producer layers i b' ≠ none) ∧
    (∀ i' l' b', i' < i → layers[i']? = some l' → b' ∈ l'.bottom →
      producer layers i' b' ≠ none)

/-- The maps that the first pass of `InsertSplits` builds for a layer list (all of them empty
when the pass fails). -/
def analysisOf (layers : List LayerParameter) : Analysis :=
  match Analyze layers with
  | .ok a => a
  | .error _ => Analysis.empty

/-- The fan-out count of an output slot `(layer index, output index)` of a network: the entry
of `top_idx_to_bottom_count` after the first pass. -/
def FanoutCount (layers : List LayerParameter) (s : Nat × Nat) : Nat :=
  (analysisOf layers).top_idx_to_bottom_count s

/-- The loss weight of an output slot of a network as the first pass records it: the entry of
`top_idx_to_loss_weight`. -/
def siteLossWeight (layers : List LayerParameter) (s : Nat × Nat) : ℚ :=
  (analysisOf layers).top_idx_to_loss_weight s

/-- The output slot that input `j` of layer `i` resolved to during the first pass: the entry
of `bottom_idx_to_source_top_idx`. -/
def resolvedSite (layers : List LayerParameter) (i j : Nat) : Nat × Nat :=
  (analysisOf layers).bottom_idx_to_source_top_idx (i, j)

/-- The split output slots of the layers of the list, the first of which has index `i`, in
the order in which the second pass visits them. -/
def splitSiteList (a : Analysis) : Nat → List LayerParameter → List (Nat × Nat)
  | _, [] => []
  | i, layer_param :: rest =>
    ((List.range layer_param.top.length).filter
      (fun j => decide (1 < a.FanoutCount (i, j)))).map (fun j => (i, j)) ++
      splitSiteList a (i + 1) rest

/-- The name `b` is an output name of no layer with index strictly below `i`. -/
def Dangling (layers : List LayerParameter) (i : Nat) (b : String) : Prop :=
  ∀ i' l', i' < i → layers[i']? = some l' → b ∉ l'.top

/-- The number of input references of the layers below `m` whose recorded source is `s`. -/
def refsBelow (a : Analysis) (layers : List LayerParameter) : Nat → Nat × Nat → Nat
  | 0, _ => 0
  | m + 1, s =>
    refsBelow a layers m s +
      match layers[m]? with
      | some l => refsIn a m l.bottom.length s
      | none => 0

/-- Whether the second pass, having handled the layers below `m`, has advanced the split
counter of slot `s` for the implicit loss consumer: one when `s` is an output slot of one of
those layers, is split and has a nonzero recorded loss weight, zero otherwise. -/
def lossBelow (a : Analysis) (layers : List LayerParameter) (m : Nat) (s : Nat × Nat) : Nat :=
  if s.1 < m ∧ (∃ l, layers[s.1]? = some l ∧ s.2 < l.top.length) ∧ 1 < a.FanoutCount s ∧
      a.top_idx_to_loss_weight s ≠ 0 then 1 else 0

/-- The input references `(layer index, input index)` of the layers below `m` whose recorded
source is `s`, in layer order and then input order. -/
def consumersBelow (a : Analysis) (layers : List LayerParameter) :
    Nat → Nat × Nat → List (Nat × Nat)
  | 0, _ => []
  | m + 1, s =>
    consumersBelow a layers m s ++
      match layers[m]? with
      | some l =>
        ((List.range l.bottom.length).filter (fun j => decide (a.source m j = s))).map
          (fun j => (m, j))
      | none => []

/-- The input references of a network that resolved to slot `s` during the first pass, in
layer order and then input order. -/
def consumers (layers : List LayerParameter) (s : Nat × Nat) : List (Nat × Nat) :=
  consumersBelow (analysisOf layers) layers layers.length s

/-- The number of nonzero loss-weight entries of a layer whose output name resolves, among
the outputs of that layer, to slot `j`. -/
def lossHits (l : LayerParameter) (j : Nat) : Nat :=
  (l.top.zip l.loss_weight).countP
    (fun p => decide (p.2 ≠ 0) && decide (lastIdx l.top p.1 = some j))

/-- The number of input references of a network that resolve, by the most recent declaration
strictly before the referencing layer, to slot `s`. -/
def consumerCount (layers : List LayerParameter) (s : Nat × Nat) : Nat :=
  refCount layers layers.length s

/-- The position of the clone of input layer `i` in the rewritten network. -/
def cloneLayerPos (layers : List LayerParameter) (i : Nat) : Nat :=
  clonePos (analysisOf layers) layers i

/-- The position, in the rewritten network, of the Split layer of output slot `j` of input
layer `i`. -/
def splitLayerPos (layers : List LayerParameter) (i j : Nat) : Nat :=
  splitPos (analysisOf layers) layers i j

/-- The scenario network `A(top=x)`, `B(bottom=x, top=y)`, `C(bottom=x)`. -/
def netABC : NetParameter :=
  mkNet [mkLayer "A" [] ["x"] [], mkLayer "B" ["x"] ["y"] [], mkLayer "C" ["x"] [] []]

/-- The rewritten form of `netABC`. -/
def netABCSplit : NetParameter :=
  mkNet [mkLayer "A" [] ["x"] [],
    { name := "x_A_0_split", type := "Split", bottom := ["x"],
      top := ["x_A_0_split_0", "x_A_0_split_1"], loss_weight := [], rest := "" },
    mkLayer "B" ["x_A_0_split_0"] ["y"] [], mkLayer "C" ["x_A_0_split_1"] [] []]

/-- The scenario network `L(top=[p, q], loss_weight=[1])`, `M(bottom=p)`, `N(bottom=q)`. -/
def netLoss : NetParameter :=
  mkNet [mkLayer "L" [] ["p", "q"] [1], mkLayer "M" ["p"] [] [], mkLayer "N" ["q"] [] []]

/-- The rewritten form of `netLoss`. -/
def netLossSplit : NetParameter :=
  mkNet [mkLayer "L" [] ["p", "q"] [],
    { name := "p_L_0_split", type := "Split", bottom := ["p"],
      top := ["p_L_0_split_0", "p_L_0_split_1"], loss_weight := [1, 0], rest := "" },
    mkLayer "M" ["p_L_0_split_1"] [] [], mkLayer "N" ["q"] [] []]

/-- A network whose first layer lists the output name `p` twice, with loss weights `[1, 0]`,
and whose second layer consumes `p`. -/
def netTwice : NetParameter :=
  mkNet [mkLayer "L" [] ["p", "p"] [1, 0], mkLayer "M" ["p"] [] []]

/-- What `InsertSplits` returns on `netTwice`. -/
def netTwiceSplit : NetParameter :=
  mkNet [mkLayer "L" [] ["p", "p"] [1, 0],
    { name := "p_L_1_split", type := "Split", bottom := ["p"],
      top := ["p_L_1_split_0", "p_L_1_split_1"], loss_weight := [], rest := "" },
    mkLayer "M" ["p_L_1_split_0"] [] []]

/-- A single layer that lists the output name `p` twice and declares the loss weights
`[1, 1]`; nothing consumes `p`. -/
def netTwiceLoss : NetParameter :=
  mkNet [mkLayer "L" [] ["p", "p"] [1, 1]]

/-- What `InsertSplits` returns on `netTwiceLoss`. -/
def netTwiceLossSplit : NetParameter :=
  mkNet [mkLayer "L" [] ["p", "p"] [],
    { name := "p_L_1_split", type := "Split", bottom := ["p"],
      top := ["p_L_1_split_0", "p_L_1_split_1"], loss_weight := [1, 0], rest := "" }]

/-- A single layer whose input names a tensor that nothing produces. -/
def netDangling : NetParameter :=
  mkNet [mkLayer "A" ["zz"] [] []]

/-- A layer with two outputs and the loss weights `[1, 2]`, whose first output has one
consumer. -/
def netTwoLosses : NetParameter :=
  mkNet [mkLayer "L" [] ["p", "q"] [1, 2], mkLayer "M" ["p"] [] []]

/-- What `InsertSplits` returns on `netTwoLosses`. -/
def netTwoLossesSplit : NetParameter :=
  mkNet [mkLayer "L" [] ["p", "q"] [],
    { name := "p_L_0_split", type := "Split", bottom := ["p"],
      top := ["p_L_0_split_0", "p_L_0_split_1"], loss_weight := [1, 0], rest := "" },
    mkLayer "M" ["p_L_0_split_1"] [] []]

/-- The output names of the Split layers that the second pass creates for the output slots
`j, j + 1, ...` of layer `i`, in order. -/
def splitNamesFrom (a : Analysis) (i : Nat) : Nat → List String → List String
  | _, [] => []
  | j, blob_name :: rest =>
    (if 1 < a.FanoutCount (i, j) then (splitLayerOf a i j blob_name).top else []) ++
      splitNamesFrom a i (j + 1) rest

/-- The output names of all Split layers that the second pass creates for the layers of the
list, the first of which has index `i`, in order. -/
def splitNames (a : Analysis) : Nat → List LayerParameter → List String
  | _, [] => []
  | i, layer_param :: rest =>
    splitNamesFrom a i 0 layer_param.top ++ splitNames a (i + 1) rest

/-- The output names of all Split layers that `InsertSplits` creates for a network, in the
order of the rewritten network. -/
def generatedNames (layers : List LayerParameter) : List String :=
  splitNames (analysisOf layers) 0 layers

/-- The layer list that the second pass produces from the maps of the first pass. -/
def rewritten (a : Analysis) (layers : List LayerParameter) : List LayerParameter :=
  rewriteLayers a 0 layers (fun _ => 0)

/-- The setting in which a second run of the pass is studied: the first pass succeeded with
maps `a`, every layer lists pairwise distinct output names, the generated Split output names
are pairwise distinct, and none of them is an output name of an input layer. -/
structure SplitCtx (layers : List LayerParameter) (a : Analysis) : Prop where
  ok : Analyze layers = .ok a
  nodup : ∀ l ∈ layers, l.top.Nodup
  distinct : (splitNames a 0 layers).Nodup
  fresh : ∀ g ∈ splitNames a 0 layers, ∀ l ∈ layers, g ∉ l.top

/-! ### The input references of the rewritten network, and example networks -/

/-- The fan-out index that the second pass gives to input `k` of layer `i` when the source of
that input is split: one for the implicit loss consumer when the recorded loss weight of the
source is nonzero, plus the number of earlier inputs with the same source. -/
def renameIndex (a : Analysis) (layers : List LayerParameter) (i k : Nat) : Nat :=
  (if a.top_idx_to_loss_weight (a.source i k) ≠ 0 then 1 else 0) +
    (refsBelow a layers i (a.source i k) + refsIn a i k (a.source i k))

/-- Input `k` of the layer at position `p` of the rewritten network is an input of a clone whose
source is not split, and `s` is the slot of the clone of its producer. -/
def KeptRef (a : Analysis) (layers : List LayerParameter) (p k : Nat) (s : Nat × Nat) : Prop :=
  ∃ i l b0, layers[i]? = some l ∧ l.bottom[k]? = some b0 ∧ p = clonePos a layers i ∧
    ¬ 1 < a.FanoutCount (a.source i k) ∧
    s = (clonePos a layers (a.source i k).1, (a.source i k).2)

/-- Input `k` of the layer at position `p` of the rewritten network is an input of a clone whose
source is split, and `s` is the output of the Split layer that it was renamed to. -/
def RenamedRef (a : Analysis) (layers : List LayerParameter) (p k : Nat) (s : Nat × Nat) :
    Prop :=
  ∃ i l b0, layers[i]? = some l ∧ l.bottom[k]? = some b0 ∧ p = clonePos a layers i ∧
    1 < a.FanoutCount (a.source i k) ∧
    s = (splitPos a layers (a.source i k).1 (a.source i k).2, renameIndex a layers i k)

/-- Input `k` of the layer at position `p` of the rewritten network is the input of a Split
layer, and `s` is the slot of the clone that it was created for. -/
def SplitRef (a : Analysis) (layers : List LayerParameter) (p k : Nat) (s : Nat × Nat) : Prop :=
  ∃ i j l b, layers[i]? = some l ∧ l.top[j]? = some b ∧ 1 < a.FanoutCount (i, j) ∧
    p = splitPos a layers i j ∧ k = 0 ∧ s = (clonePos a layers i, j)

/-- A network in which the input layer `Z` already declares the name `x_A_0_split_0` that the
pass generates for the first consumer of `x`. -/
def netShadow : NetParameter :=
  mkNet [mkLayer "Z" [] ["x_A_0_split_0"] [], mkLayer "A" [] ["x"] [], mkLayer "B" ["x"] [] [],
    mkLayer "C" ["x"] [] [], mkLayer "E" ["x_A_0_split_0"] [] []]

/-- What `InsertSplits` returns on `netShadow`. -/
def netShadowSplit : NetParameter :=
  mkNet [mkLayer "Z" [] ["x_A_0_split_0"] [], mkLayer "A" [] ["x"] [],
    { name := "x_A_0_split", type := "Split", bottom := ["x"],
      top := ["x_A_0_split_0", "x_A_0_split_1"], loss_weight := [], rest := "" },
    mkLayer "B" ["x_A_0_split_0"] [] [], mkLayer "C" ["x_A_0_split_1"] [] [],
    mkLayer "E" ["x_A_0_split_0"] [] []]

/-- A network with two split slots, output `x_y` of layer `z` and output `x` of layer `y_z`,
for which the pass generates the same names. -/
def netClash : NetParameter :=
  mkNet [mkLayer "z" [] ["x_y"] [], mkLayer "y_z" [] ["x"] [], mkLayer "B" ["x_y"] [] [],
    mkLayer "D" ["x"] [] [], mkLayer "E" ["x"] [] [], mkLayer "F" ["x_y"] [] []]

/-- What `InsertSplits` returns on `netClash`. -/
def netClashSplit : NetParameter :=
  mkNet [mkLayer "z" [] ["x_y"] [],
    { name := "x_y_z_0_split", type := "Split", bottom := ["x_y"],
      top := ["x_y_z_0_split_0", "x_y_z_0_split_1"], loss_weight := [], rest := "" },
    mkLayer "y_z" [] ["x"] [],
    { name := "x_y_z_0_split", type := "Split", bottom := ["x"],
      top := ["x_y_z_0_split_0", "x_y_z_0_split_1"], loss_weight := [], rest := "" },
    mkLayer "B" ["x_y_z_0_split_0"] [] [], mkLayer "D" ["x_y_z_0_split_0"] [] [],
    mkLayer "E" ["x_y_z_0_split_1"] [] [], mkLayer "F" ["x_y_z_0_split_1"] [] []]

/-! ### Decimal numerals, the layout of the rewritten network, the layer registry and the
blocking queue -/

/-- The number that a string of decimal digits denotes. -/
def decimalValue (s : String) : Nat :=
  s.data.foldl (fun acc c => 10 * acc + (c.toNat - 48)) 0

/-- The name does not contain the separator character `_`. -/
def NoUnderscore (s : String) : Prop := '_' ∉ s.data

/-- The clone of input layer `i`, declared as `l`, as the second pass of `InsertSplits` leaves
it in the rewritten network. -/
def cloneLayer (layers : List LayerParameter) (i : Nat) (l : LayerParameter) : LayerParameter :=
  cloneOf (analysisOf layers) i l
    (splitIdxAfter (analysisOf layers) 0 (layers.take i) (fun _ => 0))

/-- The Split layers of the output slots of input layer `i`, declared as `l`, whose fan-out
count is above one, in increasing slot order. -/
def splitLayersOf (layers : List LayerParameter) (i : Nat) (l : LayerParameter) :
    List LayerParameter :=
  (l.top.enum.filter (fun p => decide (1 < FanoutCount layers (i, p.1)))).map
    (fun p => splitLayerOf (analysisOf layers) i p.1 p.2)

/-- The part of the rewritten network that belongs to input layer `i`, declared as `l`: its
clone, then its Split layers. -/
def layerSegment (layers : List LayerParameter) (p : Nat × LayerParameter) :
    List LayerParameter :=
  cloneLayer layers p.1 p.2 :: splitLayersOf layers p.1 p.2

/-- A network in which the layers `B` and `C` both read `x` and declare `x` again as their
output (in place), and the last layer reads `x` too. -/
def netRedeclared : NetParameter :=
  mkNet [mkLayer "A" [] ["x"] [], mkLayer "B" ["x"] ["x"] [], mkLayer "C" ["x"] ["x"] [],
    mkLayer "D" ["x"] [] []]

/-- The creator registry, a `std::map<string, Creator>`, as the list of its entries in the
order of iteration. A creator maps a layer declaration to the created layer, whose type is
the parameter `β`. -/
abbrev CreatorRegistry (β : Type) : Type := List (String × (LayerParameter → β))

/-- The entry of the map under the key, if there is one (`find`). -/
def LayerRegistry.find {β : Type} : CreatorRegistry β → String → Option (LayerParameter → β)
  | [], _ => none
  | (k, c) :: rest, type => if k = type then some c else LayerRegistry.find rest type

/-- The number of entries of the map under the key (`count`): one or zero. -/
def LayerRegistry.count {β : Type} (registry : CreatorRegistry β) (type : String) : Nat :=
  match LayerRegistry.find registry type with
  | some _ => 1
  | none => 0

/-- The assignment `registry[type] = creator`: the entry under the key is replaced, or a new
entry is inserted at its place in key order. -/
def LayerRegistry.assign {β : Type} :
    CreatorRegistry β → String → (LayerParameter → β) → CreatorRegistry β
  | [], type, creator => [(type, creator)]
  | (k, c) :: rest, type, creator =>
    if type < k then (type, creator) :: (k, c) :: rest
    else if type = k then (type, creator) :: rest
    else (k, c) :: LayerRegistry.assign rest type creator

/-- `LayerTypeList` of the source: the keys of the registry in the order of iteration. -/
def LayerRegistry.LayerTypeList {β : Type} (registry : CreatorRegistry β) : List String :=
  registry.map (fun e => e.1)

/-- `LayerTypeListString` of the source: the keys, separated by a comma and a blank. -/
def LayerRegistry.LayerTypeListString {β : Type} (registry : CreatorRegistry β) : String :=
  (LayerRegistry.LayerTypeList registry).enum.foldl
    (fun layer_types_str e => (if e.1 ≠ 0 then layer_types_str ++ ", " else layer_types_str) ++ e.2)
    ""

/-- `LayerRegistry::AddCreator` of the source on the registry it is given: the outcome (the
fatal message when the check fails) and the registry afterwards. -/
def LayerRegistry.AddCreator {β : Type} (registry : CreatorRegistry β) (type : String)
    (creator : LayerParameter → β) : Except String Unit × CreatorRegistry β :=
  if LayerRegistry.count registry type = 0 then
    (.ok (), LayerRegistry.assign registry type creator)
  else (.error ("Layer type " ++ type ++ " already registered."), registry)

/-- The registry after a sequence of `AddCreator` calls, each with a type and a creator, in
the order of the list; a call whose check fails leaves the registry as it was. -/
def LayerRegistry.AddCreators {β : Type} (registry : CreatorRegistry β)
    (calls : List (String × (LayerParameter → β))) : CreatorRegistry β :=
  calls.foldl (fun r e => (LayerRegistry.AddCreator r e.1 e.2).2) registry

/-- The message of the failed check of `CreateLayer`. -/
def LayerRegistry.unknownType {β : Type} (registry : CreatorRegistry β) (type : String) :
    String :=
  "Unknown layer type: " ++ type ++ " (known types: " ++
    LayerRegistry.LayerTypeListString registry ++ ")"

/-- `LayerRegistry::CreateLayer` of the source on the registry it is given: the created layer
(or the fatal message when the check fails) and the registry afterwards. The informational
log line is not part of the model. Once the check `count(type) == 1` has passed, `registry[type]`
reads the entry under the key, so the last branch of the `match` is never taken. -/
def LayerRegistry.CreateLayer {β : Type} (registry : CreatorRegistry β)
    (param : LayerParameter) : Except String β × CreatorRegistry β :=
  if LayerRegistry.count registry param.type = 1 then
    match LayerRegistry.find registry param.type with
    | some creator => (.ok (creator param), registry)
    | none => (.error (LayerRegistry.unknownType registry param.type), registry)
  else (.error (LayerRegistry.unknownType registry param.type), registry)

/-- Modelled from the spec: the class `BlockingQueue<T>` is declared in a header that is not
among the sources at hand. Its member functions in `blocking_queue.cpp` use the data member
`queue_`, a `std::queue<T>`, kept here as the list of its elements with the front first, and
the lock and condition variable `sync_`, which do nothing in single-threaded use. -/
structure BlockingQueue (T : Type) where
  queue_ : List T
deriving DecidableEq

/-- The queue right after construction. -/
def BlockingQueue.new {T : Type} : BlockingQueue T := { queue_ := [] }

/-- `push` of the source. -/
def BlockingQueue.push {T : Type} (q : BlockingQueue T) (t : T) : BlockingQueue T :=
  { queue_ := q.queue_ ++ [t] }

/-- `try_pop` of the source; `t` is the value of the output argument `*t` on entry, the result
is the returned flag, the value of `*t` on return and the queue afterwards. -/
def BlockingQueue.try_pop {T : Type} (q : BlockingQueue T) (t : T) :
    Bool × T × BlockingQueue T :=
  match q.queue_ with
  | [] => (false, t, q)
  | front :: rest => (true, front, { queue_ := rest })

/-- `pop` of the source in single-threaded use: the returned element and the queue afterwards,
or `none` when the queue is empty and the call waits for ever. -/
def BlockingQueue.pop {T : Type} (q : BlockingQueue T) : Option (T × BlockingQueue T) :=
  match q.queue_ with
  | [] => none
  | front :: rest => some (front, { queue_ := rest })

/-- `try_peek` of the source; `t` is the value of the output argument `*t` on entry, the result
is the returned flag, the value of `*t` on return and the queue afterwards. -/
def BlockingQueue.try_peek {T : Type} (q : BlockingQueue T) (t : T) :
    Bool × T × BlockingQueue T :=
  match q.queue_ with
  | [] => (false, t, q)
  | front :: _ => (true, front, q)

/-- `peek` of the source in single-threaded use: the returned element, or `none` when the
queue is empty and the call waits for ever. -/
def BlockingQueue.peek {T : Type} (q : BlockingQueue T) : Option T :=
  match q.queue_ with
  | [] => none
  | front :: _ => some front

/-- `size` of the source. -/
def BlockingQueue.size {T : Type} (q : BlockingQueue T) : Nat := q.queue_.length

/-- The queue after `push` has been called on each element of the list, first element
first. -/
def BlockingQueue.pushAll {T : Type} (q : BlockingQueue T) (xs : List T) : BlockingQueue T :=
  xs.foldl BlockingQueue.push q

/-- The outcome of `n` successive `try_pop` calls on the same output variable, whose value
is `t` before the first call: the returned flag and the value of the variable after each
call, and the queue after the last one. -/
def BlockingQueue.tryPopN {T : Type} :
    Nat → BlockingQueue T → T → List (Bool × T) × BlockingQueue T
  | 0, q, _ => ([], q)
  | n + 1, q, t =>
    let r := q.try_pop t
    let rs := BlockingQueue.tryPopN n r.2.2 r.2.1
    ((r.1, r.2.1) :: rs.1, rs.2)

/-- The FIFO list that the queue is compared with: appending at the back. -/
def fifoPush {T : Type} (xs : List T) (t : T) : List T := xs ++ [t]

/-- The oldest element of the FIFO list, if there is one. -/
def fifoOldest {T : Type} (xs : List T) : Option T := xs.head?

/-- The FIFO list without its oldest element. -/
def fifoRemoveOldest {T : Type} (xs : List T) : List T := xs.tail

/-- The 0-based rank of input `j` of layer `i` among the input references that resolved to
the same output slot, in (layer index, input index) order: the number of such references in
the layers before `i` plus the number of such references among the inputs of layer `i`
before `j`. -/
def referenceRank (layers : List LayerParameter) (i j : Nat) : Nat :=
  refsBelow (analysisOf layers) layers i (resolvedSite layers i j) +
    refsIn (analysisOf layers) i j (resolvedSite layers i j)

/-- Modelled from the spec: the class `Blob` is declared in blob.hpp, which is not among the
sources at hand. The members that `FlattenLayer::Reshape` calls are taken as parameters:
`num_axes()`, `shape(index)`, `count()`, `count(start_axis, end_axis)` and `Reshape(shape)`,
the last one as the function from the blob before the call and the new shape to the blob
after the call. Dimensions and counts are integers. -/
structure BlobApi (Blob : Type) where
  num_axes : Blob → Nat
  shape : Blob → Nat → Int
  count : Blob → Int
  countRange : Blob → Nat → Nat → Int
  Reshape : Blob → List Int → Blob

/-- The dimensions of a blob, axis 0 first. -/
def BlobApi.shapeOf {Blob : Type} (api : BlobApi Blob) (b : Blob) : List Int :=
  (List.range (api.num_axes b)).map (api.shape b)

/-- Modelled from the spec: what the members of `Blob` compute, in the words of the claim on
`FlattenLayer::Reshape`: `count()` is the product of the dimensions,
`count(start_axis, end_axis)` the product of the dimensions from `start_axis` up to
`end_axis` exclusive, and after `Reshape(shape)` the dimensions are those of `shape`. -/
structure BlobApi.Lawful {Blob : Type} (api : BlobApi Blob) : Prop where
  count_eq : ∀ b, api.count b = (api.shapeOf b).prod
  countRange_eq : ∀ b start_axis end_axis, start_axis ≤ end_axis →
    end_axis ≤ api.num_axes b →
    api.countRange b start_axis end_axis =
      (((api.shapeOf b).drop start_axis).take (end_axis - start_axis)).prod
  Reshape_shape : ∀ b shape, api.shapeOf (api.Reshape b shape) = shape

/-- Modelled from the spec: a blob that is nothing but its shape vector, with the members of
`Blob` as `BlobApi.Lawful` words them. -/
def shapeBlobApi : BlobApi (List Int) :=
  { num_axes := fun b => b.length
    shape := fun b index => b.getD index 0
    count := fun b => b.prod
    countRange := fun b start_axis end_axis =>
      ((b.drop start_axis).take (end_axis - start_axis)).prod
    Reshape := fun _ shape => shape }

/-- The two fatal checks of `FlattenLayer::Reshape`: the check that the layer does not compute
in place, with its message, and the final check that the two counts are equal, with the two
counts. -/
inductive FlattenFailure where
  | in_place (message : String)
  | count_mismatch (top_count bottom_count : Int)
deriving DecidableEq

/-- `FlattenLayer::Reshape` of the source, on `bottom[0]` and `top[0]`: the blob `top[0]` after
the call, or the check that failed. The layer type `type()`, whether `top[0]` and `bottom[0]`
are the same blob, and the canonical indices `start_axis` and `end_axis` that
`CanonicalAxisIndex` returns are parameters. -/
def FlattenLayer.Reshape {Blob : Type} (api : BlobApi Blob) (type : String) (in_place : Bool)
    (start_axis end_axis : Nat) (bottom0 top0 : Blob) : Except FlattenFailure Blob :=
  if in_place then
    .error (.in_place (type ++ " Layer does not allow in-place computation."))
  else
    let top_shape1 := (List.range start_axis).foldl
      (fun top_shape i => top_shape ++ [api.shape bottom0 i]) []
    let flattened_dim := api.countRange bottom0 start_axis (end_axis + 1)
    let top_shape2 := top_shape1 ++ [flattened_dim]
    let top_shape3 :=
      (List.range' (end_axis + 1) (api.num_axes bottom0 - (end_axis + 1))).foldl
        (fun top_shape i => top_shape ++ [api.shape bottom0 i]) top_shape2
    let top := api.Reshape top0 top_shape3
    if api.count top = api.count bottom0 then .ok top
    else .error (.count_mismatch (api.count top) (api.count bottom0))

/-- A network whose first layer lists the output name `p` twice and declares the single loss
weight `[1]`, for slot 0 only, and whose second layer consumes `p`. -/
def netTwiceOneLoss : NetParameter :=
  mkNet [mkLayer "L" [] ["p", "p"] [1], mkLayer "M" ["p"] [] []]

/-- What `InsertSplits` returns on `netTwiceOneLoss`. -/
def netTwiceOneLossSplit : NetParameter :=
  mkNet [mkLayer "L" [] ["p", "p"] [],
    { name := "p_L_1_split", type := "Split", bottom := ["p"],
      top := ["p_L_1_split_0", "p_L_1_split_1"], loss_weight := [1, 0], rest := "" },
    mkLayer "M" ["p_L_1_split_1"] [] []]

/-! ### The second pass in closed form -/

theorem foldl_configureStep (ln bn : String) (bi : Nat) (w : ℚ) (n : Nat) (init : LayerParameter) :
    (List.range n).foldl (configureStep ln bn bi w) init =
      { init with
        top := init.top ++ (List.range n).map (SplitBlobName ln bn bi)
        loss_weight := init.loss_weight ++
          (if w ≠ 0 then (List.range n).map (fun k => if k = 0 then w else 0) else []) } := by
  induction n with
  | zero => simp
  | succ n ih =>
    rw [List.range_succ, List.foldl_append, ih]
    by_cases hw : w = 0
    · simp [configureStep, hw]
    · by_cases hn : n = 0
      · simp [configureStep, hw, hn]
      · simp [configureStep, hw, hn]

theorem ConfigureSplitLayer_eq (ln bn : String) (bi n : Nat) (w : ℚ) (t : LayerParameter) :
    ConfigureSplitLayer ln bn bi n w t =
      { name := SplitLayerName ln bn bi, type := "Split", bottom := [bn],
        top := (List.range n).map (SplitBlobName ln bn bi),
        loss_weight := if w ≠ 0 then (List.range n).map (fun k => if k = 0 then w else 0) else [],
        rest := "" } := by
  unfold ConfigureSplitLayer
  rw [foldl_configureStep]
  simp [LayerParameter.Clear, LayerParameter.fresh]

theorem map_ite_zero_range (w : ℚ) (n : Nat) (hn : 0 < n) :
    (List.range n).map (fun k => if k = 0 then w else (0 : ℚ)) = w :: List.replicate (n - 1) 0 := by
  obtain ⟨m, rfl⟩ : ∃ m, n = m + 1 := ⟨n - 1, by omega⟩
  rw [List.range_succ_eq_map]
  simp only [List.map_cons, List.map_map, if_true, Nat.add_sub_cancel]
  congr 1
  rw [List.eq_replicate_iff]
  simp

theorem lossBump_zero (a : Analysis) (i j : Nat) (s : Nat × Nat) : lossBump a i j 0 s = 0 := by
  unfold lossBump
  rw [if_neg]
  omega

theorem lossBump_succ (a : Analysis) (i j n : Nat) (s : Nat × Nat) :
    lossBump a i j (n + 1) s =
      (if s = (i, j) ∧ 1 < a.FanoutCount s ∧ a.top_idx_to_loss_weight s ≠ 0 then 1 else 0) +
        lossBump a i (j + 1) n s := by
  unfold lossBump
  obtain ⟨s1, s2⟩ := s
  simp only [Prod.mk.injEq]
  by_cases hq : 1 < a.FanoutCount (s1, s2) ∧ a.top_idx_to_loss_weight (s1, s2) ≠ 0
  · by_cases h1 : s1 = i
    · by_cases h2 : s2 = j
      · rw [if_pos ⟨h1, by omega, by omega, hq⟩, if_pos ⟨⟨h1, h2⟩, hq⟩, if_neg]
        omega
      · by_cases h3 : j + 1 ≤ s2 ∧ s2 < j + 1 + n
        · rw [if_pos ⟨h1, by omega, by omega, hq⟩, if_neg (fun h => h2 h.1.2),
            if_pos ⟨h1, h3.1, h3.2, hq⟩]
        · rw [if_neg (fun h => h3 ⟨by omega, by omega⟩), if_neg (fun h => h2 h.1.2),
            if_neg (fun h => h3 ⟨h.2.1, h.2.2.1⟩)]
    · rw [if_neg (fun h => h1 h.1), if_neg (fun h => h1 h.1.1), if_neg (fun h => h1 h.1)]
  · rw [if_neg (fun h => hq h.2.2.2), if_neg (fun h => hq h.2), if_neg (fun h => hq h.2.2.2)]

theorem rewriteTops_eq (a : Analysis) (i : Nat) (ts : List String) :
    ∀ (j : Nat) (st : TopsState), rewriteTops a i j ts st =
      { layer_param :=
          if lossMoved a i j ts then { st.layer_param with loss_weight := [] }
          else st.layer_param
        splits := st.splits ++ splitsFrom a i j ts
        split_idx := fun s => st.split_idx s + lossBump a i j ts.length s } := by
  induction ts with
  | nil => intro j st; simp [rewriteTops, splitsFrom, lossMoved, lossBump_zero]
  | cons b rest ih =>
    intro j st
    unfold rewriteTops
    simp only []
    by_cases hc : 1 < a.top_idx_to_bottom_count (i, j)
    · by_cases hw : a.top_idx_to_loss_weight (i, j) = 0
      · rw [if_pos hc, if_neg (by simpa using hw), ih]
        rw [TopsState.mk.injEq]
        refine ⟨?_, ?_, ?_⟩
        · simp [lossMoved, hw]
        · simp [splitsFrom, hc, splitLayerOf]
        · funext s
          simp only [List.length_cons, lossBump_succ]
          by_cases h1 : s = (i, j)
          · subst h1; simp [hw]
          · simp [h1]
      · rw [if_pos hc, if_pos (by simpa using hw), ih]
        rw [TopsState.mk.injEq]
        refine ⟨?_, ?_, ?_⟩
        · simp [lossMoved, hw, hc]
        · simp [splitsFrom, hc, splitLayerOf]
        · funext s
          simp only [List.length_cons, lossBump_succ]
          by_cases h1 : s = (i, j)
          · subst h1; simp [hw, hc]; omega
          · rw [Function.update_noteq h1]
            simp [h1]
    · rw [if_neg hc, ih]
      rw [TopsState.mk.injEq]
      refine ⟨?_, ?_, ?_⟩
      · simp [lossMoved, hc]
      · simp [splitsFrom, hc]
      · funext s
        simp only [List.length_cons, lossBump_succ]
        by_cases h1 : s = (i, j)
        · subst h1; simp [hc]
        · simp [h1]

theorem rewriteBottoms_snd (a : Analysis) (i : Nat) (bs : List String) :
    ∀ (j : Nat) (idx : Nat × Nat → Nat), (rewriteBottoms a i j bs idx).2 =
      fun s => idx s + (if 1 < a.FanoutCount s then
        (List.range' j bs.length).countP (fun j' => decide (a.source i j' = s)) else 0) := by
  induction bs with
  | nil => intro j idx; simp [rewriteBottoms]
  | cons b rest ih =>
    intro j idx
    unfold rewriteBottoms
    simp only []
    by_cases hc : 1 < a.top_idx_to_bottom_count (a.bottom_idx_to_source_top_idx (i, j))
    · rw [if_pos hc]
      simp only [ih, List.length_cons, List.range'_succ, List.countP_cons]
      funext s
      by_cases h1 : a.bottom_idx_to_source_top_idx (i, j) = s
      · subst h1
        simp [Analysis.FanoutCount, Analysis.source, hc]
        omega
      · rw [Function.update_noteq (Ne.symm h1)]
        simp [Analysis.source, h1]
    · rw [if_neg hc]
      simp only [ih, List.length_cons, List.range'_succ, List.countP_cons]
      funext s
      by_cases h1 : a.bottom_idx_to_source_top_idx (i, j) = s
      · subst h1
        simp [Analysis.FanoutCount, Analysis.source, hc]
      · simp [Analysis.source, h1]

theorem rewriteBottoms_length (a : Analysis) (i : Nat) (bs : List String) :
    ∀ (j : Nat) (idx : Nat × Nat → Nat), (rewriteBottoms a i j bs idx).1.length = bs.length := by
  induction bs with
  | nil => intro j idx; simp [rewriteBottoms]
  | cons b rest ih =>
    intro j idx
    unfold rewriteBottoms
    simp only []
    split <;> simp [ih]

theorem rewriteBottoms_getElem? (a : Analysis) (i : Nat) (bs : List String) :
    ∀ (j : Nat) (idx : Nat × Nat → Nat) (k : Nat) (b : String), bs[k]? = some b →
      (rewriteBottoms a i j bs idx).1[k]? =
        some (renamedBottom a i (j + k) b (idx (a.source i (j + k)) +
          (List.range' j k).countP (fun j' => decide (a.source i j' = a.source i (j + k))))) := by
  induction bs with
  | nil => intro j idx k b h; simp at h
  | cons b0 rest ih =>
    intro j idx k b h
    unfold rewriteBottoms
    simp only []
    cases k with
    | zero =>
      simp only [List.getElem?_cons_zero, Option.some.injEq] at h
      subst h
      by_cases hc : 1 < a.top_idx_to_bottom_count (a.bottom_idx_to_source_top_idx (i, j))
      · simp [renamedBottom, Analysis.FanoutCount, Analysis.source, hc]
      · simp [renamedBottom, Analysis.FanoutCount, Analysis.source, hc]
    | succ k =>
      simp only [List.getElem?_cons_succ] at h
      have e : j + (k + 1) = j + 1 + k := by omega
      by_cases hc : 1 < a.top_idx_to_bottom_count (a.bottom_idx_to_source_top_idx (i, j))
      · rw [if_pos hc]
        simp only [List.getElem?_cons_succ]
        rw [ih (j + 1) _ k b h, e, List.range'_succ, List.countP_cons]
        congr 2
        by_cases h1 : a.bottom_idx_to_source_top_idx (i, j) = a.source i (j + 1 + k)
        · rw [← h1]; simp [Analysis.source]; omega
        · rw [Function.update_noteq (Ne.symm h1)]
          simp [Analysis.source, h1]
      · rw [if_neg hc]
        simp only [List.getElem?_cons_succ]
        rw [ih (j + 1) _ k b h, e, List.range'_succ, List.countP_cons]
        by_cases h1 : a.bottom_idx_to_source_top_idx (i, j) = a.source i (j + 1 + k)
        · have hc2 : ¬ 1 < a.FanoutCount (a.source i (j + 1 + k)) := by rw [← h1]; exact hc
          simp [renamedBottom, hc2]
        · simp [Analysis.source, h1]

theorem list_split_at {α : Type} (ls : List α) (i : Nat) (l : α) (hl : ls[i]? = some l) :
    i < ls.length ∧ ls = ls.take i ++ l :: ls.drop (i + 1) := by
  obtain ⟨hi, he⟩ := List.getElem?_eq_some.1 hl
  refine ⟨hi, ?_⟩
  rw [← he, ← List.drop_eq_getElem_cons hi, List.take_append_drop]

theorem rewriteLayer_fst (a : Analysis) (i : Nat) (orig : LayerParameter) (idx : Nat × Nat → Nat) :
    (rewriteLayer a i orig idx).1 = cloneOf a i orig idx :: splitsFrom a i 0 orig.top := by
  simp only [rewriteLayer, rewriteTops_eq, cloneOf, List.nil_append]
  split <;> rfl

theorem rewriteLayer_snd (a : Analysis) (i : Nat) (orig : LayerParameter) (idx : Nat × Nat → Nat) :
    (rewriteLayer a i orig idx).2 = fun s =>
      idx s + (if 1 < a.FanoutCount s then refsIn a i orig.bottom.length s else 0) +
        lossBump a i 0 orig.top.length s := by
  simp [rewriteLayer, rewriteTops_eq, rewriteBottoms_snd, refsIn, List.range_eq_range']

theorem rewriteLayers_append (a : Analysis) (xs ys : List LayerParameter) :
    ∀ (i : Nat) (idx : Nat × Nat → Nat), rewriteLayers a i (xs ++ ys) idx =
      rewriteLayers a i xs idx ++ rewriteLayers a (i + xs.length) ys (splitIdxAfter a i xs idx) := by
  induction xs with
  | nil => intro i idx; simp [rewriteLayers, splitIdxAfter]
  | cons x xs ih =>
    intro i idx
    rw [List.cons_append]
    simp only [rewriteLayers, splitIdxAfter, ih, List.append_assoc, List.length_cons]
    rw [show i + 1 + xs.length = i + (xs.length + 1) by omega]

theorem splitsFrom_length (a : Analysis) (i : Nat) (ts : List String) :
    ∀ j : Nat, (splitsFrom a i j ts).length =
      (List.range' j ts.length).countP (fun j' => decide (1 < a.FanoutCount (i, j'))) := by
  induction ts with
  | nil => intro j; simp [splitsFrom]
  | cons b rest ih =>
    intro j
    unfold splitsFrom
    by_cases hc : 1 < a.FanoutCount (i, j)
    · simp [hc, ih, List.range'_succ, List.countP_cons]
    · simp [hc, ih, List.range'_succ, List.countP_cons]

theorem splitsFrom_getElem? (a : Analysis) (i : Nat) (ts : List String) :
    ∀ (j k : Nat) (b : String), ts[k]? = some b → 1 < a.FanoutCount (i, j + k) →
      (splitsFrom a i j ts)[(List.range' j k).countP
        (fun j' => decide (1 < a.FanoutCount (i, j')))]? = some (splitLayerOf a i (j + k) b) := by
  induction ts with
  | nil => intro j k b h; simp at h
  | cons b0 rest ih =>
    intro j k b h hc
    cases k with
    | zero =>
      simp only [List.getElem?_cons_zero, Option.some.injEq] at h
      subst h
      simp only [Nat.add_zero] at hc
      simp [splitsFrom, hc]
    | succ k =>
      simp only [List.getElem?_cons_succ] at h
      have e : j + (k + 1) = j + 1 + k := by omega
      rw [e] at hc ⊢
      have := ih (j + 1) k b h hc
      unfold splitsFrom
      by_cases hc0 : 1 < a.FanoutCount (i, j)
      · simp [hc0, List.range'_succ, List.countP_cons, this]
      · simp [hc0, List.range'_succ, List.countP_cons, this]

theorem rewriteLayers_length (a : Analysis) (ls : List LayerParameter) :
    ∀ (i : Nat) (idx : Nat × Nat → Nat),
      (rewriteLayers a i ls idx).length = ls.length + splitSites a i ls := by
  induction ls with
  | nil => intro i idx; simp [rewriteLayers, splitSites]
  | cons l ls ih =>
    intro i idx
    simp only [rewriteLayers, List.length_append, rewriteLayer_fst, List.length_cons, ih,
      splitsFrom_length, splitSites, splitsBelow, List.range_eq_range']
    omega

theorem rewriteLayers_getElem?_mid (a : Analysis) (pre post : List LayerParameter)
    (l : LayerParameter) (idx : Nat × Nat → Nat) (t : Nat)
    (ht : t ≤ splitsBelow a pre.length l.top.length) :
    (rewriteLayers a 0 (pre ++ l :: post) idx)[pre.length + splitSites a 0 pre + t]? =
      (cloneOf a pre.length l (splitIdxAfter a 0 pre idx) ::
        splitsFrom a pre.length 0 l.top)[t]? := by
  rw [rewriteLayers_append, Nat.zero_add]
  have h1 : (rewriteLayers a 0 pre idx).length = pre.length + splitSites a 0 pre :=
    rewriteLayers_length a pre 0 idx
  rw [List.getElem?_append_right (by omega), h1, Nat.add_sub_cancel_left]
  simp only [rewriteLayers, rewriteLayer_fst]
  rw [List.getElem?_append_left]
  simp only [List.length_cons, splitsFrom_length, ← List.range_eq_range']
  unfold splitsBelow at ht
  omega

/-- The layers that the second pass emits for layer `i`, read at offset `t` from the position of
its clone. -/
theorem rewriteLayers_getElem?_segment (a : Analysis) (ls : List LayerParameter)
    (idx : Nat × Nat → Nat) (i : Nat) (l : LayerParameter) (hl : ls[i]? = some l) (t : Nat)
    (ht : t ≤ splitsBelow a i l.top.length) :
    (rewriteLayers a 0 ls idx)[clonePos a ls i + t]? =
      (cloneOf a i l (splitIdxAfter a 0 (ls.take i) idx) :: splitsFrom a i 0 l.top)[t]? := by
  obtain ⟨hi, hsplit⟩ := list_split_at ls i l hl
  have hlen : (ls.take i).length = i := by simp; omega
  have := rewriteLayers_getElem?_mid a (ls.take i) (ls.drop (i + 1)) l idx t
    (by rw [hlen]; exact ht)
  rw [← hsplit, hlen] at this
  exact this

/-! ### Decimal printing is injective -/

theorem digitChar_val : ∀ k, k < 10 → (Nat.digitChar k).toNat - 48 = k := by
  decide

theorem toDigitsCore_decode (fuel : Nat) : ∀ (n : Nat) (ds : List Char), n < fuel →
    (Nat.toDigitsCore 10 fuel n ds).foldl (fun acc c => 10 * acc + (c.toNat - 48)) 0 =
      ds.foldl (fun acc c => 10 * acc + (c.toNat - 48)) n := by
  induction fuel with
  | zero => intro n ds h; omega
  | succ fuel ih =>
    intro n ds h
    rw [Nat.toDigitsCore]
    by_cases h0 : n / 10 = 0
    · rw [if_pos h0]
      have hn : n < 10 := by omega
      simp only [List.foldl_cons, Nat.mul_zero, Nat.zero_add]
      rw [digitChar_val _ (Nat.mod_lt _ (by omega)), Nat.mod_eq_of_lt hn]
    · rw [if_neg h0, ih (n / 10) _ (by omega)]
      simp only [List.foldl_cons]
      rw [digitChar_val _ (Nat.mod_lt _ (by omega))]
      congr 1
      omega

theorem Nat_repr_injective : Function.Injective Nat.repr := by
  intro n m h
  have h0 : Nat.toDigitsCore 10 (n + 1) n [] = Nat.toDigitsCore 10 (m + 1) m [] :=
    congrArg String.data h
  have h1 := toDigitsCore_decode (n + 1) n [] (by omega)
  have h2 := toDigitsCore_decode (m + 1) m [] (by omega)
  simp only [List.foldl_nil] at h1 h2
  rw [h0] at h1
  omega

theorem toString_nat_injective {n m : Nat} (h : toString n = toString m) : n = m :=
  Nat_repr_injective h

theorem string_append_left_cancel {a b c : String} (h : a ++ b = a ++ c) : b = c := by
  have := congrArg String.data h
  simp only [String.data_append] at this
  exact String.ext (List.append_cancel_left this)

theorem SplitBlobName_inj_idx {ln bn : String} {bi k k2 : Nat}
    (h : SplitBlobName ln bn bi k = SplitBlobName ln bn bi k2) : k = k2 :=
  toString_nat_injective (string_append_left_cancel h)

theorem splitTops_nodup (ln bn : String) (bi n : Nat) :
    ((List.range n).map (SplitBlobName ln bn bi)).Nodup :=
  (List.nodup_range n).map (fun _ _ h => SplitBlobName_inj_idx h)

/-! ### The first pass: loops, invariant, outcome -/

theorem lastIdx_cons (b : String) (rest : List String) (n : String) :
    lastIdx (b :: rest) n =
      match lastIdx rest n with
      | some k => some (k + 1)
      | none => if b = n then some 0 else none := by
  rw [lastIdx] <;> cases lastIdx rest n <;> rfl

theorem lastIdx_eq_none {ts : List String} {n : String} : lastIdx ts n = none ↔ n ∉ ts := by
  induction ts with
  | nil => simp [lastIdx]
  | cons b rest ih =>
    rw [lastIdx_cons]
    cases h : lastIdx rest n with
    | some k =>
      have : n ∈ rest := by
        by_contra hn
        rw [ih.2 hn] at h; cases h
      simp [this]
    | none =>
      have hn := ih.1 h
      by_cases hb : b = n
      · simp [hb]
      · simp [hb, hn, Ne.symm hb]

theorem lastIdx_eq_some {ts : List String} {n : String} {k : Nat} (h : lastIdx ts n = some k) :
    ts[k]? = some n ∧ ∀ k', k < k' → ts[k']? ≠ some n := by
  induction ts generalizing k with
  | nil => simp [lastIdx] at h
  | cons b rest ih =>
    rw [lastIdx_cons] at h
    cases h1 : lastIdx rest n with
    | some k1 =>
      rw [h1] at h
      simp only [Option.some.injEq] at h
      subst h
      obtain ⟨h2, h3⟩ := ih h1
      refine ⟨by simpa using h2, ?_⟩
      intro k' hk'
      obtain ⟨m, rfl⟩ : ∃ m, k' = m + 1 := ⟨k' - 1, by omega⟩
      simpa using h3 m (by omega)
    | none =>
      rw [h1] at h
      by_cases hb : b = n
      · simp only [hb, if_true, Option.some.injEq] at h
        subst h
        refine ⟨by simp [hb], ?_⟩
        intro k' hk'
        obtain ⟨m, rfl⟩ : ∃ m, k' = m + 1 := ⟨k' - 1, by omega⟩
        have hn := lastIdx_eq_none.1 h1
        intro hc
        simp only [List.getElem?_cons_succ] at hc
        exact hn (List.getElem?_mem hc)
      · simp [hb] at h

theorem lastIdx_of_nodup {ts : List String} (hnd : ts.Nodup) {n : String} {k : Nat}
    (h : ts[k]? = some n) : lastIdx ts n = some k := by
  cases h1 : lastIdx ts n with
  | none =>
    exact absurd (List.getElem?_mem h) (lastIdx_eq_none.1 h1)
  | some k1 =>
    obtain ⟨h2, _⟩ := lastIdx_eq_some h1
    obtain ⟨hk, e⟩ := List.getElem?_eq_some.1 h
    obtain ⟨hk1, e1⟩ := List.getElem?_eq_some.1 h2
    have := (List.Nodup.getElem_inj_iff hnd).1 (e.trans e1.symm)
    rw [this]

theorem analyzeTops_eq (i : Nat) (ts : List String) :
    ∀ (j : Nat) (st : Analysis), analyzeTops i j ts st =
      { st with
        blob_name_to_last_top_idx := fun n =>
          match lastIdx ts n with
          | some k => some (i, j + k)
          | none => st.blob_name_to_last_top_idx n } := by
  induction ts with
  | nil => intro j st; simp [analyzeTops, lastIdx]
  | cons b rest ih =>
    intro j st
    unfold analyzeTops
    rw [ih]
    congr 1
    funext n
    rw [lastIdx_cons]
    cases h1 : lastIdx rest n with
    | some k => simp only []; rw [show j + 1 + k = j + (k + 1) by omega]
    | none =>
      by_cases hb : b = n
      · subst hb; simp
      · simp [hb, Function.update_noteq (Ne.symm hb)]

theorem analyzeBottoms_ok (ln : String) (i : Nat) (bs : List String) :
    ∀ (j : Nat) (st st' : Analysis), analyzeBottoms ln i j bs st = .ok st' →
      st'.blob_name_to_last_top_idx = st.blob_name_to_last_top_idx ∧
      st'.top_idx_to_loss_weight = st.top_idx_to_loss_weight ∧
      st'.layer_idx_to_layer_name = st.layer_idx_to_layer_name ∧
      (∀ k b, bs[k]? = some b →
        st.blob_name_to_last_top_idx b = some (st'.bottom_idx_to_source_top_idx (i, j + k))) ∧
      (∀ key : Nat × Nat, key.1 ≠ i ∨ key.2 < j →
        st'.bottom_idx_to_source_top_idx key = st.bottom_idx_to_source_top_idx key) ∧
      (∀ s, st'.top_idx_to_bottom_count s = st.top_idx_to_bottom_count s +
        bs.countP (fun b => decide (st.blob_name_to_last_top_idx b = some s))) := by
  induction bs with
  | nil =>
    intro j st st' h
    simp only [analyzeBottoms, Except.ok.injEq] at h
    subst h
    simp
  | cons b0 rest ih =>
    intro j st st' h
    unfold analyzeBottoms at h
    cases hb : st.blob_name_to_last_top_idx b0 with
    | none => rw [hb] at h; cases h
    | some t =>
      rw [hb] at h
      simp only [] at h
      obtain ⟨h1, h2, h3, h4, h5, h6⟩ := ih (j + 1) _ st' h
      simp only [] at h1 h2 h3 h4 h5 h6
      refine ⟨h1, h2, h3, ?_, ?_, ?_⟩
      · intro k b hk
        cases k with
        | zero =>
          simp only [List.getElem?_cons_zero, Option.some.injEq] at hk
          subst hk
          rw [hb, Nat.add_zero, h5 (i, j) (Or.inr (by simp))]
          simp
        | succ k =>
          simp only [List.getElem?_cons_succ] at hk
          have := h4 k b hk
          rw [show j + (k + 1) = j + 1 + k by omega]
          exact this
      · intro key hkey
        rw [h5 key (by omega)]
        apply Function.update_noteq
        intro e
        subst e
        simp at hkey
      · intro s
        rw [h6 s, List.countP_cons]
        by_cases e : t = s
        · subst e
          simp [hb]; omega
        · rw [Function.update_noteq (Ne.symm e)]
          simp [hb, e]

theorem analyzeBottoms_error (ln : String) (i : Nat) (bs : List String) :
    ∀ (j : Nat) (st : Analysis) (e : String), analyzeBottoms ln i j bs st = .error e ↔
      ∃ k b, bs[k]? = some b ∧ st.blob_name_to_last_top_idx b = none ∧
        (∀ k' b', k' < k → bs[k']? = some b' → st.blob_name_to_last_top_idx b' ≠ none) ∧
        e = unknownBottom b ln (j + k) := by
  induction bs with
  | nil => intro j st e; simp [analyzeBottoms]
  | cons b0 rest ih =>
    intro j st e
    unfold analyzeBottoms
    cases hb : st.blob_name_to_last_top_idx b0 with
    | none =>
      simp only [Except.error.injEq]
      constructor
      · intro h
        exact ⟨0, b0, by simp, hb, by simp, by simp [h]⟩
      · rintro ⟨k, b, h1, h2, h3, h4⟩
        cases k with
        | zero =>
          simp only [List.getElem?_cons_zero, Option.some.injEq] at h1
          subst h1; simp [h4]
        | succ k =>
          exact absurd hb (h3 0 b0 (by omega) (by simp))
    | some t =>
      simp only []
      rw [ih]
      simp only []
      constructor
      · rintro ⟨k, b, h1, h2, h3, h4⟩
        refine ⟨k + 1, b, by simpa using h1, h2, ?_, by rw [h4]; congr 1; omega⟩
        intro k' b' hk' hb'
        cases k' with
        | zero =>
          simp only [List.getElem?_cons_zero, Option.some.injEq] at hb'
          subst hb'; simp [hb]
        | succ k' =>
          exact h3 k' b' (by omega) (by simpa using hb')
      · rintro ⟨k, b, h1, h2, h3, h4⟩
        cases k with
        | zero =>
          simp only [List.getElem?_cons_zero, Option.some.injEq] at h1
          subst h1; rw [hb] at h2; cases h2
        | succ k =>
          refine ⟨k, b, by simpa using h1, h2, ?_, by rw [h4]; congr 1; omega⟩
          intro k' b' hk' hb'
          exact h3 (k' + 1) b' (by omega) (by simpa using hb')

theorem analyzeBottoms_isOk (ln : String) (i : Nat) (bs : List String) (j : Nat) (st : Analysis)
    (h : ∀ b ∈ bs, st.blob_name_to_last_top_idx b ≠ none) :
    ∃ st', analyzeBottoms ln i j bs st = .ok st' := by
  cases hr : analyzeBottoms ln i j bs st with
  | ok st' => exact ⟨st', rfl⟩
  | error e =>
    obtain ⟨k, b, h1, h2, _, _⟩ := (analyzeBottoms_error ln i bs j st e).1 hr
    exact absurd h2 (h b (List.getElem?_mem h1))

theorem analyzeLoss_frame (ts : List String) :
    ∀ (ws : List ℚ) (st : Analysis),
      (analyzeLoss ts ws st).blob_name_to_last_top_idx = st.blob_name_to_last_top_idx ∧
      (analyzeLoss ts ws st).bottom_idx_to_source_top_idx = st.bottom_idx_to_source_top_idx ∧
      (analyzeLoss ts ws st).layer_idx_to_layer_name = st.layer_idx_to_layer_name := by
  induction ts with
  | nil => intro ws st; simp [analyzeLoss]
  | cons b rest ih =>
    intro ws st
    cases ws with
    | nil => simp [analyzeLoss]
    | cons w ws =>
      unfold analyzeLoss
      simp only []
      obtain ⟨h1, h2, h3⟩ := ih ws
        { st with
          top_idx_to_loss_weight := Function.update st.top_idx_to_loss_weight
            ((st.blob_name_to_last_top_idx b).getD (0, 0)) w
          top_idx_to_bottom_count :=
            if w ≠ 0 then
              Function.update st.top_idx_to_bottom_count
                ((st.blob_name_to_last_top_idx b).getD (0, 0))
                (st.top_idx_to_bottom_count ((st.blob_name_to_last_top_idx b).getD (0, 0)) + 1)
            else st.top_idx_to_bottom_count }
      exact ⟨h1, h2, h3⟩

theorem analyzeLoss_count (ts : List String) :
    ∀ (ws : List ℚ) (st : Analysis) (s : Nat × Nat),
      (analyzeLoss ts ws st).top_idx_to_bottom_count s = st.top_idx_to_bottom_count s +
        (ts.zip ws).countP (fun p => decide (p.2 ≠ 0) &&
          decide ((st.blob_name_to_last_top_idx p.1).getD (0, 0) = s)) := by
  induction ts with
  | nil => intro ws st s; simp [analyzeLoss]
  | cons b rest ih =>
    intro ws st s
    cases ws with
    | nil => simp [analyzeLoss]
    | cons w ws =>
      unfold analyzeLoss
      simp only []
      rw [ih]
      simp only [List.zip_cons_cons, List.countP_cons]
      by_cases hw : w = 0
      · simp [hw]
      · by_cases e : (st.blob_name_to_last_top_idx b).getD (0, 0) = s
        · subst e
          simp [hw]; omega
        · rw [if_pos hw, Function.update_noteq (Ne.symm e)]
          simp [hw]
          exact e

theorem analyzeLoss_lw_frame (ts : List String) :
    ∀ (ws : List ℚ) (st : Analysis) (s : Nat × Nat),
      (∀ b ∈ ts, (st.blob_name_to_last_top_idx b).getD (0, 0) ≠ s) →
      (analyzeLoss ts ws st).top_idx_to_loss_weight s = st.top_idx_to_loss_weight s := by
  induction ts with
  | nil => intro ws st s _; simp [analyzeLoss]
  | cons b rest ih =>
    intro ws st s h
    cases ws with
    | nil => simp [analyzeLoss]
    | cons w ws =>
      unfold analyzeLoss
      simp only []
      rw [ih]
      · simp only []
        exact Function.update_noteq (Ne.symm (h b (by simp))) _ _
      · intro b' hb'
        exact h b' (by simp [hb'])

theorem analyzeLoss_lw_nodup (i : Nat) (ts : List String) :
    ∀ (ws : List ℚ) (j0 : Nat) (st : Analysis),
      (∀ k b, ts[k]? = some b → st.blob_name_to_last_top_idx b = some (i, j0 + k)) →
      ∀ k, (analyzeLoss ts ws st).top_idx_to_loss_weight (i, j0 + k) =
        if k < ts.length ∧ k < ws.length then ws.getD k 0
        else st.top_idx_to_loss_weight (i, j0 + k) := by
  induction ts with
  | nil => intro ws j0 st _ k; simp [analyzeLoss]
  | cons b rest ih =>
    intro ws j0 st h k
    cases ws with
    | nil => simp [analyzeLoss]
    | cons w ws =>
      unfold analyzeLoss
      simp only []
      have hb : st.blob_name_to_last_top_idx b = some (i, j0) := by
        simpa using h 0 b (by simp)
      rw [hb]
      simp only [Option.getD_some]
      cases k with
      | zero =>
        rw [analyzeLoss_lw_frame]
        · simp
        · intro b' hb'
          obtain ⟨k', hk'⟩ := List.mem_iff_getElem?.1 hb'
          have := h (k' + 1) b' (by simpa using hk')
          simp only [] 
          rw [this]
          simp
      | succ k =>
        have := ih ws (j0 + 1)
          { st with
            top_idx_to_loss_weight := Function.update st.top_idx_to_loss_weight (i, j0) w
            top_idx_to_bottom_count :=
              if w ≠ 0 then
                Function.update st.top_idx_to_bottom_count (i, j0)
                  (st.top_idx_to_bottom_count (i, j0) + 1)
              else st.top_idx_to_bottom_count }
          (by
            intro k' b' hk'
            have := h (k' + 1) b' (by simpa using hk')
            simp only []
            rw [this]
            congr 2
            omega) k
        rw [show j0 + (k + 1) = j0 + 1 + k by omega, this]
        simp only [List.length_cons, Nat.add_lt_add_iff_right, List.getD_cons_succ]
        split
        · rfl
        · apply Function.update_noteq
          simp only [ne_eq, Prod.mk.injEq, true_and]
          omega

theorem producer_succ (ls : List LayerParameter) (i : Nat) (l : LayerParameter)
    (hl : ls[i]? = some l) (n : String) :
    producer ls (i + 1) n =
      match lastIdx l.top n with
      | some j => some (i, j)
      | none => producer ls i n := by
  simp only [producer, hl] <;> cases lastIdx l.top n <;> rfl

theorem producer_succ_of_mem (ls : List LayerParameter) (i : Nat) (l : LayerParameter)
    (hl : ls[i]? = some l) (n : String) (hn : n ∈ l.top) :
    ∃ j, lastIdx l.top n = some j ∧ producer ls (i + 1) n = some (i, j) := by
  cases h : lastIdx l.top n with
  | none => exact absurd hn (lastIdx_eq_none.1 h)
  | some j => exact ⟨j, rfl, by rw [producer_succ ls i l hl, h]⟩

theorem AnalysisInv.empty (ls : List LayerParameter) : AnalysisInv ls 0 Analysis.empty := by
  constructor
  · intro n; simp [Analysis.empty, producer]
  · intro i' j l b h; omega
  · intro s; simp [Analysis.empty, refCount, lossCount]
  · intro i' l h; omega
  · intro s _; simp [Analysis.empty]
  · intro i' l h; omega

theorem AnalysisInv.step (ls : List LayerParameter) (i : Nat) (st st' : Analysis)
    (l : LayerParameter) (hl : ls[i]? = some l) (inv : AnalysisInv ls i st)
    (h : analyzeLayer i l st = .ok st') : AnalysisInv ls (i + 1) st' := by
  unfold analyzeLayer at h
  simp only [] at h
  cases hb : analyzeBottoms l.name i 0 l.bottom
      { st with layer_idx_to_layer_name := Function.update st.layer_idx_to_layer_name i l.name } with
  | error e => rw [hb] at h; cases h
  | ok st2 =>
    rw [hb] at h
    simp only [Except.ok.injEq] at h
    obtain ⟨b1, b2, b3, b4, b5, b6⟩ := analyzeBottoms_ok _ _ _ _ _ _ hb
    simp only [] at b1 b2 b3 b4 b5 b6
    obtain ⟨f1, f2, f3⟩ := analyzeLoss_frame l.top l.loss_weight (analyzeTops i 0 l.top st2)
    rw [h] at f1 f2 f3
    have hblob : ∀ n, st'.blob_name_to_last_top_idx n = producer ls (i + 1) n := by
      intro n
      rw [f1, analyzeTops_eq, producer_succ ls i l hl]
      simp only [Nat.zero_add]
      cases lastIdx l.top n with
      | some k => rfl
      | none => simp only []; rw [b1, inv.blob]
    have t1 : (analyzeTops i 0 l.top st2).top_idx_to_bottom_count = st2.top_idx_to_bottom_count := by
      rw [analyzeTops_eq]
    have t2 : (analyzeTops i 0 l.top st2).top_idx_to_loss_weight = st2.top_idx_to_loss_weight := by
      rw [analyzeTops_eq]
    have hblob3 : ∀ n, (analyzeTops i 0 l.top st2).blob_name_to_last_top_idx n =
        producer ls (i + 1) n := by
      intro n; rw [← f1]; exact hblob n
    constructor
    · exact hblob
    · intro i' j l' b hi' hl' hb'
      rw [f2, analyzeTops_eq]
      simp only []
      rcases Nat.lt_or_ge i' i with hlt | hge
      · rw [b5 (i', j) (Or.inl (by simp; omega))]
        exact inv.src i' j l' b hlt hl' hb'
      · have e : i' = i := by omega
        subst e
        rw [hl] at hl'
        cases hl'
        have := b4 j b hb'
        rw [inv.blob, Nat.zero_add] at this
        exact this
    · intro s
      rw [← h, analyzeLoss_count, t1, b6, inv.count, refCount, lossCount, hl]
      simp only []
      have e1 : List.countP (fun b => decide (st.blob_name_to_last_top_idx b = some s)) l.bottom =
          List.countP (fun b => decide (producer ls i b = some s)) l.bottom := by
        apply List.countP_congr
        intro b _
        rw [inv.blob]
      have e2 : List.countP (fun p : String × ℚ => decide (p.2 ≠ 0) && decide
          (((analyzeTops i 0 l.top st2).blob_name_to_last_top_idx p.1).getD (0, 0) = s))
          (l.top.zip l.loss_weight) =
          List.countP (fun p => decide (p.2 ≠ 0) && decide (producer ls (i + 1) p.1 = some s))
            (l.top.zip l.loss_weight) := by
        apply List.countP_congr
        intro p hp
        obtain ⟨j, hj, hj2⟩ := producer_succ_of_mem ls i l hl p.1 (List.of_mem_zip hp).1
        rw [hblob3, hj2]
        simp
      rw [e1, e2]
      omega
    · intro i' l' hi' hl' hnd j
      rw [← h]
      rcases Nat.lt_or_ge i' i with hlt | hge
      · rw [analyzeLoss_lw_frame, t2, b2]
        · exact inv.lw i' l' hlt hl' hnd j
        · intro b hb'
          obtain ⟨j', _, hj2⟩ := producer_succ_of_mem ls i l hl b hb'
          rw [hblob3, hj2]
          simp only [Option.getD_some, ne_eq, Prod.mk.injEq, not_and]
          omega
      · have e : i' = i := by omega
        subst e
        rw [hl] at hl'
        cases hl'
        have := analyzeLoss_lw_nodup i' l.top l.loss_weight 0 (analyzeTops i' 0 l.top st2)
          (by
            intro k b hk
            rw [hblob3, producer_succ ls i' l hl, lastIdx_of_nodup hnd hk, Nat.zero_add]) j
        rw [Nat.zero_add] at this
        rw [this, t2, b2, inv.lw_zero (i', j) (Nat.le_refl _)]
        unfold declaredLoss
        by_cases h1 : j < l.top.length
        · by_cases h2 : j < l.loss_weight.length
          · simp [h1, h2]
          · simp only [h1, h2, and_false, if_false, if_true]
            rw [List.getD_eq_getElem?_getD, List.getElem?_eq_none (by omega)]
            rfl
        · simp only [h1, false_and, if_false]
    · intro s hs
      rw [← h, analyzeLoss_lw_frame, t2, b2]
      · exact inv.lw_zero s (by omega)
      · intro b hb'
        obtain ⟨j', _, hj2⟩ := producer_succ_of_mem ls i l hl b hb'
        rw [hblob3, hj2]
        simp only [Option.getD_some, ne_eq]
        intro e
        rw [← e] at hs
        simp at hs
    · intro i' l' hi' hl'
      rw [f3, analyzeTops_eq]
      simp only []
      rw [b3]
      rcases Nat.lt_or_ge i' i with hlt | hge
      · rw [Function.update_noteq (by omega)]
        exact inv.lname i' l' hlt hl'
      · have e : i' = i := by omega
        subst e
        rw [hl] at hl'
        cases hl'
        simp

theorem analyzeLayers_append (xs ys : List LayerParameter) :
    ∀ (i : Nat) (st : Analysis), analyzeLayers i (xs ++ ys) st =
      match analyzeLayers i xs st with
      | .ok st1 => analyzeLayers (i + xs.length) ys st1
      | .error e => .error e := by
  induction xs with
  | nil => intro i st; simp [analyzeLayers]
  | cons x xs ih =>
    intro i st
    rw [List.cons_append]
    simp only [analyzeLayers]
    cases analyzeLayer i x st with
    | error e => rfl
    | ok st1 =>
      simp only []
      rw [ih, List.length_cons, show i + 1 + xs.length = i + (xs.length + 1) by omega]

theorem producer_eq_none (ls : List LayerParameter) (n : String) :
    ∀ i, producer ls i n = none ↔ ∀ i' l', i' < i → ls[i']? = some l' → n ∉ l'.top := by
  intro i
  induction i with
  | zero => simp [producer]
  | succ i ih =>
    cases hl : ls[i]? with
    | none =>
      simp only [producer, hl]
      rw [ih]
      constructor
      · intro h i' l' hi' hl'
        rcases Nat.lt_or_ge i' i with h1 | h1
        · exact h i' l' h1 hl'
        · have : i' = i := by omega
          subst this; rw [hl] at hl'; cases hl'
      · intro h i' l' hi' hl'
        exact h i' l' (by omega) hl'
    | some l =>
      rw [producer_succ ls i l hl]
      cases h1 : lastIdx l.top n with
      | some k =>
        simp only []
        constructor
        · intro h; cases h
        · intro h
          have := h i l (by omega) hl
          rw [lastIdx_eq_none.2 this] at h1
          cases h1
      | none =>
        simp only []
        rw [ih]
        have hn := lastIdx_eq_none.1 h1
        constructor
        · intro h i' l' hi' hl'
          rcases Nat.lt_or_ge i' i with h2 | h2
          · exact h i' l' h2 hl'
          · have : i' = i := by omega
            subst this; rw [hl] at hl'; cases hl'; exact hn
        · intro h i' l' hi' hl'
          exact h i' l' (by omega) hl'

theorem producer_eq_some (ls : List LayerParameter) (n : String) :
    ∀ i s, producer ls i n = some s →
      s.1 < i ∧ ∃ l, ls[s.1]? = some l ∧ lastIdx l.top n = some s.2 ∧
        ∀ i' l', s.1 < i' → i' < i → ls[i']? = some l' → n ∉ l'.top := by
  intro i
  induction i with
  | zero => intro s h; simp [producer] at h
  | succ i ih =>
    intro s h
    cases hl : ls[i]? with
    | none =>
      simp only [producer, hl] at h
      obtain ⟨h1, l, h2, h3, h4⟩ := ih s h
      refine ⟨by omega, l, h2, h3, ?_⟩
      intro i' l' hi' hi2 hl'
      rcases Nat.lt_or_ge i' i with h5 | h5
      · exact h4 i' l' hi' h5 hl'
      · have : i' = i := by omega
        subst this; rw [hl] at hl'; cases hl'
    | some l =>
      rw [producer_succ ls i l hl] at h
      cases h1 : lastIdx l.top n with
      | some k =>
        rw [h1] at h
        simp only [Option.some.injEq] at h
        subst h
        exact ⟨by simp, l, hl, h1, by intro i' l' hi' hi2; simp at hi'; omega⟩
      | none =>
        rw [h1] at h
        simp only [] at h
        obtain ⟨h2, l0, h3, h4, h5⟩ := ih s h
        refine ⟨by omega, l0, h3, h4, ?_⟩
        intro i' l' hi' hi2 hl'
        rcases Nat.lt_or_ge i' i with h6 | h6
        · exact h5 i' l' hi' h6 hl'
        · have : i' = i := by omega
          subst this; rw [hl] at hl'; cases hl'
          exact lastIdx_eq_none.1 h1

/-- The outcome of the first pass on the first `i` layers. -/
theorem analyze_prefix (ls : List LayerParameter) :
    ∀ i, i ≤ ls.length →
      (∃ st, analyzeLayers 0 (ls.take i) Analysis.empty = .ok st ∧ AnalysisInv ls i st ∧
        ∀ i' l' b', i' < i → ls[i']? = some l' → b' ∈ l'.bottom → producer ls i' b' ≠ none) ∨
      (∃ i0 j l b, i0 < i ∧ FirstUnresolved ls i0 j l b ∧
        analyzeLayers 0 (ls.take i) Analysis.empty = .error (unknownBottom b l.name j)) := by
  intro i
  induction i with
  | zero =>
    intro _
    left
    exact ⟨Analysis.empty, by simp [analyzeLayers], AnalysisInv.empty ls, by intro i' l' b' h; omega⟩
  | succ i ih =>
    intro hi
    have hl : ls[i]? = some ls[i] := List.getElem?_eq_getElem (by omega)
    have htake : ls.take (i + 1) = ls.take i ++ [ls[i]] := by
      rw [List.take_succ, hl]; rfl
    have hlen : (ls.take i).length = i := by simp; omega
    rw [htake]
    rcases ih (by omega) with ⟨st, h1, inv, hres⟩ | ⟨i0, j, l, b, h1, h2, h3⟩
    · rw [analyzeLayers_append, h1]
      simp only [hlen, Nat.zero_add, analyzeLayers]
      cases hb : analyzeBottoms ls[i].name i 0 ls[i].bottom
          { st with
            layer_idx_to_layer_name := Function.update st.layer_idx_to_layer_name i ls[i].name } with
      | error e =>
        right
        obtain ⟨k, b, e1, e2, e3, e4⟩ := (analyzeBottoms_error _ _ _ _ _ _).1 hb
        simp only [] at e2 e3
        refine ⟨i, k, ls[i], b, by omega, ⟨hl, e1, by rw [← inv.blob]; exact e2, ?_, hres⟩, ?_⟩
        · intro j' b' hj' hb'
          rw [← inv.blob]
          exact e3 j' b' hj' hb'
        · simp only [analyzeLayer, hb, e4, Nat.zero_add]
      | ok st2 =>
        left
        have hstep : analyzeLayer i ls[i] st = .ok (analyzeLoss ls[i].top ls[i].loss_weight
            (analyzeTops i 0 ls[i].top st2)) := by
          simp only [analyzeLayer, hb]
        refine ⟨_, by rw [hstep], AnalysisInv.step ls i st _ ls[i] hl inv hstep, ?_⟩
        intro i' l' b' hi' hl' hb'
        rcases Nat.lt_or_ge i' i with h5 | h5
        · exact hres i' l' b' h5 hl' hb'
        · have : i' = i := by omega
          subst this
          rw [hl] at hl'; cases hl'
          obtain ⟨k, hk⟩ := List.mem_iff_getElem?.1 hb'
          have := (analyzeBottoms_ok _ _ _ _ _ _ hb).2.2.2.1 k b' hk
          simp only [] at this
          rw [← inv.blob, this]
          simp
    · right
      refine ⟨i0, j, l, b, by omega, h2, ?_⟩
      rw [analyzeLayers_append, h3]

theorem FirstUnresolved.unique {ls : List LayerParameter} {i j i' j' : Nat}
    {l l' : LayerParameter} {b b' : String} (h : FirstUnresolved ls i j l b)
    (h' : FirstUnresolved ls i' j' l' b') : i = i' ∧ j = j' ∧ l = l' ∧ b = b' := by
  obtain ⟨a1, a2, a3, a4, a5⟩ := h
  obtain ⟨c1, c2, c3, c4, c5⟩ := h'
  have hi : i = i' := by
    rcases Nat.lt_trichotomy i i' with h1 | h1 | h1
    · exact absurd a3 (c5 i l b h1 a1 (List.getElem?_mem a2))
    · exact h1
    · exact absurd c3 (a5 i' l' b' h1 c1 (List.getElem?_mem c2))
  subst hi
  rw [a1] at c1
  cases c1
  have hj : j = j' := by
    rcases Nat.lt_trichotomy j j' with h1 | h1 | h1
    · exact absurd a3 (c4 j b h1 a2)
    · exact h1
    · exact absurd c3 (a4 j' b' h1 c2)
  subst hj
  rw [a2] at c2
  cases c2
  exact ⟨rfl, rfl, rfl, rfl⟩

theorem Analyze_ok {ls : List LayerParameter} {a : Analysis} (h : Analyze ls = .ok a) :
    AnalysisInv ls ls.length a ∧
      ∀ i' l' b', ls[i']? = some l' → b' ∈ l'.bottom → producer ls i' b' ≠ none := by
  unfold Analyze at h
  rcases analyze_prefix ls ls.length (Nat.le_refl _) with ⟨st, h1, inv, hres⟩ | ⟨i0, j, l, b, _, _, h3⟩
  · rw [List.take_length, h] at h1
    cases h1
    refine ⟨inv, ?_⟩
    intro i' l' b' hl' hb'
    exact hres i' l' b' (List.getElem?_eq_some.1 hl').1 hl' hb'
  · rw [List.take_length, h] at h3
    cases h3

theorem Analyze_error_iff (ls : List LayerParameter) (e : String) :
    Analyze ls = .error e ↔
      ∃ i j l b, FirstUnresolved ls i j l b ∧ e = unknownBottom b l.name j := by
  unfold Analyze
  rcases analyze_prefix ls ls.length (Nat.le_refl _) with ⟨st, h1, inv, hres⟩ | ⟨i0, j, l, b, _, h2, h3⟩
  · rw [List.take_length] at h1
    rw [h1]
    constructor
    · intro h; cases h
    · rintro ⟨i, j, l, b, ⟨a1, a2, a3, _, _⟩, _⟩
      exact absurd a3 (hres i l b (List.getElem?_eq_some.1 a1).1 a1 (List.getElem?_mem a2))
  · rw [List.take_length] at h3
    rw [h3]
    constructor
    · intro h
      cases h
      exact ⟨i0, j, l, b, h2, rfl⟩
    · rintro ⟨i', j', l', b', h4, rfl⟩
      obtain ⟨_, e2, e3, e4⟩ := FirstUnresolved.unique h2 h4
      subst e2 e3 e4
      rfl

/-! ### Split slots -/

theorem InsertSplits_ok {param out : NetParameter} (h : InsertSplits param = .ok out) :
    Analyze param.layer = .ok (analysisOf param.layer) ∧
      out = { param with
        layer := rewriteLayers (analysisOf param.layer) 0 param.layer (fun _ => 0) } := by
  unfold InsertSplits at h
  unfold analysisOf
  cases ha : Analyze param.layer with
  | error e => rw [ha] at h; cases h
  | ok a =>
    rw [ha] at h
    simp only [Except.ok.injEq] at h
    exact ⟨rfl, h.symm⟩

theorem InsertSplits_of_Analyze {param : NetParameter} {a : Analysis}
    (ha : Analyze param.layer = .ok a) :
    InsertSplits param =
      .ok { param with layer := rewriteLayers a 0 param.layer (fun _ => 0) } := by
  unfold InsertSplits
  rw [ha]

theorem InsertSplits_error_iff (param : NetParameter) (e : String) :
    InsertSplits param = .error e ↔ Analyze param.layer = .error e := by
  unfold InsertSplits
  cases Analyze param.layer with
  | error e' => simp
  | ok a => simp

theorem producer_valid {ls : List LayerParameter} {i : Nat} {n : String} {s : Nat × Nat}
    (h : producer ls i n = some s) :
    s.1 < i ∧ ∃ l, ls[s.1]? = some l ∧ l.top[s.2]? = some n ∧ lastIdx l.top n = some s.2 := by
  obtain ⟨h1, l, h2, h3, _⟩ := producer_eq_some ls n i s h
  exact ⟨h1, l, h2, (lastIdx_eq_some h3).1, h3⟩

theorem refCount_pos {ls : List LayerParameter} {s : Nat × Nat} :
    ∀ m, refCount ls m s ≠ 0 → ∃ i b, producer ls i b = some s := by
  intro m
  induction m with
  | zero => intro h; simp [refCount] at h
  | succ m ih =>
    intro h
    rw [refCount] at h
    by_cases h0 : refCount ls m s = 0
    · rw [h0, Nat.zero_add] at h
      cases hl : ls[m]? with
      | none => rw [hl] at h; simp at h
      | some l =>
        rw [hl] at h
        simp only [] at h
        have hpos : 0 < l.bottom.countP (fun b => decide (producer ls m b = some s)) := by omega
        obtain ⟨b, _, hb⟩ := List.countP_pos_iff.1 hpos
        exact ⟨m, b, by simpa using hb⟩
    · exact ih h0

theorem lossCount_pos {ls : List LayerParameter} {s : Nat × Nat} :
    ∀ m, lossCount ls m s ≠ 0 → ∃ i b, producer ls i b = some s := by
  intro m
  induction m with
  | zero => intro h; simp [lossCount] at h
  | succ m ih =>
    intro h
    rw [lossCount] at h
    by_cases h0 : lossCount ls m s = 0
    · rw [h0, Nat.zero_add] at h
      cases hl : ls[m]? with
      | none => rw [hl] at h; simp at h
      | some l =>
        rw [hl] at h
        simp only [] at h
        have hpos : 0 < (l.top.zip l.loss_weight).countP (fun p => decide (p.2 ≠ 0) &&
            decide (producer ls (m + 1) p.1 = some s)) := by omega
        obtain ⟨p, _, hp⟩ := List.countP_pos_iff.1 hpos
        simp only [Bool.and_eq_true, decide_eq_true_eq] at hp
        exact ⟨m + 1, p.1, hp.2⟩
    · exact ih h0

/-- A slot with a nonzero fan-out count is an output slot of a layer of the network. -/
theorem count_pos_valid {ls : List LayerParameter} {a : Analysis} (ha : Analyze ls = .ok a)
    {s : Nat × Nat} (h : a.top_idx_to_bottom_count s ≠ 0) :
    ∃ l, ls[s.1]? = some l ∧ s.2 < l.top.length := by
  have inv := (Analyze_ok ha).1
  rw [inv.count] at h
  have : ∃ i b, producer ls i b = some s := by
    by_cases h0 : refCount ls ls.length s = 0
    · exact lossCount_pos ls.length (by omega)
    · exact refCount_pos ls.length h0
  obtain ⟨i, b, hb⟩ := this
  obtain ⟨_, l, h1, h2, _⟩ := producer_valid hb
  exact ⟨l, h1, (List.getElem?_eq_some.1 h2).1⟩

theorem splitSiteList_length (a : Analysis) (ls : List LayerParameter) :
    ∀ i, (splitSiteList a i ls).length = splitSites a i ls := by
  induction ls with
  | nil => intro i; simp [splitSiteList, splitSites]
  | cons l ls ih =>
    intro i
    simp [splitSiteList, splitSites, ih, splitsBelow, List.countP_eq_length_filter]

theorem splitSiteList_mem (a : Analysis) (ls : List LayerParameter) :
    ∀ i s, s ∈ splitSiteList a i ls ↔
      i ≤ s.1 ∧ (∃ l, ls[s.1 - i]? = some l ∧ s.2 < l.top.length) ∧ 1 < a.FanoutCount s := by
  induction ls with
  | nil => intro i s; simp [splitSiteList]
  | cons l ls ih =>
    intro i s
    obtain ⟨s1, s2⟩ := s
    simp only [splitSiteList, List.mem_append, List.mem_map, List.mem_filter, List.mem_range,
      decide_eq_true_eq, Prod.mk.injEq, ih]
    constructor
    · rintro (⟨j, ⟨h1, h2⟩, h3, h4⟩ | ⟨h1, ⟨l', h2, h3⟩, h4⟩)
      · subst h3 h4
        exact ⟨Nat.le_refl _, ⟨l, by simp, h1⟩, h2⟩
      · refine ⟨by omega, ⟨l', ?_, h3⟩, h4⟩
        rw [show s1 - i = (s1 - (i + 1)) + 1 by omega]
        simpa using h2
    · rintro ⟨h1, ⟨l', h2, h3⟩, h4⟩
      rcases Nat.eq_or_lt_of_le h1 with e | hlt
      · subst e
        simp only [Nat.sub_self, List.getElem?_cons_zero, Option.some.injEq] at h2
        subst h2
        exact Or.inl ⟨s2, ⟨h3, h4⟩, rfl, rfl⟩
      · right
        refine ⟨by omega, ⟨l', ?_, h3⟩, h4⟩
        rw [show s1 - i = (s1 - (i + 1)) + 1 by omega] at h2
        simpa using h2

theorem splitSiteList_nodup (a : Analysis) (ls : List LayerParameter) :
    ∀ i, (splitSiteList a i ls).Nodup := by
  induction ls with
  | nil => intro i; simp [splitSiteList]
  | cons l ls ih =>
    intro i
    rw [splitSiteList, List.nodup_append]
    refine ⟨?_, ih (i + 1), ?_⟩
    · apply List.Nodup.map
      · intro x y h; simpa using h
      · exact (List.nodup_range _).filter _
    · intro s h1 h2
      rw [splitSiteList_mem] at h2
      simp only [List.mem_map, List.mem_filter] at h1
      obtain ⟨j, _, rfl⟩ := h1
      simp at h2

/-! ### Where clones and Split layers sit in the output -/

theorem splitsBelow_lt (a : Analysis) (i j n : Nat) (hj : j < n)
    (hc : 1 < a.FanoutCount (i, j)) : splitsBelow a i j + 1 ≤ splitsBelow a i n := by
  have h1 : splitsBelow a i (j + 1) = splitsBelow a i j + 1 := by
    simp [splitsBelow, List.range_succ, hc]
  rw [← h1]
  have hs : List.Sublist (List.range (j + 1)) (List.range n) :=
    List.range_sublist.2 (by omega)
  exact List.Sublist.countP_le _ hs

/-- The clone of layer `i` sits at `clonePos` in the output of the second pass. -/
theorem rewriteLayers_clone_at (a : Analysis) (ls : List LayerParameter)
    (idx : Nat × Nat → Nat) (i : Nat) (l : LayerParameter) (hl : ls[i]? = some l) :
    (rewriteLayers a 0 ls idx)[clonePos a ls i]? =
      some (cloneOf a i l (splitIdxAfter a 0 (ls.take i) idx)) := by
  have := rewriteLayers_getElem?_segment a ls idx i l hl 0 (Nat.zero_le _)
  simpa using this

/-- The Split layer of a split slot `(i, j)` sits at `splitPos` in the output of the second
pass. -/
theorem rewriteLayers_split_at (a : Analysis) (ls : List LayerParameter)
    (idx : Nat × Nat → Nat) (i j : Nat) (l : LayerParameter) (b : String)
    (hl : ls[i]? = some l) (hb : l.top[j]? = some b) (hc : 1 < a.FanoutCount (i, j)) :
    (rewriteLayers a 0 ls idx)[splitPos a ls i j]? = some (splitLayerOf a i j b) := by
  have hj : j < l.top.length := (List.getElem?_eq_some.1 hb).1
  have := rewriteLayers_getElem?_segment a ls idx i l hl (1 + splitsBelow a i j)
    (by have := splitsBelow_lt a i j l.top.length hj hc; omega)
  rw [splitPos, Nat.add_assoc, this, Nat.add_comm 1, List.getElem?_cons_succ]
  have h2 := splitsFrom_getElem? a i l.top 0 j b hb (by rwa [Nat.zero_add])
  rw [Nat.zero_add, ← List.range_eq_range'] at h2
  exact h2

theorem splitLayerOf_eq (a : Analysis) (i j : Nat) (b : String) :
    splitLayerOf a i j b =
      { name := SplitLayerName (a.layer_idx_to_layer_name i) b j, type := "Split",
        bottom := [b],
        top := (List.range (a.FanoutCount (i, j))).map
          (SplitBlobName (a.layer_idx_to_layer_name i) b j),
        loss_weight :=
          if a.top_idx_to_loss_weight (i, j) ≠ 0 then
            (List.range (a.FanoutCount (i, j))).map
              (fun k => if k = 0 then a.top_idx_to_loss_weight (i, j) else 0)
          else [],
        rest := "" } := by
  rw [splitLayerOf, ConfigureSplitLayer_eq]

theorem FirstUnresolved_iff (ls : List LayerParameter) (i j : Nat) (l : LayerParameter)
    (b : String) :
    FirstUnresolved ls i j l b ↔
      ls[i]? = some l ∧ l.bottom[j]? = some b ∧ Dangling ls i b ∧
        (∀ j' b', j' < j → l.bottom[j']? = some b' → ¬ Dangling ls i b') ∧
        (∀ i' l' b', i' < i → ls[i']? = some l' → b' ∈ l'.bottom → ¬ Dangling ls i' b') := by
  unfold FirstUnresolved Dangling
  simp only [ne_eq, producer_eq_none]

/-! ### Split counters and consumer lists -/

theorem splitIdxAfter_append (a : Analysis) (xs ys : List LayerParameter) :
    ∀ (i : Nat) (idx : Nat × Nat → Nat), splitIdxAfter a i (xs ++ ys) idx =
      splitIdxAfter a (i + xs.length) ys (splitIdxAfter a i xs idx) := by
  induction xs with
  | nil => intro i idx; simp [splitIdxAfter]
  | cons x xs ih =>
    intro i idx
    rw [List.cons_append]
    simp only [splitIdxAfter, ih, List.length_cons]
    rw [show i + 1 + xs.length = i + (xs.length + 1) by omega]

theorem lossBelow_succ (a : Analysis) (ls : List LayerParameter) (m : Nat) (l : LayerParameter)
    (hl : ls[m]? = some l) (s : Nat × Nat) :
    lossBelow a ls (m + 1) s = lossBelow a ls m s + lossBump a m 0 l.top.length s := by
  unfold lossBelow lossBump
  by_cases h1 : s.1 < m
  · have h2 : ¬ s.1 = m := by omega
    have h3 : s.1 < m + 1 := by omega
    simp only [h1, h2, h3, true_and, false_and, if_false, Nat.add_zero]
  · by_cases h2 : s.1 = m
    · have h3 : s.1 < m + 1 := by omega
      simp only [h1, h2, false_and, if_false, Nat.zero_add, Nat.zero_le, true_and, hl,
        Option.some.injEq, exists_eq_left', Nat.lt_succ_self, Nat.lt_irrefl]
    · have h3 : ¬ s.1 < m + 1 := by omega
      simp only [h1, h2, h3, false_and, if_false]

/-- The split counters on entry to layer `m` of the second pass, in closed form. -/
theorem splitIdxAfter_take (a : Analysis) (ls : List LayerParameter) :
    ∀ m, m ≤ ls.length → splitIdxAfter a 0 (ls.take m) (fun _ => 0) = fun s =>
      (if 1 < a.FanoutCount s then refsBelow a ls m s else 0) + lossBelow a ls m s := by
  intro m
  induction m with
  | zero =>
    intro _
    funext s
    simp [splitIdxAfter, refsBelow, lossBelow]
  | succ m ih =>
    intro hm
    have hl : ls[m]? = some ls[m] := List.getElem?_eq_getElem (by omega)
    have htake : ls.take (m + 1) = ls.take m ++ [ls[m]] := by
      rw [List.take_succ, hl]; rfl
    have hlen : (ls.take m).length = m := by simp; omega
    rw [htake, splitIdxAfter_append, ih (by omega), hlen, Nat.zero_add]
    simp only [splitIdxAfter, rewriteLayer_snd]
    funext s
    rw [lossBelow_succ a ls m ls[m] hl, refsBelow, hl]
    simp only []
    split <;> omega

theorem refsIn_succ (a : Analysis) (i n : Nat) (s : Nat × Nat) :
    refsIn a i (n + 1) s = refsIn a i n s + if a.source i n = s then 1 else 0 := by
  simp [refsIn, List.range_succ, List.countP_cons]

theorem refsIn_mono (a : Analysis) (i : Nat) (s : Nat × Nat) {m n : Nat} (h : m ≤ n) :
    refsIn a i m s ≤ refsIn a i n s := by
  have hs : List.Sublist (List.range m) (List.range n) := List.range_sublist.2 h
  exact List.Sublist.countP_le _ hs

theorem refsIn_lt (a : Analysis) (i : Nat) {j n : Nat} (hj : j < n) :
    refsIn a i j (a.source i j) < refsIn a i n (a.source i j) := by
  have h1 := refsIn_succ a i j (a.source i j)
  rw [if_pos rfl] at h1
  have h2 := refsIn_mono a i (a.source i j) (show j + 1 ≤ n by omega)
  omega

theorem filter_range_getElem? (p : Nat → Bool) :
    ∀ (n j : Nat), j < n → p j = true →
      ((List.range n).filter p)[(List.range j).countP p]? = some j := by
  intro n
  induction n with
  | zero => intro j hj; omega
  | succ n ih =>
    intro j hj hp
    rw [List.range_succ, List.filter_append]
    rcases Nat.lt_or_ge j n with h | h
    · have := ih j h hp
      rw [List.getElem?_append_left]
      · exact this
      · exact (List.getElem?_eq_some.1 this).1
    · have e : j = n := by omega
      subst e
      rw [List.getElem?_append_right (by rw [List.countP_eq_length_filter])]
      simp [List.countP_eq_length_filter, hp]

theorem consumersBelow_length (a : Analysis) (ls : List LayerParameter) (s : Nat × Nat) :
    ∀ m, (consumersBelow a ls m s).length = refsBelow a ls m s := by
  intro m
  induction m with
  | zero => simp [consumersBelow, refsBelow]
  | succ m ih =>
    rw [consumersBelow, refsBelow, List.length_append, ih]
    cases ls[m]? with
    | none => simp
    | some l => simp [refsIn, List.countP_eq_length_filter]

theorem consumersBelow_mem (a : Analysis) (ls : List LayerParameter) (s : Nat × Nat) :
    ∀ m (c : Nat × Nat), c ∈ consumersBelow a ls m s ↔
      c.1 < m ∧ (∃ l, ls[c.1]? = some l ∧ c.2 < l.bottom.length) ∧ a.source c.1 c.2 = s := by
  intro m
  induction m with
  | zero => intro c; simp [consumersBelow]
  | succ m ih =>
    intro c
    obtain ⟨c1, c2⟩ := c
    rw [consumersBelow, List.mem_append, ih]
    cases hl : ls[m]? with
    | none =>
      simp only [List.not_mem_nil, or_false]
      constructor
      · rintro ⟨h1, h2, h3⟩; exact ⟨by omega, h2, h3⟩
      · rintro ⟨h1, ⟨l, h2, h4⟩, h3⟩
        refine ⟨?_, ⟨l, h2, h4⟩, h3⟩
        rcases Nat.lt_or_ge c1 m with h | h
        · exact h
        · have e : c1 = m := by omega
          subst e
          rw [hl] at h2; cases h2
    | some l =>
      simp only [List.mem_map, List.mem_filter, List.mem_range, decide_eq_true_eq,
        Prod.mk.injEq]
      constructor
      · rintro (⟨h1, h2, h3⟩ | ⟨j, ⟨h1, h2⟩, h3, h4⟩)
        · exact ⟨by omega, h2, h3⟩
        · subst h3 h4
          exact ⟨by omega, ⟨l, hl, h1⟩, h2⟩
      · rintro ⟨h1, ⟨l', h2, h4⟩, h3⟩
        rcases Nat.lt_or_ge c1 m with h | h
        · exact Or.inl ⟨h, ⟨l', h2, h4⟩, h3⟩
        · have e : c1 = m := by omega
          subst e
          rw [hl] at h2; cases h2
          exact Or.inr ⟨c2, ⟨h4, h3⟩, rfl, rfl⟩

theorem consumersBelow_nodup (a : Analysis) (ls : List LayerParameter) (s : Nat × Nat) :
    ∀ m, (consumersBelow a ls m s).Nodup := by
  intro m
  induction m with
  | zero => simp [consumersBelow]
  | succ m ih =>
    rw [consumersBelow, List.nodup_append]
    refine ⟨ih, ?_, ?_⟩
    · cases ls[m]? with
      | none => simp
      | some l =>
        apply List.Nodup.map
        · intro x y h; simpa using h
        · exact (List.nodup_range _).filter _
    · intro c h1 h2
      rw [consumersBelow_mem] at h1
      cases hl : ls[m]? with
      | none => rw [hl] at h2; simp at h2
      | some l =>
        rw [hl] at h2
        simp only [List.mem_map, List.mem_filter] at h2
        obtain ⟨j, _, rfl⟩ := h2
        simp at h1

/-- An input reference with source `s` stands in the list of the consumers of `s` at the index
given by the number of consumers before it. -/
theorem consumersBelow_getElem? (a : Analysis) (ls : List LayerParameter) (i j : Nat)
    (l : LayerParameter) (hl : ls[i]? = some l) (hj : j < l.bottom.length) :
    ∀ m, i < m → (consumersBelow a ls m (a.source i j))[
      refsBelow a ls i (a.source i j) + refsIn a i j (a.source i j)]? = some (i, j) := by
  intro m
  induction m with
  | zero => intro h; omega
  | succ m ih =>
    intro hm
    rw [consumersBelow]
    rcases Nat.lt_or_ge i m with h | h
    · have := ih h
      rw [List.getElem?_append_left]
      · exact this
      · exact (List.getElem?_eq_some.1 this).1
    · have e : i = m := by omega
      subst e
      rw [hl, List.getElem?_append_right (by rw [consumersBelow_length]; omega),
        consumersBelow_length, Nat.add_sub_cancel_left]
      simp only [List.getElem?_map]
      have := filter_range_getElem? (fun j' => decide (a.source i j' = a.source i j))
        l.bottom.length j hj (by simp)
      rw [refsIn, this]
      rfl

/-! ### Order of the positions -/

theorem splitSites_append (a : Analysis) (xs ys : List LayerParameter) :
    ∀ i, splitSites a i (xs ++ ys) = splitSites a i xs + splitSites a (i + xs.length) ys := by
  induction xs with
  | nil => intro i; simp [splitSites]
  | cons x xs ih =>
    intro i
    rw [List.cons_append]
    simp only [splitSites, ih, List.length_cons]
    rw [show i + 1 + xs.length = i + (xs.length + 1) by omega]
    omega

theorem clonePos_succ (a : Analysis) (ls : List LayerParameter) (i : Nat) (l : LayerParameter)
    (hl : ls[i]? = some l) :
    clonePos a ls (i + 1) = clonePos a ls i + 1 + splitsBelow a i l.top.length := by
  have hi : i < ls.length := (List.getElem?_eq_some.1 hl).1
  have htake : ls.take (i + 1) = ls.take i ++ [l] := by
    rw [List.take_succ, hl]; rfl
  have hlen : (ls.take i).length = i := by simp; omega
  unfold clonePos
  rw [htake, splitSites_append, hlen]
  simp only [splitSites, Nat.zero_add, Nat.add_zero]
  omega

theorem clonePos_le (a : Analysis) (ls : List LayerParameter) (i : Nat) (l : LayerParameter)
    (hl : ls[i]? = some l) :
    ∀ i2, i < i2 → i2 ≤ ls.length →
      clonePos a ls i + 1 + splitsBelow a i l.top.length ≤ clonePos a ls i2 := by
  intro i2
  induction i2 with
  | zero => intro h; omega
  | succ m ih =>
    intro h1 h2
    rcases Nat.lt_or_ge i m with h | h
    · have := ih h (by omega)
      have hm : ls[m]? = some ls[m] := List.getElem?_eq_getElem (by omega)
      rw [clonePos_succ a ls m ls[m] hm]
      omega
    · have e : i = m := by omega
      subst e
      rw [clonePos_succ a ls i l hl]

theorem clonePos_lt_of_lt (a : Analysis) (ls : List LayerParameter) {i i2 : Nat}
    (h : i < i2) (h2 : i2 ≤ ls.length) : clonePos a ls i < clonePos a ls i2 := by
  have hl : ls[i]? = some ls[i] := List.getElem?_eq_getElem (by omega)
  have := clonePos_le a ls i ls[i] hl i2 h h2
  omega

theorem clonePos_inj (a : Analysis) (ls : List LayerParameter) {i i2 : Nat}
    (h1 : i < ls.length) (h2 : i2 < ls.length) (h : clonePos a ls i = clonePos a ls i2) :
    i = i2 := by
  rcases Nat.lt_trichotomy i i2 with h3 | h3 | h3
  · have := clonePos_lt_of_lt a ls h3 (by omega); omega
  · exact h3
  · have := clonePos_lt_of_lt a ls h3 (by omega); omega

theorem splitsBelow_mono (a : Analysis) (i : Nat) {j j2 : Nat} (h : j ≤ j2) :
    splitsBelow a i j ≤ splitsBelow a i j2 := by
  have hs : List.Sublist (List.range j) (List.range j2) := List.range_sublist.2 h
  exact List.Sublist.countP_le _ hs

/-- The Split layer of a split slot lies after the clone of its layer and before the clone of
the next layer. -/
theorem splitPos_bounds (a : Analysis) (ls : List LayerParameter) {i j : Nat}
    {l : LayerParameter} (hl : ls[i]? = some l) (hj : j < l.top.length)
    (hc : 1 < a.FanoutCount (i, j)) :
    clonePos a ls i < splitPos a ls i j ∧ splitPos a ls i j < clonePos a ls (i + 1) := by
  rw [clonePos_succ a ls i l hl, splitPos]
  have := splitsBelow_lt a i j l.top.length hj hc
  omega

theorem splitPos_inj (a : Analysis) (ls : List LayerParameter) {i j i2 j2 : Nat}
    {l l2 : LayerParameter} (hl : ls[i]? = some l) (hj : j < l.top.length)
    (hc : 1 < a.FanoutCount (i, j)) (hl2 : ls[i2]? = some l2) (hj2 : j2 < l2.top.length)
    (hc2 : 1 < a.FanoutCount (i2, j2)) (h : splitPos a ls i j = splitPos a ls i2 j2) :
    i = i2 ∧ j = j2 := by
  have b1 := splitPos_bounds a ls hl hj hc
  have b2 := splitPos_bounds a ls hl2 hj2 hc2
  have hi := (List.getElem?_eq_some.1 hl).1
  have hi2 := (List.getElem?_eq_some.1 hl2).1
  have e : i = i2 := by
    rcases Nat.lt_trichotomy i i2 with h3 | h3 | h3
    · have := clonePos_le a ls i l hl i2 h3 (by omega)
      rw [clonePos_succ a ls i l hl] at b1
      omega
    · exact h3
    · have := clonePos_le a ls i2 l2 hl2 i h3 (by omega)
      rw [clonePos_succ a ls i2 l2 hl2] at b2
      omega
  subst e
  refine ⟨rfl, ?_⟩
  unfold splitPos at h
  rcases Nat.lt_trichotomy j j2 with h3 | h3 | h3
  · have := splitsBelow_lt a i j j2 h3 hc; omega
  · exact h3
  · have := splitsBelow_lt a i j2 j h3 hc2; omega

theorem splitPos_ne_clonePos (a : Analysis) (ls : List LayerParameter) {i j i2 : Nat}
    {l : LayerParameter} (hl : ls[i]? = some l) (hj : j < l.top.length)
    (hc : 1 < a.FanoutCount (i, j)) (hi2 : i2 < ls.length) :
    splitPos a ls i j ≠ clonePos a ls i2 := by
  have b1 := splitPos_bounds a ls hl hj hc
  have hi := (List.getElem?_eq_some.1 hl).1
  rcases Nat.lt_trichotomy i i2 with h3 | h3 | h3
  · have := clonePos_le a ls i l hl i2 h3 (by omega)
    rw [clonePos_succ a ls i l hl] at b1
    omega
  · subst h3; omega
  · have := clonePos_lt_of_lt a ls h3 (by omega)
    omega

/-! ### Fan-out counts in terms of the input network -/

theorem countP_eq_countP_range {β : Type} (P : β → Bool) (Q : Nat → Bool) (bs : List β) :
    (∀ j b, bs[j]? = some b → P b = Q j) → bs.countP P = (List.range bs.length).countP Q := by
  induction bs using List.reverseRecOn with
  | nil => intro _; simp
  | append_singleton bs b ih =>
    intro h
    rw [List.countP_append, List.length_append, List.length_singleton, List.range_succ,
      List.countP_append, ih]
    · have := h bs.length b (by simp)
      simp [List.countP_cons, this]
    · intro j b' hj
      apply h
      rw [List.getElem?_append_left (List.getElem?_eq_some.1 hj).1]
      exact hj

theorem refCount_eq_refsBelow {ls : List LayerParameter} {a : Analysis}
    (ha : Analyze ls = .ok a) (s : Nat × Nat) :
    ∀ m, refCount ls m s = refsBelow a ls m s := by
  have inv := (Analyze_ok ha).1
  intro m
  induction m with
  | zero => simp [refCount, refsBelow]
  | succ m ih =>
    rw [refCount, refsBelow, ih]
    cases hl : ls[m]? with
    | none => rfl
    | some l =>
      simp only [Nat.add_left_cancel_iff, refsIn]
      apply countP_eq_countP_range
      intro j b hb
      rw [inv.src m j l b (List.getElem?_eq_some.1 hl).1 hl hb]
      simp [Analysis.source]

theorem lossCount_eq (ls : List LayerParameter) (s : Nat × Nat) :
    ∀ m, lossCount ls m s =
      if s.1 < m then (match ls[s.1]? with
        | some l => lossHits l s.2
        | none => 0) else 0 := by
  intro m
  induction m with
  | zero => simp [lossCount]
  | succ m ih =>
    rw [lossCount, ih]
    cases hl : ls[m]? with
    | none =>
      simp only [Nat.add_zero]
      by_cases h1 : s.1 < m
      · rw [if_pos h1, if_pos (by omega)]
      · rw [if_neg h1]
        by_cases h2 : s.1 = m
        · rw [if_pos (by omega), h2, hl]
        · rw [if_neg (by omega)]
    | some l =>
      simp only []
      have key : (l.top.zip l.loss_weight).countP (fun p => decide (p.2 ≠ 0) &&
          decide (producer ls (m + 1) p.1 = some s)) =
          if s.1 = m then lossHits l s.2 else 0 := by
        by_cases h2 : s.1 = m
        · rw [if_pos h2, lossHits]
          apply List.countP_congr
          intro p hp
          obtain ⟨j, hj, hj2⟩ := producer_succ_of_mem ls m l hl p.1 (List.of_mem_zip hp).1
          rw [hj2, hj]
          obtain ⟨s1, s2⟩ := s
          simp only [] at h2
          subst h2
          simp
        · rw [if_neg h2]
          apply List.countP_eq_zero.2
          intro p hp
          obtain ⟨j, hj, hj2⟩ := producer_succ_of_mem ls m l hl p.1 (List.of_mem_zip hp).1
          rw [hj2]
          simp only [ne_eq, Option.some.injEq, Bool.and_eq_true, decide_eq_true_eq, not_and]
          intro _ e
          rw [← e] at h2
          exact h2 rfl
      rw [key]
      by_cases h1 : s.1 < m
      · rw [if_pos h1, if_neg (by omega), if_pos (by omega)]
        rfl
      · rw [if_neg h1]
        by_cases h2 : s.1 = m
        · rw [if_pos h2, if_pos (by omega), h2, hl]
          simp
        · rw [if_neg h2, if_neg (by omega)]

theorem countP_zip_nodup (j : Nat) (f : String → Option Nat) (ts : List String) :
    ∀ (ws : List ℚ) (j0 : Nat), (∀ k b, ts[k]? = some b → f b = some (j0 + k)) →
      (ts.zip ws).countP (fun p => decide (p.2 ≠ 0) && decide (f p.1 = some j)) =
        if j0 ≤ j ∧ j - j0 < ts.length ∧ ws.getD (j - j0) 0 ≠ 0 then 1 else 0 := by
  induction ts with
  | nil => intro ws j0 _; simp
  | cons b ts ih =>
    intro ws j0 h
    cases ws with
    | nil => simp
    | cons w ws =>
      have hb : f b = some j0 := by simpa using h 0 b (by simp)
      rw [List.zip_cons_cons, List.countP_cons, ih ws (j0 + 1)
        (by intro k b' hk
            rw [h (k + 1) b' (by simpa using hk)]
            congr 1; omega)]
      simp only [hb, Option.some.injEq]
      rcases Nat.lt_trichotomy j j0 with h1 | h1 | h1
      · rw [if_neg (by omega), if_neg (by simp; omega), if_neg (by omega)]
      · subst h1
        rw [if_neg (by omega)]
        by_cases hw : w = 0
        · simp [hw]
        · simp [hw]
      · have hhead : (if (decide (w ≠ 0) && decide (j0 = j)) = true then 1 else 0) = 0 :=
          if_neg (by simp; omega)
        have e : j - j0 = (j - (j0 + 1)) + 1 := by omega
        rw [hhead, Nat.add_zero, e, List.getD_cons_succ, List.length_cons]
        apply if_congr _ rfl rfl
        constructor
        · rintro ⟨_, h2, h3⟩; exact ⟨by omega, by omega, h3⟩
        · rintro ⟨_, h2, h3⟩; exact ⟨by omega, by omega, h3⟩

theorem lossHits_nodup (l : LayerParameter) (hnd : l.top.Nodup) (j : Nat) :
    lossHits l j = if declaredLoss l j ≠ 0 then 1 else 0 := by
  rw [lossHits, countP_zip_nodup j (lastIdx l.top) l.top l.loss_weight 0
    (by intro k b hk; rw [lastIdx_of_nodup hnd hk, Nat.zero_add])]
  unfold declaredLoss
  simp only [Nat.zero_le, Nat.sub_zero, true_and]
  by_cases h : j < l.top.length
  · simp [h]
  · simp [h]

/-- The fan-out count of an output slot of a layer whose output names are pairwise distinct:
the input references that resolved to it, plus one when the layer declares a nonzero loss
weight for it. -/
theorem count_nodup {ls : List LayerParameter} {a : Analysis} (ha : Analyze ls = .ok a)
    {i : Nat} {l : LayerParameter} (hl : ls[i]? = some l) (hnd : l.top.Nodup) (j : Nat) :
    a.top_idx_to_bottom_count (i, j) =
      refsBelow a ls ls.length (i, j) + if declaredLoss l j ≠ 0 then 1 else 0 := by
  have inv := (Analyze_ok ha).1
  rw [inv.count, refCount_eq_refsBelow ha, lossCount_eq]
  simp only [hl, (List.getElem?_eq_some.1 hl).1, if_true, lossHits_nodup l hnd]

theorem source_valid {ls : List LayerParameter} {a : Analysis} (ha : Analyze ls = .ok a)
    {i j : Nat} {l : LayerParameter} {b : String} (hl : ls[i]? = some l)
    (hb : l.bottom[j]? = some b) :
    (a.source i j).1 < i ∧ ∃ l0, ls[(a.source i j).1]? = some l0 ∧
      l0.top[(a.source i j).2]? = some b ∧ lastIdx l0.top b = some (a.source i j).2 := by
  have inv := (Analyze_ok ha).1
  exact producer_valid (inv.src i j l b (List.getElem?_eq_some.1 hl).1 hl hb)

theorem rewriteBottoms_noop (a : Analysis) (h : ∀ s, a.top_idx_to_bottom_count s ≤ 1)
    (i : Nat) (bs : List String) :
    ∀ (j : Nat) (idx : Nat × Nat → Nat), rewriteBottoms a i j bs idx = (bs, idx) := by
  induction bs with
  | nil => intro j idx; rfl
  | cons b bs ih =>
    intro j idx
    unfold rewriteBottoms
    simp only []
    rw [if_neg (by have := h (a.bottom_idx_to_source_top_idx (i, j)); omega), ih]

theorem rewriteTops_noop (a : Analysis) (h : ∀ s, a.top_idx_to_bottom_count s ≤ 1)
    (i : Nat) (ts : List String) :
    ∀ (j : Nat) (st : TopsState), rewriteTops a i j ts st = st := by
  induction ts with
  | nil => intro j st; rfl
  | cons b ts ih =>
    intro j st
    unfold rewriteTops
    simp only []
    rw [if_neg (by have := h (i, j); omega), ih]

/-- When no slot has a fan-out count above one the second pass copies the layers. -/
theorem rewriteLayers_noop (a : Analysis) (h : ∀ s, a.top_idx_to_bottom_count s ≤ 1)
    (ls : List LayerParameter) :
    ∀ (i : Nat) (idx : Nat × Nat → Nat), rewriteLayers a i ls idx = ls := by
  induction ls with
  | nil => intro i idx; rfl
  | cons l ls ih =>
    intro i idx
    simp only [rewriteLayers, rewriteLayer, rewriteBottoms_noop a h, rewriteTops_noop a h, ih]
    rfl

/-! ### The inputs of a clone -/

theorem cloneOf_top (a : Analysis) (i : Nat) (l : LayerParameter) (idx : Nat × Nat → Nat) :
    (cloneOf a i l idx).top = l.top := rfl

theorem cloneOf_name (a : Analysis) (i : Nat) (l : LayerParameter) (idx : Nat × Nat → Nat) :
    (cloneOf a i l idx).name = l.name := rfl

theorem cloneOf_loss_weight (a : Analysis) (i : Nat) (l : LayerParameter)
    (idx : Nat × Nat → Nat) :
    (cloneOf a i l idx).loss_weight = if lossMoved a i 0 l.top then [] else l.loss_weight := rfl

theorem cloneOf_bottom_length (a : Analysis) (i : Nat) (l : LayerParameter)
    (idx : Nat × Nat → Nat) : (cloneOf a i l idx).bottom.length = l.bottom.length :=
  rewriteBottoms_length a i l.bottom 0 idx

/-- The value of the split counter of the source of input `j` of layer `i` at the moment the
second pass visits that input. -/
theorem cloneOf_bottom (a : Analysis) (ls : List LayerParameter) {i j : Nat}
    {l : LayerParameter} {b : String} (hl : ls[i]? = some l) (hb : l.bottom[j]? = some b) :
    (cloneOf a i l (splitIdxAfter a 0 (ls.take i) (fun _ => 0))).bottom[j]? =
      some (renamedBottom a i j b
        ((if 1 < a.FanoutCount (a.source i j) then refsBelow a ls i (a.source i j) else 0) +
          lossBelow a ls i (a.source i j) + refsIn a i j (a.source i j))) := by
  have hi : i ≤ ls.length := Nat.le_of_lt (List.getElem?_eq_some.1 hl).1
  have := rewriteBottoms_getElem? a i l.bottom 0
    (splitIdxAfter a 0 (ls.take i) (fun _ => 0)) j b hb
  rw [Nat.zero_add, ← List.range_eq_range'] at this
  rw [cloneOf, this, splitIdxAfter_take a ls i hi]
  rfl

theorem lossMoved_iff (a : Analysis) (i : Nat) (ts : List String) :
    ∀ j0, lossMoved a i j0 ts = true ↔
      ∃ j, j0 ≤ j ∧ j < j0 + ts.length ∧ 1 < a.FanoutCount (i, j) ∧
        a.top_idx_to_loss_weight (i, j) ≠ 0 := by
  induction ts with
  | nil => intro j0; simp [lossMoved]; intro j h1 h2; omega
  | cons b ts ih =>
    intro j0
    simp only [lossMoved, Bool.or_eq_true, Bool.and_eq_true, decide_eq_true_eq, ih,
      List.length_cons]
    constructor
    · rintro (⟨h1, h2⟩ | ⟨j, h1, h2, h3, h4⟩)
      · exact ⟨j0, Nat.le_refl _, by omega, h1, h2⟩
      · exact ⟨j, by omega, by omega, h3, h4⟩
    · rintro ⟨j, h1, h2, h3, h4⟩
      rcases Nat.eq_or_lt_of_le h1 with e | hlt
      · subst e; exact Or.inl ⟨h3, h4⟩
      · exact Or.inr ⟨j, by omega, by omega, h3, h4⟩

theorem cloneOf_bottom_split {ls : List LayerParameter} {a : Analysis}
    (ha : Analyze ls = .ok a) {i j : Nat} {l : LayerParameter} {b : String}
    (hl : ls[i]? = some l) (hb : l.bottom[j]? = some b)
    (hs : 1 < a.FanoutCount (a.source i j)) :
    (cloneOf a i l (splitIdxAfter a 0 (ls.take i) (fun _ => 0))).bottom[j]? =
      some (SplitBlobName (a.layer_idx_to_layer_name (a.source i j).1) b (a.source i j).2
        ((if a.top_idx_to_loss_weight (a.source i j) ≠ 0 then 1 else 0) +
          (refsBelow a ls i (a.source i j) + refsIn a i j (a.source i j)))) := by
  rw [cloneOf_bottom a ls hl hb, renamedBottom, if_pos hs, if_pos hs]
  obtain ⟨h1, l0, h2, h3, _⟩ := source_valid ha hl hb
  have hj : (a.source i j).2 < l0.top.length := (List.getElem?_eq_some.1 h3).1
  have : lossBelow a ls i (a.source i j) =
      if a.top_idx_to_loss_weight (a.source i j) ≠ 0 then 1 else 0 := by
    unfold lossBelow
    by_cases hw : a.top_idx_to_loss_weight (a.source i j) = 0
    · rw [if_neg (fun h => h.2.2.2 hw), if_neg (by simpa using hw)]
    · rw [if_pos ⟨h1, ⟨l0, h2, hj⟩, hs, hw⟩, if_pos hw]
  rw [this]
  congr 2
  omega

theorem cloneOf_bottom_kept (a : Analysis) (ls : List LayerParameter) {i j : Nat}
    {l : LayerParameter} {b : String} (hl : ls[i]? = some l) (hb : l.bottom[j]? = some b)
    (hs : ¬ 1 < a.FanoutCount (a.source i j)) :
    (cloneOf a i l (splitIdxAfter a 0 (ls.take i) (fun _ => 0))).bottom[j]? = some b := by
  rw [cloneOf_bottom a ls hl hb, renamedBottom, if_neg hs]

theorem refsBelow_mono (a : Analysis) (ls : List LayerParameter) (s : Nat × Nat) :
    ∀ {m n : Nat}, m ≤ n → refsBelow a ls m s ≤ refsBelow a ls n s := by
  intro m n h
  induction n with
  | zero =>
    have : m = 0 := by omega
    subst this; exact Nat.le_refl _
  | succ n ih =>
    rcases Nat.eq_or_lt_of_le h with e | hlt
    · subst e; exact Nat.le_refl _
    · have := ih (by omega)
      rw [refsBelow]
      omega

/-- The consumers of a slot, read by index: consumer `r` is preceded by `r` consumers. -/
theorem consumersBelow_index {ls : List LayerParameter} {a : Analysis} {s c : Nat × Nat}
    {r m : Nat} (h : (consumersBelow a ls m s)[r]? = some c) :
    ∃ l, ls[c.1]? = some l ∧ c.2 < l.bottom.length ∧ a.source c.1 c.2 = s ∧
      refsBelow a ls c.1 s + refsIn a c.1 c.2 s = r := by
  have hmem := List.getElem?_mem h
  rw [consumersBelow_mem] at hmem
  obtain ⟨h1, ⟨l, h2, h3⟩, h4⟩ := hmem
  refine ⟨l, h2, h3, h4, ?_⟩
  have := consumersBelow_getElem? a ls c.1 c.2 l h2 h3 m h1
  rw [h4] at this
  have hnd := consumersBelow_nodup a ls s m
  obtain ⟨hr, e1⟩ := List.getElem?_eq_some.1 h
  obtain ⟨hr2, e2⟩ := List.getElem?_eq_some.1 this
  exact ((List.Nodup.getElem_inj_iff hnd).1 (e2.trans e1.symm))

/-! ### Networks without split slots -/

/-- With pairwise distinct output names in every layer, at most one consumer per slot and no
consumer on a slot with a declared nonzero loss weight, no fan-out count exceeds one. -/
theorem count_le_one {ls : List LayerParameter} {a : Analysis} (ha : Analyze ls = .ok a)
    (hnd : ∀ l ∈ ls, l.top.Nodup)
    (h1 : ∀ s, consumerCount ls s ≤ 1)
    (h2 : ∀ i l j, ls[i]? = some l → declaredLoss l j ≠ 0 → consumerCount ls (i, j) = 0) :
    ∀ s, a.top_idx_to_bottom_count s ≤ 1 := by
  intro s
  by_cases h0 : a.top_idx_to_bottom_count s = 0
  · omega
  · obtain ⟨l, hl, _⟩ := count_pos_valid ha h0
    obtain ⟨i, j⟩ := s
    simp only [] at hl
    rw [count_nodup ha hl (hnd l (List.getElem?_mem hl)) j, ← refCount_eq_refsBelow ha]
    have h3 := h1 (i, j)
    unfold consumerCount at h3
    by_cases hd : declaredLoss l j = 0
    · rw [if_neg (by simpa using hd)]
      omega
    · have h4 := h2 i l j hl hd
      unfold consumerCount at h4
      rw [if_pos hd, h4]

theorem list_eq_singleton_of_mem_iff {α : Type} {xs : List α} {x : α} (hnd : xs.Nodup)
    (h : ∀ c, c ∈ xs ↔ c = x) : xs = [x] := by
  cases xs with
  | nil => exact absurd ((h x).2 rfl) (List.not_mem_nil x)
  | cons y ys =>
    have hy : y = x := (h y).1 (List.mem_cons_self y ys)
    subst hy
    cases ys with
    | nil => rfl
    | cons z zs =>
      have hz : z = y := (h z).1 (by simp)
      subst hz
      simp at hnd

/-! ### Generated names -/

theorem splitNamesFrom_mem (a : Analysis) (i : Nat) (ts : List String) (g : String) :
    ∀ j0, g ∈ splitNamesFrom a i j0 ts ↔
      ∃ j b, j0 ≤ j ∧ ts[j - j0]? = some b ∧ 1 < a.FanoutCount (i, j) ∧
        g ∈ (splitLayerOf a i j b).top := by
  induction ts with
  | nil => intro j0; simp [splitNamesFrom]
  | cons t ts ih =>
    intro j0
    rw [splitNamesFrom, List.mem_append, ih]
    constructor
    · rintro (h | ⟨j, b, h1, h2, h3, h4⟩)
      · by_cases hc : 1 < a.FanoutCount (i, j0)
        · rw [if_pos hc] at h
          exact ⟨j0, t, Nat.le_refl _, by simp, hc, h⟩
        · rw [if_neg hc] at h
          cases h
      · refine ⟨j, b, by omega, ?_, h3, h4⟩
        rw [show j - j0 = (j - (j0 + 1)) + 1 by omega]
        simpa using h2
    · rintro ⟨j, b, h1, h2, h3, h4⟩
      rcases Nat.eq_or_lt_of_le h1 with e | hlt
      · subst e
        simp only [Nat.sub_self, List.getElem?_cons_zero, Option.some.injEq] at h2
        subst h2
        left
        rw [if_pos h3]
        exact h4
      · right
        refine ⟨j, b, by omega, ?_, h3, h4⟩
        rw [show j - j0 = (j - (j0 + 1)) + 1 by omega] at h2
        simpa using h2

theorem splitNames_mem (a : Analysis) (ls : List LayerParameter) (g : String) :
    ∀ i0, g ∈ splitNames a i0 ls ↔
      ∃ i j l b, i0 ≤ i ∧ ls[i - i0]? = some l ∧ l.top[j]? = some b ∧
        1 < a.FanoutCount (i, j) ∧ g ∈ (splitLayerOf a i j b).top := by
  induction ls with
  | nil => intro i0; simp [splitNames]
  | cons x xs ih =>
    intro i0
    rw [splitNames, List.mem_append, ih, splitNamesFrom_mem]
    constructor
    · rintro (⟨j, b, _, h2, h3, h4⟩ | ⟨i, j, l, b, h1, h2, h3, h4, h5⟩)
      · exact ⟨i0, j, x, b, Nat.le_refl _, by simp, by simpa using h2, h3, h4⟩
      · refine ⟨i, j, l, b, by omega, ?_, h3, h4, h5⟩
        rw [show i - i0 = (i - (i0 + 1)) + 1 by omega]
        simpa using h2
    · rintro ⟨i, j, l, b, h1, h2, h3, h4, h5⟩
      rcases Nat.eq_or_lt_of_le h1 with e | hlt
      · subst e
        simp only [Nat.sub_self, List.getElem?_cons_zero, Option.some.injEq] at h2
        subst h2
        exact Or.inl ⟨j, b, Nat.zero_le _, by simpa using h3, h4, h5⟩
      · right
        refine ⟨i, j, l, b, by omega, ?_, h3, h4, h5⟩
        rw [show i - i0 = (i - (i0 + 1)) + 1 by omega] at h2
        simpa using h2

theorem splitNamesFrom_disjoint (a : Analysis) (i : Nat) (ts : List String) (g : String) :
    ∀ j0, (splitNamesFrom a i j0 ts).Nodup →
      ∀ j b j2 b2, j0 ≤ j → ts[j - j0]? = some b → 1 < a.FanoutCount (i, j) →
        g ∈ (splitLayerOf a i j b).top →
        j0 ≤ j2 → ts[j2 - j0]? = some b2 → 1 < a.FanoutCount (i, j2) →
        g ∈ (splitLayerOf a i j2 b2).top → j = j2 := by
  induction ts with
  | nil => intro j0 _ j b j2 b2 _ h; simp at h
  | cons t ts ih =>
    intro j0 hnd j b j2 b2 h1 h2 h3 h4 k1 k2 k3 k4
    rw [splitNamesFrom, List.nodup_append] at hnd
    obtain ⟨_, hnd2, hdis⟩ := hnd
    have tail : ∀ j b, j0 < j → (t :: ts)[j - j0]? = some b → 1 < a.FanoutCount (i, j) →
        g ∈ (splitLayerOf a i j b).top → g ∈ splitNamesFrom a i (j0 + 1) ts := by
      intro j b hlt hb hc hg
      rw [splitNamesFrom_mem]
      refine ⟨j, b, by omega, ?_, hc, hg⟩
      rw [show j - j0 = (j - (j0 + 1)) + 1 by omega] at hb
      simpa using hb
    have head : ∀ b, (t :: ts)[j0 - j0]? = some b → 1 < a.FanoutCount (i, j0) →
        g ∈ (splitLayerOf a i j0 b).top →
        g ∈ (if 1 < a.FanoutCount (i, j0) then (splitLayerOf a i j0 t).top else []) := by
      intro b hb hc hg
      simp only [Nat.sub_self, List.getElem?_cons_zero, Option.some.injEq] at hb
      subst hb
      rw [if_pos hc]
      exact hg
    rcases Nat.eq_or_lt_of_le h1 with e | hlt
    · subst e
      rcases Nat.eq_or_lt_of_le k1 with e2 | hlt2
      · exact e2
      · exact absurd (tail j2 b2 hlt2 k2 k3 k4) (fun hm => hdis (head b h2 h3 h4) hm)
    · rcases Nat.eq_or_lt_of_le k1 with e2 | hlt2
      · subst e2
        exact absurd (tail j b hlt h2 h3 h4) (fun hm => hdis (head b2 k2 k3 k4) hm)
      · refine ih (j0 + 1) hnd2 j b j2 b2 (by omega) ?_ h3 h4 (by omega) ?_ k3 k4
        · rw [show j - j0 = (j - (j0 + 1)) + 1 by omega] at h2
          simpa using h2
        · rw [show j2 - j0 = (j2 - (j0 + 1)) + 1 by omega] at k2
          simpa using k2

/-- When the generated names are pairwise distinct, a name is an output of the Split layer of
one split slot only. -/
theorem splitNames_disjoint (a : Analysis) (ls : List LayerParameter) (g : String) :
    ∀ i0, (splitNames a i0 ls).Nodup →
      ∀ i j l b i2 j2 l2 b2, i0 ≤ i → ls[i - i0]? = some l → l.top[j]? = some b →
        1 < a.FanoutCount (i, j) → g ∈ (splitLayerOf a i j b).top →
        i0 ≤ i2 → ls[i2 - i0]? = some l2 → l2.top[j2]? = some b2 →
        1 < a.FanoutCount (i2, j2) → g ∈ (splitLayerOf a i2 j2 b2).top →
        i = i2 ∧ j = j2 := by
  induction ls with
  | nil => intro i0 _ i j l b i2 j2 l2 b2 _ h; simp at h
  | cons x xs ih =>
    intro i0 hnd i j l b i2 j2 l2 b2 h1 h2 h3 h4 h5 k1 k2 k3 k4 k5
    rw [splitNames, List.nodup_append] at hnd
    obtain ⟨hnd1, hnd2, hdis⟩ := hnd
    have tail : ∀ i j l b, i0 < i → (x :: xs)[i - i0]? = some l → l.top[j]? = some b →
        1 < a.FanoutCount (i, j) → g ∈ (splitLayerOf a i j b).top →
        g ∈ splitNames a (i0 + 1) xs := by
      intro i j l b hlt hl hb hc hg
      rw [splitNames_mem]
      refine ⟨i, j, l, b, by omega, ?_, hb, hc, hg⟩
      rw [show i - i0 = (i - (i0 + 1)) + 1 by omega] at hl
      simpa using hl
    have head : ∀ j l b, (x :: xs)[i0 - i0]? = some l → l.top[j]? = some b →
        1 < a.FanoutCount (i0, j) → g ∈ (splitLayerOf a i0 j b).top →
        l = x ∧ g ∈ splitNamesFrom a i0 0 x.top := by
      intro j l b hl hb hc hg
      simp only [Nat.sub_self, List.getElem?_cons_zero, Option.some.injEq] at hl
      subst hl
      refine ⟨rfl, ?_⟩
      rw [splitNamesFrom_mem]
      exact ⟨j, b, Nat.zero_le _, by simpa using hb, hc, hg⟩
    rcases Nat.eq_or_lt_of_le h1 with e | hlt
    · subst e
      rcases Nat.eq_or_lt_of_le k1 with e2 | hlt2
      · subst e2
        refine ⟨rfl, ?_⟩
        obtain ⟨e3, _⟩ := head j l b h2 h3 h4 h5
        obtain ⟨e4, _⟩ := head j2 l2 b2 k2 k3 k4 k5
        subst e3 e4
        exact splitNamesFrom_disjoint a i0 _ g 0 hnd1 j b j2 b2 (Nat.zero_le _)
          (by simpa using h3) h4 h5 (Nat.zero_le _) (by simpa using k3) k4 k5
      · exact absurd (tail i2 j2 l2 b2 hlt2 k2 k3 k4 k5)
          (fun hm => hdis (head j l b h2 h3 h4 h5).2 hm)
    · rcases Nat.eq_or_lt_of_le k1 with e2 | hlt2
      · subst e2
        exact absurd (tail i j l b hlt h2 h3 h4 h5)
          (fun hm => hdis (head j2 l2 b2 k2 k3 k4 k5).2 hm)
      · refine ih (i0 + 1) hnd2 i j l b i2 j2 l2 b2 (by omega) ?_ h3 h4 h5 (by omega) ?_ k3 k4 k5
        · rw [show i - i0 = (i - (i0 + 1)) + 1 by omega] at h2
          simpa using h2
        · rw [show i2 - i0 = (i2 - (i0 + 1)) + 1 by omega] at k2
          simpa using k2

/-! ### The layers of the rewritten network -/

theorem countP_range_nth (P : Nat → Bool) :
    ∀ n t, t < (List.range n).countP P →
      ∃ j, j < n ∧ P j = true ∧ (List.range j).countP P = t := by
  intro n
  induction n with
  | zero => intro t h; simp at h
  | succ n ih =>
    intro t h
    rw [List.range_succ, List.countP_append] at h
    by_cases h1 : t < (List.range n).countP P
    · obtain ⟨j, h2, h3, h4⟩ := ih t h1
      exact ⟨j, by omega, h3, h4⟩
    · by_cases hp : P n = true
      · simp only [List.countP_cons, List.countP_nil, hp, if_true] at h
        exact ⟨n, by omega, hp, by omega⟩
      · simp only [List.countP_cons, List.countP_nil, hp] at h
        simp at h
        omega

theorem rewritten_length (a : Analysis) (ls : List LayerParameter) :
    (rewritten a ls).length = clonePos a ls ls.length := by
  rw [rewritten, rewriteLayers_length, clonePos, List.take_length]

theorem clonePos_mono (a : Analysis) (ls : List LayerParameter) {i i2 : Nat}
    (h : i ≤ i2) (h2 : i2 ≤ ls.length) : clonePos a ls i ≤ clonePos a ls i2 := by
  rcases Nat.eq_or_lt_of_le h with e | hlt
  · subst e; exact Nat.le_refl _
  · exact Nat.le_of_lt (clonePos_lt_of_lt a ls hlt h2)

theorem clonePos_lt_reflect (a : Analysis) (ls : List LayerParameter) {i i2 : Nat}
    (h1 : i ≤ ls.length) (h : clonePos a ls i < clonePos a ls i2) : i < i2 := by
  by_contra hc
  have := clonePos_mono a ls (show i2 ≤ i by omega) h1
  omega

/-- Every position of the rewritten layer list below the clone of layer `m` holds the clone
of an input layer or the Split layer of a split slot. -/
theorem position_classify (a : Analysis) (ls : List LayerParameter) :
    ∀ m, m ≤ ls.length → ∀ p, p < clonePos a ls m →
      (∃ i l, i < m ∧ ls[i]? = some l ∧ p = clonePos a ls i) ∨
      (∃ i j l b, i < m ∧ ls[i]? = some l ∧ l.top[j]? = some b ∧
        1 < a.FanoutCount (i, j) ∧ p = splitPos a ls i j) := by
  intro m
  induction m with
  | zero => intro _ p hp; simp [clonePos, splitSites] at hp
  | succ m ih =>
    intro hm p hp
    have hl : ls[m]? = some ls[m] := List.getElem?_eq_getElem (by omega)
    rw [clonePos_succ a ls m ls[m] hl] at hp
    rcases Nat.lt_trichotomy p (clonePos a ls m) with h1 | h1 | h1
    · rcases ih (by omega) p h1 with ⟨i, l, h2, h3, h4⟩ | ⟨i, j, l, b, h2, h3, h4, h5, h6⟩
      · exact Or.inl ⟨i, l, by omega, h3, h4⟩
      · exact Or.inr ⟨i, j, l, b, by omega, h3, h4, h5, h6⟩
    · exact Or.inl ⟨m, ls[m], by omega, hl, h1⟩
    · right
      obtain ⟨j, h2, h3, h4⟩ := countP_range_nth
        (fun j => decide (1 < a.FanoutCount (m, j))) ls[m].top.length
        (p - clonePos a ls m - 1) (by unfold splitsBelow at hp; omega)
      refine ⟨m, j, ls[m], ls[m].top[j], by omega, hl, List.getElem?_eq_getElem h2,
        by simpa using h3, ?_⟩
      unfold splitPos splitsBelow
      omega

/-- The layer at a position of the rewritten layer list: a clone or a Split layer. -/
theorem rewritten_classify (a : Analysis) (ls : List LayerParameter) (p : Nat)
    (X : LayerParameter) (h : (rewritten a ls)[p]? = some X) :
    (∃ i l, ls[i]? = some l ∧ p = clonePos a ls i ∧
      X = cloneOf a i l (splitIdxAfter a 0 (ls.take i) (fun _ => 0))) ∨
    (∃ i j l b, ls[i]? = some l ∧ l.top[j]? = some b ∧ 1 < a.FanoutCount (i, j) ∧
      p = splitPos a ls i j ∧ X = splitLayerOf a i j b) := by
  have hp : p < clonePos a ls ls.length := by
    rw [← rewritten_length]; exact (List.getElem?_eq_some.1 h).1
  rcases position_classify a ls ls.length (Nat.le_refl _) p hp with
    ⟨i, l, _, h3, h4⟩ | ⟨i, j, l, b, _, h3, h4, h5, h6⟩
  · left
    refine ⟨i, l, h3, h4, ?_⟩
    have := rewriteLayers_clone_at a ls (fun _ => 0) i l h3
    rw [← h4] at this
    unfold rewritten at h
    rw [h] at this
    exact Option.some.inj this
  · right
    refine ⟨i, j, l, b, h3, h4, h5, h6, ?_⟩
    have := rewriteLayers_split_at a ls (fun _ => 0) i j l b h3 h4 h5
    rw [← h6] at this
    unfold rewritten at h
    rw [h] at this
    exact Option.some.inj this

theorem producer_of_last (ls : List LayerParameter) (n : String) (i0 j0 : Nat)
    (l : LayerParameter) (hl : ls[i0]? = some l) (hj : lastIdx l.top n = some j0) :
    ∀ m, i0 < m → (∀ i' l', i0 < i' → i' < m → ls[i']? = some l' → n ∉ l'.top) →
      producer ls m n = some (i0, j0) := by
  intro m
  induction m with
  | zero => intro h; omega
  | succ m ih =>
    intro h1 hno
    rcases Nat.lt_or_ge i0 m with h | h
    · have hrec := ih h (fun i' l' a1 a2 a3 => hno i' l' a1 (by omega) a3)
      cases hm : ls[m]? with
      | none => simp only [producer, hm]; exact hrec
      | some l' =>
        rw [producer_succ ls m l' hm, lastIdx_eq_none.2 (hno m l' h (by omega) hm)]
        exact hrec
    · have e : i0 = m := by omega
      subst e
      rw [producer_succ ls i0 l hl, hj]

theorem splitLayerOf_top_mem (a : Analysis) (ls : List LayerParameter) {i j : Nat}
    {l : LayerParameter} {b g : String} (hl : ls[i]? = some l) (hb : l.top[j]? = some b)
    (hc : 1 < a.FanoutCount (i, j)) (hg : g ∈ (splitLayerOf a i j b).top) :
    g ∈ splitNames a 0 ls := by
  rw [splitNames_mem]
  exact ⟨i, j, l, b, Nat.zero_le _, by simpa using hl, hb, hc, hg⟩

/-- An output name of an input layer is not an output name of a Split layer. -/
theorem original_not_generated {ls : List LayerParameter} {a : Analysis} (cx : SplitCtx ls a)
    {i j : Nat} {l : LayerParameter} {b : String} (hl : ls[i]? = some l)
    (hb : l.top[j]? = some b) (hc : 1 < a.FanoutCount (i, j)) {l0 : LayerParameter}
    (hl0 : l0 ∈ ls) {n : String} (hn : n ∈ l0.top) : n ∉ (splitLayerOf a i j b).top := by
  intro hg
  exact cx.fresh n (splitLayerOf_top_mem a ls hl hb hc hg) l0 hl0 hn

/-! ### Name resolution in the rewritten network -/

theorem rewritten_clone_at (a : Analysis) (ls : List LayerParameter) {i : Nat}
    {l : LayerParameter} (hl : ls[i]? = some l) :
    (rewritten a ls)[clonePos a ls i]? =
      some (cloneOf a i l (splitIdxAfter a 0 (ls.take i) (fun _ => 0))) :=
  rewriteLayers_clone_at a ls (fun _ => 0) i l hl

theorem rewritten_split_at (a : Analysis) (ls : List LayerParameter) {i j : Nat}
    {l : LayerParameter} {b : String} (hl : ls[i]? = some l) (hb : l.top[j]? = some b)
    (hc : 1 < a.FanoutCount (i, j)) :
    (rewritten a ls)[splitPos a ls i j]? = some (splitLayerOf a i j b) :=
  rewriteLayers_split_at a ls (fun _ => 0) i j l b hl hb hc

/-- In the rewritten network the input of a Split layer resolves to the slot of the clone it
was created for. -/
theorem resolve_split_bottom {ls : List LayerParameter} {a : Analysis} (cx : SplitCtx ls a)
    {i j : Nat} {l : LayerParameter} {b : String} (hl : ls[i]? = some l)
    (hb : l.top[j]? = some b) (hc : 1 < a.FanoutCount (i, j)) :
    producer (rewritten a ls) (splitPos a ls i j) b = some (clonePos a ls i, j) := by
  have hi : i < ls.length := (List.getElem?_eq_some.1 hl).1
  have hj : j < l.top.length := (List.getElem?_eq_some.1 hb).1
  have hbd := splitPos_bounds a ls hl hj hc
  refine producer_of_last (rewritten a ls) b (clonePos a ls i) j _ (rewritten_clone_at a ls hl)
    ?_ _ hbd.1 ?_
  · rw [cloneOf_top]
    exact lastIdx_of_nodup (cx.nodup l (List.getElem?_mem hl)) hb
  · intro p X h1 h2 hX
    rcases rewritten_classify a ls p X hX with
      ⟨i2, l2, h3, h4, h5⟩ | ⟨i2, j2, l2, b2, h3, h4, h5, h6, h7⟩
    · exfalso
      rw [h4] at h1 h2
      have hlt := clonePos_lt_reflect a ls (Nat.le_of_lt hi) h1
      have := clonePos_le a ls i l hl i2 hlt (Nat.le_of_lt (List.getElem?_eq_some.1 h3).1)
      rw [clonePos_succ a ls i l hl] at hbd
      omega
    · rw [h7]
      exact original_not_generated cx h3 h4 h5 (List.getElem?_mem hl) (List.getElem?_mem hb)

/-- In the rewritten network an original name read at the clone of layer `i` resolves to the
clone of the layer it resolved to in the input network, at the same slot. -/
theorem resolve_original {ls : List LayerParameter} {a : Analysis} (cx : SplitCtx ls a)
    {i : Nat} (hi : i ≤ ls.length) {n : String} {s : Nat × Nat}
    (h : producer ls i n = some s) :
    producer (rewritten a ls) (clonePos a ls i) n = some (clonePos a ls s.1, s.2) := by
  obtain ⟨h1, l0, h2, h3, h4⟩ := producer_eq_some ls n i s h
  have hmem : n ∈ l0.top := List.getElem?_mem (lastIdx_eq_some h3).1
  refine producer_of_last (rewritten a ls) n (clonePos a ls s.1) s.2 _
    (rewritten_clone_at a ls h2) ?_ _ (clonePos_lt_of_lt a ls h1 hi) ?_
  · rw [cloneOf_top]; exact h3
  · intro p X k1 k2 hX
    rcases rewritten_classify a ls p X hX with
      ⟨i2, l2, h5, h6, h7⟩ | ⟨i2, j2, l2, b2, h5, h6, h7, h8, h9⟩
    · rw [h6] at k1 k2
      have hi2 : i2 < ls.length := (List.getElem?_eq_some.1 h5).1
      have g1 := clonePos_lt_reflect a ls (by omega) k1
      have g2 := clonePos_lt_reflect a ls (Nat.le_of_lt hi2) k2
      rw [h7, cloneOf_top]
      exact h4 i2 l2 g1 g2 h5
    · rw [h9]
      exact original_not_generated cx h5 h6 h7 (List.getElem?_mem h2) hmem

theorem splitLayerOf_top_getElem? (a : Analysis) (i j : Nat) (b : String) {k : Nat}
    (hk : k < a.FanoutCount (i, j)) :
    (splitLayerOf a i j b).top[k]? =
      some (SplitBlobName (a.layer_idx_to_layer_name i) b j k) := by
  rw [splitLayerOf_eq]
  simp only [List.getElem?_map]
  rw [List.getElem?_range hk]
  rfl

theorem splitLayerOf_top_nodup (a : Analysis) (i j : Nat) (b : String) :
    (splitLayerOf a i j b).top.Nodup := by
  rw [splitLayerOf_eq]
  exact splitTops_nodup _ _ _ _

/-- In the rewritten network the `k`-th generated name of a split slot, read at the clone of a
later layer, resolves to output `k` of the Split layer of that slot. -/
theorem resolve_generated {ls : List LayerParameter} {a : Analysis} (cx : SplitCtx ls a)
    {i0 j0 : Nat} {l0 : LayerParameter} {b0 : String} (hl : ls[i0]? = some l0)
    (hb : l0.top[j0]? = some b0) (hc : 1 < a.FanoutCount (i0, j0)) {k : Nat}
    (hk : k < a.FanoutCount (i0, j0)) {i : Nat} (h1 : i0 < i) (h2 : i ≤ ls.length) :
    producer (rewritten a ls) (clonePos a ls i)
        (SplitBlobName (a.layer_idx_to_layer_name i0) b0 j0 k) =
      some (splitPos a ls i0 j0, k) := by
  have hj : j0 < l0.top.length := (List.getElem?_eq_some.1 hb).1
  have hbd := splitPos_bounds a ls hl hj hc
  have hle := clonePos_le a ls i0 l0 hl i h1 h2
  rw [clonePos_succ a ls i0 l0 hl] at hbd
  have hg := splitLayerOf_top_getElem? a i0 j0 b0 hk
  have hgm : SplitBlobName (a.layer_idx_to_layer_name i0) b0 j0 k ∈
      (splitLayerOf a i0 j0 b0).top := List.getElem?_mem hg
  refine producer_of_last (rewritten a ls) _ (splitPos a ls i0 j0) k _
    (rewritten_split_at a ls hl hb hc) ?_ _ (by omega) ?_
  · exact lastIdx_of_nodup (splitLayerOf_top_nodup a i0 j0 b0) hg
  · intro p X k1 k2 hX
    rcases rewritten_classify a ls p X hX with
      ⟨i2, l2, h5, h6, h7⟩ | ⟨i2, j2, l2, b2, h5, h6, h7, h8, h9⟩
    · rw [h7, cloneOf_top]
      exact cx.fresh _ (splitLayerOf_top_mem a ls hl hb hc hgm) l2 (List.getElem?_mem h5)
    · rw [h9]
      intro hm
      obtain ⟨e1, e2⟩ := splitNames_disjoint a ls _ 0 cx.distinct i0 j0 l0 b0 i2 j2 l2 b2
        (Nat.zero_le _) (by simpa using hl) hb hc hgm (Nat.zero_le _) (by simpa using h5)
        h6 h7 hm
      subst e1 e2
      omega

/-- The fan-out index given to a renamed input is below the fan-out count of its source. -/
theorem rename_index_lt {ls : List LayerParameter} {a : Analysis} (cx : SplitCtx ls a)
    {i j : Nat} {l : LayerParameter} {b : String} (hl : ls[i]? = some l)
    (hb : l.bottom[j]? = some b) :
    (if a.top_idx_to_loss_weight (a.source i j) ≠ 0 then 1 else 0) +
        (refsBelow a ls i (a.source i j) + refsIn a i j (a.source i j)) <
      a.FanoutCount (a.source i j) := by
  have inv := (Analyze_ok cx.ok).1
  obtain ⟨_, l0, h2, h3, _⟩ := source_valid cx.ok hl hb
  have hnd := cx.nodup l0 (List.getElem?_mem h2)
  have hi0 : (a.source i j).1 < ls.length := (List.getElem?_eq_some.1 h2).1
  have hcount := count_nodup cx.ok h2 hnd (a.source i j).2
  have hlw := inv.lw (a.source i j).1 l0 hi0 h2 hnd (a.source i j).2
  rw [← hlw, ← consumersBelow_length] at hcount
  have hj : j < l.bottom.length := (List.getElem?_eq_some.1 hb).1
  have hidx := consumersBelow_getElem? a ls i j l hl hj ls.length (List.getElem?_eq_some.1 hl).1
  have hlt := (List.getElem?_eq_some.1 hidx).1
  show _ < a.top_idx_to_bottom_count (a.source i j)
  rw [show a.source i j = ((a.source i j).1, (a.source i j).2) from rfl] at hlt ⊢
  rw [hcount]
  omega

/-! ### The first pass on the rewritten network -/

/-- Every input of the rewritten network resolves, and to the slot described by one of
`KeptRef`, `RenamedRef`, `SplitRef`. -/
theorem rewritten_ref_cases {ls : List LayerParameter} {a : Analysis} (cx : SplitCtx ls a)
    {p k : Nat} {X : LayerParameter} {b : String} (hX : (rewritten a ls)[p]? = some X)
    (hb : X.bottom[k]? = some b) :
    ∃ s, producer (rewritten a ls) p b = some s ∧
      (KeptRef a ls p k s ∨ RenamedRef a ls p k s ∨ SplitRef a ls p k s) := by
  have inv := (Analyze_ok cx.ok).1
  rcases rewritten_classify a ls p X hX with
    ⟨i, l, h1, h2, h3⟩ | ⟨i, j, l, b2, h1, h2, h3, h4, h5⟩
  · have hi : i < ls.length := (List.getElem?_eq_some.1 h1).1
    have hk : k < l.bottom.length := by
      have := (List.getElem?_eq_some.1 hb).1
      rw [h3, cloneOf_bottom_length] at this
      exact this
    have hb0 : l.bottom[k]? = some l.bottom[k] := List.getElem?_eq_getElem hk
    by_cases hs : 1 < a.FanoutCount (a.source i k)
    · have hcb := cloneOf_bottom_split cx.ok h1 hb0 hs
      rw [← h3, hb] at hcb
      obtain ⟨g1, l0, g2, g3, _⟩ := source_valid cx.ok h1 hb0
      have hres := resolve_generated cx g2 g3 hs (rename_index_lt cx h1 hb0) g1
        (Nat.le_of_lt hi)
      rw [← Option.some.inj hcb, ← h2] at hres
      exact ⟨_, hres, Or.inr (Or.inl ⟨i, l, _, h1, hb0, h2, hs, rfl⟩)⟩
    · have hcb := cloneOf_bottom_kept a ls h1 hb0 hs
      rw [← h3, hb] at hcb
      have hres := resolve_original cx (Nat.le_of_lt hi) (inv.src i k l _ hi h1 hb0)
      rw [← Option.some.inj hcb, ← h2] at hres
      exact ⟨_, hres, Or.inl ⟨i, l, _, h1, hb0, h2, hs, rfl⟩⟩
  · have hbot : X.bottom = [b2] := by rw [h5, splitLayerOf_eq]
    rw [hbot] at hb
    have hk : k = 0 := by
      have := (List.getElem?_eq_some.1 hb).1
      simpa using this
    subst hk
    simp only [List.getElem?_cons_zero, Option.some.injEq] at hb
    subst hb
    have hres := resolve_split_bottom cx h1 h2 h3
    rw [← h4] at hres
    exact ⟨_, hres, Or.inr (Or.inr ⟨i, j, l, b2, h1, h2, h3, h4, rfl, rfl⟩)⟩

theorem Analyze_isOk_of_resolved (ls : List LayerParameter)
    (h : ∀ i l b, ls[i]? = some l → b ∈ l.bottom → producer ls i b ≠ none) :
    ∃ a, Analyze ls = .ok a := by
  cases hr : Analyze ls with
  | ok a => exact ⟨a, rfl⟩
  | error e =>
    obtain ⟨i, j, l, b, ⟨h1, h2, h3, _, _⟩, _⟩ := (Analyze_error_iff ls e).1 hr
    exact absurd h3 (h i l b h1 (List.getElem?_mem h2))

/-- The first pass succeeds on the rewritten network. -/
theorem rewritten_analyze_ok {ls : List LayerParameter} {a : Analysis} (cx : SplitCtx ls a) :
    ∃ a2, Analyze (rewritten a ls) = .ok a2 := by
  apply Analyze_isOk_of_resolved
  intro p X b hX hb
  obtain ⟨k, hk⟩ := List.mem_iff_getElem?.1 hb
  obtain ⟨s, hs, _⟩ := rewritten_ref_cases cx hX hk
  rw [hs]
  simp

/-- Two distinct input references with the same source make the fan-out count of the source at
least two. -/
theorem count_ge_two_of_two_refs {ls : List LayerParameter} {a : Analysis}
    (ha : Analyze ls = .ok a) {i1 k1 i2 k2 : Nat} {l1 l2 : LayerParameter}
    (h1 : ls[i1]? = some l1) (g1 : k1 < l1.bottom.length) (h2 : ls[i2]? = some l2)
    (g2 : k2 < l2.bottom.length) (he : a.source i1 k1 = a.source i2 k2)
    (hne : (i1, k1) ≠ (i2, k2)) : 1 < a.FanoutCount (a.source i1 k1) := by
  have inv := (Analyze_ok ha).1
  have m1 : (i1, k1) ∈ consumersBelow a ls ls.length (a.source i1 k1) := by
    rw [consumersBelow_mem]
    exact ⟨(List.getElem?_eq_some.1 h1).1, ⟨l1, h1, g1⟩, rfl⟩
  have m2 : (i2, k2) ∈ consumersBelow a ls ls.length (a.source i1 k1) := by
    rw [consumersBelow_mem]
    exact ⟨(List.getElem?_eq_some.1 h2).1, ⟨l2, h2, g2⟩, he.symm⟩
  have hlen : 2 ≤ (consumersBelow a ls ls.length (a.source i1 k1)).length := by
    have hsub : List.Subperm [(i1, k1), (i2, k2)]
        (consumersBelow a ls ls.length (a.source i1 k1)) := by
      apply List.subperm_of_subset
      · simp [hne]
      · intro c hc
        simp only [List.mem_cons, List.mem_singleton, List.not_mem_nil, or_false] at hc
        rcases hc with rfl | rfl
        · exact m1
        · exact m2
    simpa using hsub.length_le
  rw [consumersBelow_length, ← refCount_eq_refsBelow ha] at hlen
  show 1 < a.top_idx_to_bottom_count (a.source i1 k1)
  rw [inv.count]
  omega

theorem count_pos_of_ref {ls : List LayerParameter} {a : Analysis} {i k : Nat}
    {l : LayerParameter}
    (h1 : ls[i]? = some l) (g1 : k < l.bottom.length) :
    1 ≤ refsBelow a ls ls.length (a.source i k) := by
  have m1 : (i, k) ∈ consumersBelow a ls ls.length (a.source i k) := by
    rw [consumersBelow_mem]
    exact ⟨(List.getElem?_eq_some.1 h1).1, ⟨l, h1, g1⟩, rfl⟩
  rw [← consumersBelow_length]
  exact List.length_pos_of_mem m1

/-! ### No slot of the rewritten network has two consumers -/

theorem kept_kept {ls : List LayerParameter} {a : Analysis} (cx : SplitCtx ls a)
    {p1 k1 p2 k2 : Nat} {s : Nat × Nat} (h1 : KeptRef a ls p1 k1 s)
    (h2 : KeptRef a ls p2 k2 s) : (p1, k1) = (p2, k2) := by
  obtain ⟨i1, l1, b1, a1, a2, a3, a4, a5⟩ := h1
  obtain ⟨i2, l2, b2, c1, c2, c3, c4, c5⟩ := h2
  obtain ⟨_, m1, d1, _, _⟩ := source_valid cx.ok a1 a2
  obtain ⟨_, m2, e1, _, _⟩ := source_valid cx.ok c1 c2
  rw [a5] at c5
  simp only [Prod.mk.injEq] at c5
  have hfst := clonePos_inj a ls (List.getElem?_eq_some.1 d1).1 (List.getElem?_eq_some.1 e1).1
    c5.1
  have hsrc : a.source i1 k1 = a.source i2 k2 := Prod.ext hfst c5.2
  by_cases hne : (i1, k1) = (i2, k2)
  · simp only [Prod.mk.injEq] at hne
    rw [a3, c3, hne.1, hne.2]
  · exact absurd (count_ge_two_of_two_refs cx.ok a1 (List.getElem?_eq_some.1 a2).1 c1
      (List.getElem?_eq_some.1 c2).1 hsrc hne) a4

theorem kept_renamed {ls : List LayerParameter} {a : Analysis} (cx : SplitCtx ls a)
    {p1 k1 p2 k2 : Nat} {s : Nat × Nat} (h1 : KeptRef a ls p1 k1 s)
    (h2 : RenamedRef a ls p2 k2 s) : False := by
  obtain ⟨i1, l1, b1, a1, a2, a3, a4, a5⟩ := h1
  obtain ⟨i2, l2, b2, c1, c2, c3, c4, c5⟩ := h2
  obtain ⟨_, m1, d1, _, _⟩ := source_valid cx.ok a1 a2
  obtain ⟨_, m2, e1, e2, _⟩ := source_valid cx.ok c1 c2
  rw [a5] at c5
  simp only [Prod.mk.injEq] at c5
  exact splitPos_ne_clonePos a ls e1 (List.getElem?_eq_some.1 e2).1 c4
    (List.getElem?_eq_some.1 d1).1 c5.1.symm

theorem kept_split {ls : List LayerParameter} {a : Analysis} (cx : SplitCtx ls a)
    {p1 k1 p2 k2 : Nat} {s : Nat × Nat} (h1 : KeptRef a ls p1 k1 s)
    (h2 : SplitRef a ls p2 k2 s) : False := by
  obtain ⟨i1, l1, b1, a1, a2, a3, a4, a5⟩ := h1
  obtain ⟨i2, j2, l2, b2, c1, c2, c3, c4, c5, c6⟩ := h2
  obtain ⟨_, m1, d1, _, _⟩ := source_valid cx.ok a1 a2
  rw [a5] at c6
  simp only [Prod.mk.injEq] at c6
  have hfst := clonePos_inj a ls (List.getElem?_eq_some.1 d1).1 (List.getElem?_eq_some.1 c1).1
    c6.1
  have hsrc : a.source i1 k1 = (i2, j2) := Prod.ext hfst c6.2
  rw [hsrc] at a4
  exact a4 c3

theorem renamed_renamed {ls : List LayerParameter} {a : Analysis} (cx : SplitCtx ls a)
    {p1 k1 p2 k2 : Nat} {s : Nat × Nat} (h1 : RenamedRef a ls p1 k1 s)
    (h2 : RenamedRef a ls p2 k2 s) : (p1, k1) = (p2, k2) := by
  obtain ⟨i1, l1, b1, a1, a2, a3, a4, a5⟩ := h1
  obtain ⟨i2, l2, b2, c1, c2, c3, c4, c5⟩ := h2
  obtain ⟨_, m1, d1, d2, _⟩ := source_valid cx.ok a1 a2
  obtain ⟨_, m2, e1, e2, _⟩ := source_valid cx.ok c1 c2
  rw [a5] at c5
  simp only [Prod.mk.injEq] at c5
  obtain ⟨f1, f2⟩ := splitPos_inj a ls d1 (List.getElem?_eq_some.1 d2).1 a4 e1
    (List.getElem?_eq_some.1 e2).1 c4 c5.1
  have hsrc : a.source i1 k1 = a.source i2 k2 := Prod.ext f1 f2
  have hidx := c5.2
  unfold renameIndex at hidx
  rw [hsrc] at hidx
  have g1 := consumersBelow_getElem? a ls i1 k1 l1 a1 (List.getElem?_eq_some.1 a2).1 ls.length
    (List.getElem?_eq_some.1 a1).1
  have g2 := consumersBelow_getElem? a ls i2 k2 l2 c1 (List.getElem?_eq_some.1 c2).1 ls.length
    (List.getElem?_eq_some.1 c1).1
  rw [hsrc] at g1
  have hrank : refsBelow a ls i1 (a.source i2 k2) + refsIn a i1 k1 (a.source i2 k2) =
      refsBelow a ls i2 (a.source i2 k2) + refsIn a i2 k2 (a.source i2 k2) := by omega
  rw [hrank, g2] at g1
  have := Option.some.inj g1
  simp only [Prod.mk.injEq] at this
  rw [a3, c3, this.1, this.2]

theorem renamed_split {ls : List LayerParameter} {a : Analysis} (cx : SplitCtx ls a)
    {p1 k1 p2 k2 : Nat} {s : Nat × Nat} (h1 : RenamedRef a ls p1 k1 s)
    (h2 : SplitRef a ls p2 k2 s) : False := by
  obtain ⟨i1, l1, b1, a1, a2, a3, a4, a5⟩ := h1
  obtain ⟨i2, j2, l2, b2, c1, c2, c3, c4, c5, c6⟩ := h2
  obtain ⟨_, m1, d1, d2, _⟩ := source_valid cx.ok a1 a2
  rw [a5] at c6
  simp only [Prod.mk.injEq] at c6
  exact splitPos_ne_clonePos a ls d1 (List.getElem?_eq_some.1 d2).1 a4
    (List.getElem?_eq_some.1 c1).1 c6.1

theorem split_split (a : Analysis) (ls : List LayerParameter)
    {p1 k1 p2 k2 : Nat} {s : Nat × Nat} (h1 : SplitRef a ls p1 k1 s)
    (h2 : SplitRef a ls p2 k2 s) : (p1, k1) = (p2, k2) := by
  obtain ⟨i1, j1, l1, b1, a1, a2, a3, a4, a5, a6⟩ := h1
  obtain ⟨i2, j2, l2, b2, c1, c2, c3, c4, c5, c6⟩ := h2
  rw [a6] at c6
  simp only [Prod.mk.injEq] at c6
  have hfst := clonePos_inj a ls (List.getElem?_eq_some.1 a1).1 (List.getElem?_eq_some.1 c1).1
    c6.1
  rw [a4, c4, a5, c5, hfst, c6.2]

/-- Two inputs of the rewritten network that resolve to the same slot are the same input. -/
theorem ref_injective {ls : List LayerParameter} {a : Analysis} (cx : SplitCtx ls a)
    {p1 k1 p2 k2 : Nat} {s : Nat × Nat}
    (h1 : KeptRef a ls p1 k1 s ∨ RenamedRef a ls p1 k1 s ∨ SplitRef a ls p1 k1 s)
    (h2 : KeptRef a ls p2 k2 s ∨ RenamedRef a ls p2 k2 s ∨ SplitRef a ls p2 k2 s) :
    (p1, k1) = (p2, k2) := by
  rcases h1 with h1 | h1 | h1 <;> rcases h2 with h2 | h2 | h2
  · exact kept_kept cx h1 h2
  · exact (kept_renamed cx h1 h2).elim
  · exact (kept_split cx h1 h2).elim
  · exact (kept_renamed cx h2 h1).elim
  · exact renamed_renamed cx h1 h2
  · exact (renamed_split cx h1 h2).elim
  · exact (kept_split cx h2 h1).elim
  · exact (renamed_split cx h2 h1).elim
  · exact split_split a ls h1 h2

theorem declaredLoss_cloneOf (a : Analysis) (i : Nat) (l : LayerParameter)
    (idx : Nat × Nat → Nat) (j : Nat) :
    declaredLoss (cloneOf a i l idx) j =
      if lossMoved a i 0 l.top then 0 else declaredLoss l j := by
  unfold declaredLoss
  rw [cloneOf_top, cloneOf_loss_weight]
  by_cases h : lossMoved a i 0 l.top = true
  · simp [h]
  · simp [h]

theorem declaredLoss_splitLayerOf (a : Analysis) (i j : Nat) (b : String) (m : Nat)
    (h : 1 ≤ m ∨ a.top_idx_to_loss_weight (i, j) = 0) :
    declaredLoss (splitLayerOf a i j b) m = 0 := by
  unfold declaredLoss
  rw [splitLayerOf_eq]
  simp only []
  by_cases hm : m < ((List.range (a.FanoutCount (i, j))).map
      (SplitBlobName (a.layer_idx_to_layer_name i) b j)).length
  · rw [if_pos hm]
    by_cases hw : a.top_idx_to_loss_weight (i, j) = 0
    · simp [hw]
    · rw [if_pos hw, List.getD_eq_getElem?_getD, List.getElem?_map]
      rcases h with h | h
      · simp only [List.length_map, List.length_range] at hm
        rw [List.getElem?_range hm]
        simp
        omega
      · exact absurd h hw
  · rw [if_neg hm]

theorem kept_no_loss {ls : List LayerParameter} {a : Analysis} (cx : SplitCtx ls a)
    {p k : Nat} {s : Nat × Nat} (h : KeptRef a ls p k s) {X : LayerParameter}
    (hX : (rewritten a ls)[s.1]? = some X) : declaredLoss X s.2 = 0 := by
  obtain ⟨i, l, b, a1, a2, a3, a4, a5⟩ := h
  obtain ⟨_, l0, d1, _, _⟩ := source_valid cx.ok a1 a2
  rw [a5] at hX ⊢
  simp only [] at hX ⊢
  rw [rewritten_clone_at a ls d1] at hX
  rw [← Option.some.inj hX, declaredLoss_cloneOf]
  split
  · rfl
  · by_contra hd
    have hcount := count_nodup cx.ok d1 (cx.nodup l0 (List.getElem?_mem d1)) (a.source i k).2
    rw [if_pos hd] at hcount
    have := count_pos_of_ref (a := a) a1 (List.getElem?_eq_some.1 a2).1
    apply a4
    show 1 < a.top_idx_to_bottom_count (a.source i k)
    rw [show a.source i k = ((a.source i k).1, (a.source i k).2) from rfl] at this ⊢
    rw [hcount]
    omega

theorem renamed_no_loss {ls : List LayerParameter} {a : Analysis} (cx : SplitCtx ls a)
    {p k : Nat} {s : Nat × Nat} (h : RenamedRef a ls p k s) {X : LayerParameter}
    (hX : (rewritten a ls)[s.1]? = some X) : declaredLoss X s.2 = 0 := by
  obtain ⟨i, l, b, a1, a2, a3, a4, a5⟩ := h
  obtain ⟨_, l0, d1, d2, _⟩ := source_valid cx.ok a1 a2
  rw [a5] at hX ⊢
  simp only [] at hX ⊢
  rw [rewritten_split_at a ls d1 d2 a4] at hX
  rw [← Option.some.inj hX]
  apply declaredLoss_splitLayerOf
  unfold renameIndex
  by_cases hw : a.top_idx_to_loss_weight (a.source i k) = 0
  · exact Or.inr hw
  · left
    rw [if_pos hw]
    omega

theorem split_no_loss {ls : List LayerParameter} {a : Analysis} (cx : SplitCtx ls a)
    {p k : Nat} {s : Nat × Nat} (h : SplitRef a ls p k s) {X : LayerParameter}
    (hX : (rewritten a ls)[s.1]? = some X) : declaredLoss X s.2 = 0 := by
  have inv := (Analyze_ok cx.ok).1
  obtain ⟨i, j, l, b, a1, a2, a3, a4, a5, a6⟩ := h
  rw [a6] at hX ⊢
  simp only [] at hX ⊢
  rw [rewritten_clone_at a ls a1] at hX
  rw [← Option.some.inj hX, declaredLoss_cloneOf]
  split
  · rfl
  · rename_i hm
    by_contra hd
    apply hm
    rw [lossMoved_iff]
    refine ⟨j, Nat.zero_le _, by have := (List.getElem?_eq_some.1 a2).1; omega, a3, ?_⟩
    rw [inv.lw i l (List.getElem?_eq_some.1 a1).1 a1 (cx.nodup l (List.getElem?_mem a1)) j]
    exact hd

theorem rewritten_top_nodup {ls : List LayerParameter} {a : Analysis} (cx : SplitCtx ls a)
    {p : Nat} {X : LayerParameter} (hX : (rewritten a ls)[p]? = some X) : X.top.Nodup := by
  rcases rewritten_classify a ls p X hX with
    ⟨i, l, h1, _, h3⟩ | ⟨i, j, l, b, _, _, _, _, h5⟩
  · rw [h3, cloneOf_top]
    exact cx.nodup l (List.getElem?_mem h1)
  · rw [h5]
    exact splitLayerOf_top_nodup a i j b

/-- In the rewritten network no output slot has a fan-out count above one. -/
theorem rewritten_count_le_one {ls : List LayerParameter} {a : Analysis} (cx : SplitCtx ls a)
    {a2 : Analysis} (ha2 : Analyze (rewritten a ls) = .ok a2) :
    ∀ s, a2.top_idx_to_bottom_count s ≤ 1 := by
  intro s
  by_contra hgt
  have inv2 := (Analyze_ok ha2).1
  obtain ⟨X, hX, hj⟩ := count_pos_valid ha2 (s := s) (by omega)
  have hcount := count_nodup ha2 hX (rewritten_top_nodup cx hX) s.2
  rw [show ((s.1, s.2) : Nat × Nat) = s from rfl, ← consumersBelow_length] at hcount
  have hnd := consumersBelow_nodup a2 (rewritten a ls) s (rewritten a ls).length
  have desc : ∀ c, c ∈ consumersBelow a2 (rewritten a ls) (rewritten a ls).length s →
      KeptRef a ls c.1 c.2 s ∨ RenamedRef a ls c.1 c.2 s ∨ SplitRef a ls c.1 c.2 s := by
    intro c hc
    rw [consumersBelow_mem] at hc
    obtain ⟨h1, ⟨Y, h2, h3⟩, h4⟩ := hc
    have hb : Y.bottom[c.2]? = some Y.bottom[c.2] := List.getElem?_eq_getElem h3
    obtain ⟨s2, g1, g2⟩ := rewritten_ref_cases cx h2 hb
    have := inv2.src c.1 c.2 Y _ h1 h2 hb
    rw [g1] at this
    have e : s2 = s := (Option.some.inj this).trans h4
    rw [e] at g2
    exact g2
  by_cases hd : declaredLoss X s.2 = 0
  · rw [if_neg (by simpa using hd)] at hcount
    have hlen : 2 ≤ (consumersBelow a2 (rewritten a ls) (rewritten a ls).length s).length := by
      omega
    have m0 := List.getElem_mem (l := consumersBelow a2 (rewritten a ls)
      (rewritten a ls).length s) (n := 0) (by omega)
    have m1 := List.getElem_mem (l := consumersBelow a2 (rewritten a ls)
      (rewritten a ls).length s) (n := 1) (by omega)
    have e := ref_injective cx (desc _ m0) (desc _ m1)
    have := (List.Nodup.getElem_inj_iff hnd).1 (Prod.ext (by simpa using congrArg Prod.fst e)
      (by simpa using congrArg Prod.snd e))
    omega
  · rw [if_pos hd] at hcount
    have hlen : 1 ≤ (consumersBelow a2 (rewritten a ls) (rewritten a ls).length s).length := by
      omega
    have m0 := List.getElem_mem (l := consumersBelow a2 (rewritten a ls)
      (rewritten a ls).length s) (n := 0) (by omega)
    rcases desc _ m0 with h | h | h
    · exact hd (kept_no_loss cx h hX)
    · exact hd (renamed_no_loss cx h hX)
    · exact hd (split_no_loss cx h hX)

/-! ### The naming scheme -/

theorem digitChar_isDigit : ∀ k, k < 10 → (Nat.digitChar k).isDigit = true := by
  decide

theorem toDigitsCore_isDigit (fuel : Nat) : ∀ (n : Nat) (ds : List Char),
    (∀ c ∈ ds, c.isDigit = true) → ∀ c ∈ Nat.toDigitsCore 10 fuel n ds, c.isDigit = true := by
  induction fuel with
  | zero => intro n ds h; simpa [Nat.toDigitsCore] using h
  | succ fuel ih =>
    intro n ds h
    rw [Nat.toDigitsCore]
    have hd : ∀ c ∈ Nat.digitChar (n % 10) :: ds, c.isDigit = true := by
      intro c hc
      rcases List.mem_cons.1 hc with rfl | hc
      · exact digitChar_isDigit _ (Nat.mod_lt _ (by omega))
      · exact h c hc
    by_cases h0 : n / 10 = 0
    · rw [if_pos h0]; exact hd
    · rw [if_neg h0]; exact ih _ _ hd

/-- The decimal numeral of a number consists of digits. -/
theorem toString_nat_isDigit (n : Nat) : ∀ c ∈ (toString n).data, c.isDigit = true :=
  toDigitsCore_isDigit (n + 1) n [] (by simp)

/-- The decimal numeral of a number denotes that number. -/
theorem decimalValue_toString (n : Nat) : decimalValue (toString n) = n := by
  have := toDigitsCore_decode (n + 1) n [] (by omega)
  simpa using this

theorem toString_nat_noUnderscore (n : Nat) : '_' ∉ (toString n).data := by
  intro h
  have := toString_nat_isDigit n '_' h
  revert this
  decide

theorem SplitBlobName_eq_append (layer_name blob_name : String) (blob_idx split_idx : Nat) :
    SplitBlobName layer_name blob_name blob_idx split_idx =
      SplitLayerName layer_name blob_name blob_idx ++ "_" ++ toString split_idx := by
  unfold SplitBlobName SplitLayerName
  rw [String.append_assoc _ "_split" "_"]
  rfl

theorem split_at_separator (xs : List Char) :
    ∀ (ys r r2 : List Char), '_' ∉ xs → '_' ∉ ys → xs ++ '_' :: r = ys ++ '_' :: r2 →
      xs = ys ∧ r = r2 := by
  induction xs with
  | nil =>
    intro ys r r2 _ hy h
    cases ys with
    | nil => simpa using h
    | cons y ys =>
      simp only [List.nil_append, List.cons_append, List.cons.injEq] at h
      exact absurd (by rw [← h.1]; simp) hy
  | cons x xs ih =>
    intro ys r r2 hx hy h
    cases ys with
    | nil =>
      simp only [List.nil_append, List.cons_append, List.cons.injEq] at h
      exact absurd (by rw [h.1]; simp) hx
    | cons y ys =>
      simp only [List.cons_append, List.cons.injEq] at h
      obtain ⟨e1, e2⟩ := ih ys r r2 (fun hm => hx (List.mem_cons_of_mem _ hm))
        (fun hm => hy (List.mem_cons_of_mem _ hm)) h.2
      exact ⟨by rw [h.1, e1], e2⟩

theorem split_at_last_separator (xs ys r r2 : List Char) (hx : '_' ∉ xs) (hy : '_' ∉ ys)
    (h : r ++ '_' :: xs = r2 ++ '_' :: ys) : r = r2 ∧ xs = ys := by
  have h2 := congrArg List.reverse h
  simp only [List.reverse_append, List.reverse_cons, List.append_assoc, List.singleton_append]
    at h2
  obtain ⟨e1, e2⟩ := split_at_separator xs.reverse ys.reverse r.reverse r2.reverse
    (by simpa using hx) (by simpa using hy) h2
  exact ⟨List.reverse_injective e2, List.reverse_injective e1⟩

theorem SplitLayerName_data (ln bn : String) (bi : Nat) :
    (SplitLayerName ln bn bi).data =
      ((bn.data ++ '_' :: ln.data) ++ '_' :: (toString bi).data) ++ '_' :: "split".data := by
  simp [SplitLayerName, String.data_append]

theorem SplitBlobName_data (ln bn : String) (bi k : Nat) :
    (SplitBlobName ln bn bi k).data =
      (SplitLayerName ln bn bi).data ++ '_' :: (toString k).data := by
  rw [SplitBlobName_eq_append]
  simp [String.data_append]

/-- Two Split layer names are equal only if the slot indices are equal and the tensor name
followed by `_` and the producer layer name is the same string. -/
theorem SplitLayerName_eq {ln bn ln2 bn2 : String} {bi bi2 : Nat}
    (h : SplitLayerName ln bn bi = SplitLayerName ln2 bn2 bi2) :
    bn.data ++ '_' :: ln.data = bn2.data ++ '_' :: ln2.data ∧ bi = bi2 := by
  have hd := congrArg String.data h
  rw [SplitLayerName_data, SplitLayerName_data] at hd
  obtain ⟨r1, _⟩ := split_at_last_separator _ _ _ _ (by decide) (by decide) hd
  obtain ⟨r2, e3⟩ := split_at_last_separator _ _ _ _ (toString_nat_noUnderscore bi)
    (toString_nat_noUnderscore bi2) r1
  exact ⟨r2, toString_nat_injective (String.ext e3)⟩

/-- When the two producer layer names, or the two tensor names, do not contain the character
`_`, equal Split layer names come from equal names and indices. -/
theorem SplitLayerName_injective {ln bn ln2 bn2 : String} {bi bi2 : Nat}
    (hn : (NoUnderscore ln ∧ NoUnderscore ln2) ∨ (NoUnderscore bn ∧ NoUnderscore bn2))
    (h : SplitLayerName ln bn bi = SplitLayerName ln2 bn2 bi2) :
    ln = ln2 ∧ bn = bn2 ∧ bi = bi2 := by
  obtain ⟨e, e3⟩ := SplitLayerName_eq h
  rcases hn with ⟨h1, h2⟩ | ⟨h1, h2⟩
  · obtain ⟨e1, e2⟩ := split_at_last_separator _ _ _ _ h1 h2 e
    exact ⟨String.ext e2, String.ext e1, e3⟩
  · obtain ⟨e1, e2⟩ := split_at_separator _ _ _ _ h1 h2 e
    exact ⟨String.ext e2, String.ext e1, e3⟩

/-- When the two producer layer names, or the two tensor names, do not contain the character
`_`, equal Split output names come from equal names and indices. -/
theorem SplitBlobName_injective {ln bn ln2 bn2 : String} {bi bi2 k k2 : Nat}
    (hn : (NoUnderscore ln ∧ NoUnderscore ln2) ∨ (NoUnderscore bn ∧ NoUnderscore bn2))
    (h : SplitBlobName ln bn bi k = SplitBlobName ln2 bn2 bi2 k2) :
    ln = ln2 ∧ bn = bn2 ∧ bi = bi2 ∧ k = k2 := by
  have hd := congrArg String.data h
  rw [SplitBlobName_data, SplitBlobName_data] at hd
  obtain ⟨r1, e4⟩ := split_at_last_separator _ _ _ _ (toString_nat_noUnderscore k)
    (toString_nat_noUnderscore k2) hd
  obtain ⟨e1, e2, e3⟩ := SplitLayerName_injective hn (String.ext r1)
  exact ⟨e1, e2, e3, toString_nat_injective (String.ext e4)⟩

theorem joined_data (ln bn : String) : (bn ++ "_" ++ ln).data = bn.data ++ '_' :: ln.data := by
  simp [String.data_append]

/-- Two Split layer names are equal exactly when the slot indices are equal and the tensor
name followed by `_` and the producer layer name is the same string. -/
theorem SplitLayerName_eq_iff (ln bn ln2 bn2 : String) (bi bi2 : Nat) :
    SplitLayerName ln bn bi = SplitLayerName ln2 bn2 bi2 ↔
      bn ++ "_" ++ ln = bn2 ++ "_" ++ ln2 ∧ bi = bi2 := by
  constructor
  · intro h
    obtain ⟨e, e2⟩ := SplitLayerName_eq h
    exact ⟨String.ext (by rw [joined_data, joined_data, e]), e2⟩
  · rintro ⟨e, e2⟩
    unfold SplitLayerName
    rw [e, e2]

/-- Two Split output names are equal exactly when the slot indices and the fan-out indices
are equal and the tensor name followed by `_` and the producer layer name is the same
string. -/
theorem SplitBlobName_eq_iff (ln bn ln2 bn2 : String) (bi bi2 k k2 : Nat) :
    SplitBlobName ln bn bi k = SplitBlobName ln2 bn2 bi2 k2 ↔
      bn ++ "_" ++ ln = bn2 ++ "_" ++ ln2 ∧ bi = bi2 ∧ k = k2 := by
  constructor
  · intro h
    have hd := congrArg String.data h
    rw [SplitBlobName_data, SplitBlobName_data] at hd
    obtain ⟨r1, e4⟩ := split_at_last_separator _ _ _ _ (toString_nat_noUnderscore k)
      (toString_nat_noUnderscore k2) hd
    obtain ⟨e, e2⟩ := (SplitLayerName_eq_iff ln bn ln2 bn2 bi bi2).1 (String.ext r1)
    exact ⟨e, e2, toString_nat_injective (String.ext e4)⟩
  · rintro ⟨e, e2, e3⟩
    rw [SplitBlobName_eq_append, SplitBlobName_eq_append,
      (SplitLayerName_eq_iff ln bn ln2 bn2 bi bi2).2 ⟨e, e2⟩, e3]

/-- The tensor name followed by `_` and the producer layer name determines both names when
the two layer names are equal, when the two tensor names are equal, when neither layer name
contains `_`, or when neither tensor name contains `_`. -/
theorem joined_injective {ln bn ln2 bn2 : String}
    (hn : ln = ln2 ∨ bn = bn2 ∨ (NoUnderscore ln ∧ NoUnderscore ln2) ∨
      (NoUnderscore bn ∧ NoUnderscore bn2))
    (h : bn ++ "_" ++ ln = bn2 ++ "_" ++ ln2) : ln = ln2 ∧ bn = bn2 := by
  have hd := congrArg String.data h
  rw [joined_data, joined_data] at hd
  rcases hn with e | e | ⟨h1, h2⟩ | ⟨h1, h2⟩
  · subst e
    exact ⟨rfl, String.ext (List.append_cancel_right hd)⟩
  · subst e
    have := List.append_cancel_left hd
    simp only [List.cons.injEq, true_and] at this
    exact ⟨String.ext this, rfl⟩
  · obtain ⟨e1, e2⟩ := split_at_last_separator _ _ _ _ h1 h2 hd
    exact ⟨String.ext e2, String.ext e1⟩
  · obtain ⟨e1, e2⟩ := split_at_separator _ _ _ _ h1 h2 hd
    exact ⟨String.ext e2, String.ext e1⟩

/-! ### The layout of the rewritten layer list -/

theorem splitsFrom_eq_enum (a : Analysis) (i : Nat) (ts : List String) :
    ∀ j, splitsFrom a i j ts =
      ((ts.enumFrom j).filter (fun p => decide (1 < a.FanoutCount (i, p.1)))).map
        (fun p => splitLayerOf a i p.1 p.2) := by
  induction ts with
  | nil => intro j; rfl
  | cons b rest ih =>
    intro j
    rw [splitsFrom, List.enumFrom_cons, List.filter_cons]
    by_cases hc : 1 < a.FanoutCount (i, j)
    · simp only [hc, if_true, decide_True, List.map_cons, ih]
    · simp only [hc, if_false, decide_False, ih]
      rfl

theorem enum_take {α : Type} (xs : List α) (n : Nat) : (xs.take n).enum = xs.enum.take n := by
  conv_rhs => rw [← List.take_append_drop n xs, List.enum_append]
  have h : ((xs.take n).enum).length ≤ n := by simp
  rw [List.take_append_eq_append_take, List.take_of_length_le h]
  by_cases hn : n ≤ xs.length
  · have : n - (List.take n xs).enum.length = 0 := by simp; omega
    rw [this]; simp
  · have : xs.drop n = [] := List.drop_eq_nil_of_le (by omega)
    rw [this]; simp [List.enumFrom]

/-- The second pass on the first `n` layers produces, layer by layer, the clone followed by
the Split layers of the split slots. -/
theorem rewriteLayers_take_eq_flatMap (a : Analysis) (ls : List LayerParameter)
    (idx : Nat × Nat → Nat) :
    ∀ n, rewriteLayers a 0 (ls.take n) idx = (ls.take n).enum.flatMap (fun p =>
      cloneOf a p.1 p.2 (splitIdxAfter a 0 (ls.take p.1) idx) :: splitsFrom a p.1 0 p.2.top) := by
  intro n
  induction n with
  | zero => simp [rewriteLayers, List.enum]
  | succ n ih =>
    rw [List.take_succ]
    cases hl : ls[n]? with
    | none => simpa using ih
    | some l =>
      have hlen : (ls.take n).length = n := by
        have := (List.getElem?_eq_some.1 hl).1
        simp; omega
      simp only [Option.toList]
      rw [rewriteLayers_append, ih, List.enum_append, List.flatMap_append, hlen]
      congr 1
      simp [rewriteLayers, rewriteLayer_fst, List.enumFrom]

theorem rewriteLayers_eq_flatMap (a : Analysis) (ls : List LayerParameter)
    (idx : Nat × Nat → Nat) :
    rewriteLayers a 0 ls idx = ls.enum.flatMap (fun p =>
      cloneOf a p.1 p.2 (splitIdxAfter a 0 (ls.take p.1) idx) :: splitsFrom a p.1 0 p.2.top) := by
  have := rewriteLayers_take_eq_flatMap a ls idx ls.length
  rwa [List.take_length] at this

theorem map_sublist_flatMap {α β : Type} (g : α → β) (f : α → List β)
    (h : ∀ x, ∃ r, f x = g x :: r) : ∀ xs : List α, List.Sublist (xs.map g) (xs.flatMap f) := by
  intro xs
  induction xs with
  | nil => simp
  | cons x xs ih =>
    obtain ⟨r, hr⟩ := h x
    rw [List.map_cons, List.flatMap_cons, hr, List.cons_append]
    exact List.Sublist.cons₂ _ (List.Sublist.trans ih (List.sublist_append_right _ _))

/-- With the maps of a successful first pass, the segment of a layer is what the second pass
appends for it. -/
theorem layerSegment_eq (ls : List LayerParameter) (p : Nat × LayerParameter) :
    layerSegment ls p =
      cloneOf (analysisOf ls) p.1 p.2
          (splitIdxAfter (analysisOf ls) 0 (ls.take p.1) (fun _ => 0)) ::
        splitsFrom (analysisOf ls) p.1 0 p.2.top := by
  rw [layerSegment, cloneLayer, splitLayersOf, splitsFrom_eq_enum]
  rfl

theorem rewritten_eq_segments (ls : List LayerParameter) :
    rewritten (analysisOf ls) ls = ls.enum.flatMap (layerSegment ls) := by
  rw [rewritten, rewriteLayers_eq_flatMap]
  congr 1
  funext p
  rw [layerSegment_eq]

theorem segments_length (ls : List LayerParameter) (i : Nat) (hi : i ≤ ls.length) :
    ((ls.enum.take i).flatMap (layerSegment ls)).length = cloneLayerPos ls i := by
  have h1 := rewriteLayers_take_eq_flatMap (analysisOf ls) ls (fun _ => 0) i
  have h2 : (fun p : Nat × LayerParameter => layerSegment ls p) = fun p =>
      cloneOf (analysisOf ls) p.1 p.2
          (splitIdxAfter (analysisOf ls) 0 (ls.take p.1) (fun _ => 0)) ::
        splitsFrom (analysisOf ls) p.1 0 p.2.top := by
    funext p; rw [layerSegment_eq]
  rw [← enum_take, show layerSegment ls = fun p => layerSegment ls p from rfl, h2, ← h1,
    rewriteLayers_length, cloneLayerPos, clonePos]
  simp
  omega

/-! ### Facts about the rewritten network that need no distinctness of output names -/

theorem analyzeLoss_lw_ne_zero (ts : List String) :
    ∀ (ws : List ℚ) (st : Analysis) (s : Nat × Nat),
      (analyzeLoss ts ws st).top_idx_to_loss_weight s ≠ 0 →
      st.top_idx_to_loss_weight s ≠ 0 ∨
        0 < (ts.zip ws).countP (fun p => decide (p.2 ≠ 0) &&
          decide ((st.blob_name_to_last_top_idx p.1).getD (0, 0) = s)) := by
  induction ts with
  | nil => intro ws st s h; left; simpa [analyzeLoss] using h
  | cons b rest ih =>
    intro ws st s h
    cases ws with
    | nil => left; simpa [analyzeLoss] using h
    | cons w ws =>
      unfold analyzeLoss at h
      simp only [] at h
      rcases ih ws _ s h with h1 | h1
      · simp only [] at h1
        by_cases e : (st.blob_name_to_last_top_idx b).getD (0, 0) = s
        · right
          rw [e, Function.update_same] at h1
          rw [List.zip_cons_cons, List.countP_cons]
          have hd : (decide ((b, w).2 ≠ 0) &&
              decide ((st.blob_name_to_last_top_idx (b, w).1).getD (0, 0) = s)) = true := by
            simp only [Bool.and_eq_true, decide_eq_true_eq]
            exact ⟨h1, e⟩
          rw [if_pos hd]
          omega
        · left
          rwa [Function.update_noteq (Ne.symm e)] at h1
      · right
        simp only [] at h1
        rw [List.zip_cons_cons, List.countP_cons]
        omega

/-- A slot whose recorded loss weight is nonzero has been counted for the loss. -/
theorem lossWeight_step (ls : List LayerParameter) (i : Nat) (st st2 : Analysis)
    (l : LayerParameter) (hl : ls[i]? = some l) (inv : AnalysisInv ls i st)
    (hinv : ∀ s, st.top_idx_to_loss_weight s ≠ 0 → 0 < lossCount ls i s)
    (h : analyzeLayer i l st = .ok st2) :
    ∀ s, st2.top_idx_to_loss_weight s ≠ 0 → 0 < lossCount ls (i + 1) s := by
  have inv2 := AnalysisInv.step ls i st st2 l hl inv h
  unfold analyzeLayer at h
  simp only [] at h
  cases hb : analyzeBottoms l.name i 0 l.bottom
      { st with layer_idx_to_layer_name := Function.update st.layer_idx_to_layer_name i l.name } with
  | error e => rw [hb] at h; cases h
  | ok st1 =>
    rw [hb] at h
    simp only [Except.ok.injEq] at h
    obtain ⟨_, b2, _⟩ := analyzeBottoms_ok _ _ _ _ _ _ hb
    simp only [] at b2
    obtain ⟨f1, _, _⟩ := analyzeLoss_frame l.top l.loss_weight (analyzeTops i 0 l.top st1)
    rw [h] at f1
    intro s hs
    rw [lossCount, hl]
    simp only []
    rw [← h] at hs
    rcases analyzeLoss_lw_ne_zero _ _ _ s hs with h1 | h1
    · rw [analyzeTops_eq] at h1
      simp only [] at h1
      rw [b2] at h1
      have := hinv s h1
      omega
    · have e2 : List.countP (fun p : String × ℚ => decide (p.2 ≠ 0) && decide
          (((analyzeTops i 0 l.top st1).blob_name_to_last_top_idx p.1).getD (0, 0) = s))
          (l.top.zip l.loss_weight) =
          List.countP (fun p => decide (p.2 ≠ 0) && decide (producer ls (i + 1) p.1 = some s))
            (l.top.zip l.loss_weight) := by
        apply List.countP_congr
        intro p hp
        obtain ⟨j, hj, hj2⟩ := producer_succ_of_mem ls i l hl p.1 (List.of_mem_zip hp).1
        rw [← f1, inv2.blob, hj2]
        simp
      rw [e2] at h1
      omega

theorem lossWeight_prefix (ls : List LayerParameter) :
    ∀ i, i ≤ ls.length → ∀ st, analyzeLayers 0 (ls.take i) Analysis.empty = .ok st →
      ∀ s, st.top_idx_to_loss_weight s ≠ 0 → 0 < lossCount ls i s := by
  intro i
  induction i with
  | zero =>
    intro _ st h s hs
    simp only [List.take_zero, analyzeLayers, Except.ok.injEq] at h
    subst h
    simp [Analysis.empty] at hs
  | succ i ih =>
    intro hi st h
    have hl : ls[i]? = some ls[i] := List.getElem?_eq_getElem (by omega)
    have htake : ls.take (i + 1) = ls.take i ++ [ls[i]] := by
      rw [List.take_succ, hl]; rfl
    have hlen : (ls.take i).length = i := by simp; omega
    rw [htake, analyzeLayers_append] at h
    rcases analyze_prefix ls i (by omega) with ⟨st0, h1, inv, _⟩ | ⟨i0, j, l, b, _, _, h3⟩
    · rw [h1] at h
      simp only [hlen, Nat.zero_add, analyzeLayers] at h
      cases hstep : analyzeLayer i ls[i] st0 with
      | error e => rw [hstep] at h; cases h
      | ok st1 =>
        rw [hstep] at h
        simp only [Except.ok.injEq] at h
        subst h
        exact lossWeight_step ls i st0 st1 ls[i] hl inv (ih (by omega) st0 h1) hstep
    · rw [h3] at h
      cases h

/-- After a successful first pass, a slot with a nonzero recorded loss weight was counted at
least once for the loss. -/
theorem lossWeight_counted {ls : List LayerParameter} {a : Analysis} (ha : Analyze ls = .ok a)
    (s : Nat × Nat) (hs : a.top_idx_to_loss_weight s ≠ 0) : 0 < lossCount ls ls.length s := by
  unfold Analyze at ha
  have := lossWeight_prefix ls ls.length (Nat.le_refl _) a (by rw [List.take_length]; exact ha)
  exact this s hs

/-- The fan-out index given to a renamed input is below the fan-out count of its source. -/
theorem rename_index_lt_of_ok {ls : List LayerParameter} {a : Analysis}
    (ha : Analyze ls = .ok a) {i j : Nat} {l : LayerParameter} {b : String}
    (hl : ls[i]? = some l) (hb : l.bottom[j]? = some b) :
    (if a.top_idx_to_loss_weight (a.source i j) ≠ 0 then 1 else 0) +
        (refsBelow a ls i (a.source i j) + refsIn a i j (a.source i j)) <
      a.FanoutCount (a.source i j) := by
  have inv := (Analyze_ok ha).1
  have hj : j < l.bottom.length := (List.getElem?_eq_some.1 hb).1
  have hidx := consumersBelow_getElem? a ls i j l hl hj ls.length (List.getElem?_eq_some.1 hl).1
  have hlt := (List.getElem?_eq_some.1 hidx).1
  rw [consumersBelow_length] at hlt
  have e := refCount_eq_refsBelow ha (a.source i j) ls.length
  show _ < a.top_idx_to_bottom_count (a.source i j)
  rw [inv.count, e]
  by_cases hw : a.top_idx_to_loss_weight (a.source i j) ≠ 0
  · have := lossWeight_counted ha _ hw
    rw [if_pos hw]
    omega
  · rw [if_neg hw]
    omega

/-- The name of a slot with a positive fan-out count is listed last at that slot. -/
theorem lastIdx_of_count_pos {ls : List LayerParameter} {a : Analysis} (ha : Analyze ls = .ok a)
    {i j : Nat} {l : LayerParameter} {b : String} (hl : ls[i]? = some l)
    (hb : l.top[j]? = some b) (hc : a.top_idx_to_bottom_count (i, j) ≠ 0) :
    lastIdx l.top b = some j := by
  have inv := (Analyze_ok ha).1
  rw [inv.count] at hc
  have : ∃ i2 b2, producer ls i2 b2 = some (i, j) := by
    by_cases h0 : refCount ls ls.length (i, j) = 0
    · exact lossCount_pos ls.length (by omega)
    · exact refCount_pos ls.length h0
  obtain ⟨i2, b2, hp⟩ := this
  obtain ⟨_, l2, h2, h3, h4⟩ := producer_valid hp
  simp only [] at h2 h3 h4
  rw [hl] at h2
  cases h2
  rw [hb] at h3
  cases h3
  exact h4

/-! ### Input references of the rewritten network -/

/-- Every input name of the rewritten network is an output name of a strictly earlier layer
of the rewritten network. -/
theorem rewritten_resolved {ls : List LayerParameter} {a : Analysis} (ha : Analyze ls = .ok a)
    {p : Nat} {X : LayerParameter} {b : String} (hX : (rewritten a ls)[p]? = some X)
    (hb : b ∈ X.bottom) :
    ∃ p0 X0, p0 < p ∧ (rewritten a ls)[p0]? = some X0 ∧ b ∈ X0.top := by
  rcases rewritten_classify a ls p X hX with
    ⟨i, l, h1, h2, h3⟩ | ⟨i, j, l, b2, h1, h2, h3, h4, h5⟩
  · obtain ⟨k, hk⟩ := List.mem_iff_getElem?.1 hb
    have hi : i < ls.length := (List.getElem?_eq_some.1 h1).1
    have hkl : k < l.bottom.length := by
      have := (List.getElem?_eq_some.1 hk).1
      rw [h3, cloneOf_bottom_length] at this
      exact this
    have hb0 : l.bottom[k]? = some l.bottom[k] := List.getElem?_eq_getElem hkl
    obtain ⟨g1, l0, g2, g3, _⟩ := source_valid ha h1 hb0
    by_cases hs : 1 < a.FanoutCount (a.source i k)
    · have hcb := cloneOf_bottom_split ha h1 hb0 hs
      rw [← h3, hk] at hcb
      have hlt := rename_index_lt_of_ok ha h1 hb0
      have hg := splitLayerOf_top_getElem? a (a.source i k).1 (a.source i k).2 l.bottom[k] hlt
      have hbd := splitPos_bounds a ls g2 (List.getElem?_eq_some.1 g3).1 hs
      have hm := clonePos_mono a ls (show (a.source i k).1 + 1 ≤ i by omega) (Nat.le_of_lt hi)
      refine ⟨splitPos a ls (a.source i k).1 (a.source i k).2, _, by rw [h2]; omega,
        rewritten_split_at a ls g2 g3 hs, ?_⟩
      rw [Option.some.inj hcb]
      exact List.getElem?_mem hg
    · have hcb := cloneOf_bottom_kept a ls h1 hb0 hs
      rw [← h3, hk] at hcb
      refine ⟨clonePos a ls (a.source i k).1, _,
        by rw [h2]; exact clonePos_lt_of_lt a ls g1 (Nat.le_of_lt hi),
        rewritten_clone_at a ls g2, ?_⟩
      rw [cloneOf_top, Option.some.inj hcb]
      exact List.getElem?_mem g3
  · have hbot : X.bottom = [b2] := by rw [h5, splitLayerOf_eq]
    rw [hbot, List.mem_singleton] at hb
    subst hb
    have hbd := splitPos_bounds a ls h1 (List.getElem?_eq_some.1 h2).1 h3
    refine ⟨clonePos a ls i, _, by rw [h4]; exact hbd.1, rewritten_clone_at a ls h1, ?_⟩
    rw [cloneOf_top]
    exact List.getElem?_mem h2

/-- The first pass succeeds on the rewritten network. -/
theorem rewritten_analyze_isOk {ls : List LayerParameter} {a : Analysis}
    (ha : Analyze ls = .ok a) : ∃ a2, Analyze (rewritten a ls) = .ok a2 := by
  apply Analyze_isOk_of_resolved
  intro p X b hX hb hnone
  obtain ⟨p0, X0, h1, h2, h3⟩ := rewritten_resolved ha hX hb
  exact (producer_eq_none _ _ _).1 hnone p0 X0 h1 h2 h3

theorem not_generated_of_fresh {ls : List LayerParameter} {a : Analysis}
    (hfresh : ∀ g ∈ splitNames a 0 ls, ∀ l ∈ ls, g ∉ l.top)
    {i j : Nat} {l : LayerParameter} {b : String} (hl : ls[i]? = some l)
    (hb : l.top[j]? = some b) (hc : 1 < a.FanoutCount (i, j)) {l0 : LayerParameter}
    (hl0 : l0 ∈ ls) {n : String} (hn : n ∈ l0.top) : n ∉ (splitLayerOf a i j b).top := by
  intro hg
  exact hfresh n (splitLayerOf_top_mem a ls hl hb hc hg) l0 hl0 hn

/-- When no generated name is an output name of an input layer, the input of a Split layer
resolves in the rewritten network to the slot of the clone it was created for. -/
theorem resolve_split_bottom_of_fresh {ls : List LayerParameter} {a : Analysis}
    (ha : Analyze ls = .ok a) (hfresh : ∀ g ∈ splitNames a 0 ls, ∀ l ∈ ls, g ∉ l.top)
    {i j : Nat} {l : LayerParameter} {b : String} (hl : ls[i]? = some l)
    (hb : l.top[j]? = some b) (hc : 1 < a.FanoutCount (i, j)) :
    producer (rewritten a ls) (splitPos a ls i j) b = some (clonePos a ls i, j) := by
  have hi : i < ls.length := (List.getElem?_eq_some.1 hl).1
  have hj : j < l.top.length := (List.getElem?_eq_some.1 hb).1
  have hbd := splitPos_bounds a ls hl hj hc
  refine producer_of_last (rewritten a ls) b (clonePos a ls i) j _ (rewritten_clone_at a ls hl)
    ?_ _ hbd.1 ?_
  · rw [cloneOf_top]
    exact lastIdx_of_count_pos ha hl hb
      (by show a.FanoutCount (i, j) ≠ 0
          omega)
  · intro p X h1 h2 hX
    rcases rewritten_classify a ls p X hX with
      ⟨i2, l2, h3, h4, h5⟩ | ⟨i2, j2, l2, b2, h3, h4, h5, h6, h7⟩
    · exfalso
      rw [h4] at h1 h2
      have hlt := clonePos_lt_reflect a ls (Nat.le_of_lt hi) h1
      have := clonePos_le a ls i l hl i2 hlt (Nat.le_of_lt (List.getElem?_eq_some.1 h3).1)
      rw [clonePos_succ a ls i l hl] at hbd
      omega
    · rw [h7]
      exact not_generated_of_fresh hfresh h3 h4 h5 (List.getElem?_mem hl) (List.getElem?_mem hb)

/-- When no generated name is an output name of an input layer, an original name read at the
clone of layer `i` resolves in the rewritten network to the clone of the layer it resolved to
in the input network, at the same slot. -/
theorem resolve_original_of_fresh {ls : List LayerParameter} {a : Analysis}
    (hfresh : ∀ g ∈ splitNames a 0 ls, ∀ l ∈ ls, g ∉ l.top)
    {i : Nat} (hi : i ≤ ls.length) {n : String} {s : Nat × Nat}
    (h : producer ls i n = some s) :
    producer (rewritten a ls) (clonePos a ls i) n = some (clonePos a ls s.1, s.2) := by
  obtain ⟨h1, l0, h2, h3, h4⟩ := producer_eq_some ls n i s h
  have hmem : n ∈ l0.top := List.getElem?_mem (lastIdx_eq_some h3).1
  refine producer_of_last (rewritten a ls) n (clonePos a ls s.1) s.2 _
    (rewritten_clone_at a ls h2) ?_ _ (clonePos_lt_of_lt a ls h1 hi) ?_
  · rw [cloneOf_top]; exact h3
  · intro p X k1 k2 hX
    rcases rewritten_classify a ls p X hX with
      ⟨i2, l2, h5, h6, h7⟩ | ⟨i2, j2, l2, b2, h5, h6, h7, h8, h9⟩
    · rw [h6] at k1 k2
      have hi2 : i2 < ls.length := (List.getElem?_eq_some.1 h5).1
      have g1 := clonePos_lt_reflect a ls (by omega) k1
      have g2 := clonePos_lt_reflect a ls (Nat.le_of_lt hi2) k2
      rw [h7, cloneOf_top]
      exact h4 i2 l2 g1 g2 h5
    · rw [h9]
      exact not_generated_of_fresh hfresh h5 h6 h7 (List.getElem?_mem h2) hmem

/-- When the generated names are pairwise distinct and none is an output name of an input
layer, the `k`-th generated name of a split slot, read at the clone of a later layer, resolves
in the rewritten network to output `k` of the Split layer of that slot. -/
theorem resolve_generated_of_fresh {ls : List LayerParameter} {a : Analysis}
    (hdist : (splitNames a 0 ls).Nodup)
    (hfresh : ∀ g ∈ splitNames a 0 ls, ∀ l ∈ ls, g ∉ l.top)
    {i0 j0 : Nat} {l0 : LayerParameter} {b0 : String} (hl : ls[i0]? = some l0)
    (hb : l0.top[j0]? = some b0) (hc : 1 < a.FanoutCount (i0, j0)) {k : Nat}
    (hk : k < a.FanoutCount (i0, j0)) {i : Nat} (h1 : i0 < i) (h2 : i ≤ ls.length) :
    producer (rewritten a ls) (clonePos a ls i)
        (SplitBlobName (a.layer_idx_to_layer_name i0) b0 j0 k) =
      some (splitPos a ls i0 j0, k) := by
  have hj : j0 < l0.top.length := (List.getElem?_eq_some.1 hb).1
  have hbd := splitPos_bounds a ls hl hj hc
  have hle := clonePos_le a ls i0 l0 hl i h1 h2
  rw [clonePos_succ a ls i0 l0 hl] at hbd
  have hg := splitLayerOf_top_getElem? a i0 j0 b0 hk
  have hgm : SplitBlobName (a.layer_idx_to_layer_name i0) b0 j0 k ∈
      (splitLayerOf a i0 j0 b0).top := List.getElem?_mem hg
  refine producer_of_last (rewritten a ls) _ (splitPos a ls i0 j0) k _
    (rewritten_split_at a ls hl hb hc) ?_ _ (by omega) ?_
  · exact lastIdx_of_nodup (splitLayerOf_top_nodup a i0 j0 b0) hg
  · intro p X k1 k2 hX
    rcases rewritten_classify a ls p X hX with
      ⟨i2, l2, h5, h6, h7⟩ | ⟨i2, j2, l2, b2, h5, h6, h7, h8, h9⟩
    · rw [h7, cloneOf_top]
      exact hfresh _ (splitLayerOf_top_mem a ls hl hb hc hgm) l2 (List.getElem?_mem h5)
    · rw [h9]
      intro hm
      obtain ⟨e1, e2⟩ := splitNames_disjoint a ls _ 0 hdist i0 j0 l0 b0 i2 j2 l2 b2
        (Nat.zero_le _) (by simpa using hl) hb hc hgm (Nat.zero_le _) (by simpa using h5)
        h6 h7 hm
      subst e1 e2
      omega

/-- What the first pass records for an input of a network on which it succeeds is the most
recent declaration of the name before the layer. -/
theorem resolvedSite_of_producer {ls : List LayerParameter} {a : Analysis}
    (ha : Analyze ls = .ok a) {p k : Nat} {X : LayerParameter} {b : String} {s : Nat × Nat}
    (hX : ls[p]? = some X) (hb : X.bottom[k]? = some b) (h : producer ls p b = some s) :
    resolvedSite ls p k = s := by
  have inv := (Analyze_ok ha).1
  have := inv.src p k X b (List.getElem?_eq_some.1 hX).1 hX hb
  rw [h] at this
  unfold resolvedSite analysisOf
  rw [ha]
  exact (Option.some.inj this).symm

/-! ### The claims -/

/-- C1 (as stated) fails: on the network `L(top=[p, p], loss_weight=[1, 0])`, `M(bottom=p)`
the pass succeeds, slot `(0, 1)` has fan-out count 2 and recorded loss weight 0, its Split
layer has the two outputs `p_L_1_split_0` and `p_L_1_split_1`, and no input of the rewritten
network uses the output `p_L_1_split_1`. -/
theorem C1_counterexample :
    InsertSplits netTwice = .ok netTwiceSplit ∧
      FanoutCount netTwice.layer (0, 1) = 2 ∧
      siteLossWeight netTwice.layer (0, 1) = 0 ∧
      (netTwiceSplit.layer[splitLayerPos netTwice.layer 0 1]?).map (fun S => S.top) =
        some ["p_L_1_split_0", "p_L_1_split_1"] ∧
      ∀ l ∈ netTwiceSplit.layer, "p_L_1_split_1" ∉ l.bottom := by
  decide

/-- C1 (amended): when `InsertSplits` succeeds, for every output slot `(i, j)` with fan-out
count `N > 1` of a layer `l` whose output names are pairwise distinct, the rewritten network
holds the Split layer `S` of the slot at `splitLayerPos`, a position that no other split slot
and no clone shares; `S` has exactly `N` pairwise distinct outputs, output `k` being
`SplitBlobName l.name b j k`; and with `base` one when the recorded loss weight of the slot
is nonzero (output 0 is then left to the loss) and zero otherwise, the input references that
resolved to the slot during analysis, listed without repetition in `consumers`, number
`N - base`, and the `r`-th of them is renamed to output `base + r` of `S`. -/
theorem C1_fanout_conservation (param out : NetParameter)
    (h : InsertSplits param = .ok out) (i j : Nat) (l : LayerParameter)
    (hl : param.layer[i]? = some l) (hnd : l.top.Nodup)
    (hN : 1 < FanoutCount param.layer (i, j)) :
    ∃ (S : LayerParameter) (b : String),
      l.top[j]? = some b ∧
      out.layer[splitLayerPos param.layer i j]? = some S ∧
      (∀ i2 j2, 1 < FanoutCount param.layer (i2, j2) →
        splitLayerPos param.layer i2 j2 = splitLayerPos param.layer i j → (i2, j2) = (i, j)) ∧
      (∀ i2, i2 < param.layer.length →
        cloneLayerPos param.layer i2 ≠ splitLayerPos param.layer i j) ∧
      S.type = "Split" ∧ S.name = SplitLayerName l.name b j ∧ S.bottom = [b] ∧
      S.top = (List.range (FanoutCount param.layer (i, j))).map (SplitBlobName l.name b j) ∧
      S.top.length = FanoutCount param.layer (i, j) ∧ S.top.Nodup ∧
      (consumers param.layer (i, j)).Nodup ∧
      (∀ c : Nat × Nat, c ∈ consumers param.layer (i, j) ↔
        (∃ l2, param.layer[c.1]? = some l2 ∧ c.2 < l2.bottom.length) ∧
          resolvedSite param.layer c.1 c.2 = (i, j)) ∧
      (if siteLossWeight param.layer (i, j) ≠ 0 then 1 else 0) +
          (consumers param.layer (i, j)).length = FanoutCount param.layer (i, j) ∧
      (∀ r c, (consumers param.layer (i, j))[r]? = some c →
        ∃ C name, out.layer[cloneLayerPos param.layer c.1]? = some C ∧
          C.bottom[c.2]? = some name ∧
          S.top[(if siteLossWeight param.layer (i, j) ≠ 0 then 1 else 0) + r]? =
            some name) := by
  obtain ⟨ha, ho⟩ := InsertSplits_ok h
  have inv := (Analyze_ok ha).1
  have hi : i < param.layer.length := (List.getElem?_eq_some.1 hl).1
  have hN2 : 1 < (analysisOf param.layer).FanoutCount (i, j) := hN
  obtain ⟨l0, hl0, hj⟩ := count_pos_valid ha (s := (i, j)) (by unfold FanoutCount at hN; omega)
  simp only [] at hl0 hj
  rw [hl] at hl0
  cases hl0
  have hb : l.top[j]? = some l.top[j] := List.getElem?_eq_getElem hj
  have hname : (analysisOf param.layer).layer_idx_to_layer_name i = l.name :=
    inv.lname i l hi hl
  have hlw : (analysisOf param.layer).top_idx_to_loss_weight (i, j) = declaredLoss l j :=
    inv.lw i l hi hl hnd j
  have hcount := count_nodup ha hl hnd j
  rw [← hlw, ← consumersBelow_length] at hcount
  have htop : (splitLayerOf (analysisOf param.layer) i j l.top[j]).top =
      (List.range (FanoutCount param.layer (i, j))).map (SplitBlobName l.name l.top[j] j) := by
    rw [splitLayerOf_eq, hname]
    rfl
  refine ⟨splitLayerOf (analysisOf param.layer) i j l.top[j], l.top[j], hb, ?_, ?_, ?_, ?_, ?_,
    ?_, htop, ?_, ?_, consumersBelow_nodup _ _ _ _, ?_, ?_, ?_⟩
  · rw [ho]
    exact rewriteLayers_split_at _ _ _ i j l _ hl hb hN2
  · intro i2 j2 h2 he
    obtain ⟨l2, hl2, hj2⟩ := count_pos_valid ha (s := (i2, j2))
      (by unfold FanoutCount at h2; omega)
    obtain ⟨e1, e2⟩ := splitPos_inj _ _ hl2 hj2 h2 hl hj hN2 he
    exact Prod.ext e1 e2
  · intro i2 hi2 he
    exact splitPos_ne_clonePos _ _ hl hj hN2 hi2 he.symm
  · rw [splitLayerOf_eq]
  · rw [splitLayerOf_eq, hname]
  · rw [splitLayerOf_eq]
  · rw [htop]; simp
  · rw [htop]; exact splitTops_nodup _ _ _ _
  · intro c
    rw [consumers, consumersBelow_mem]
    constructor
    · rintro ⟨_, h2, h3⟩; exact ⟨h2, h3⟩
    · rintro ⟨⟨l2, h2, h4⟩, h3⟩
      exact ⟨(List.getElem?_eq_some.1 h2).1, ⟨l2, h2, h4⟩, h3⟩
  · rw [consumers, siteLossWeight, FanoutCount, hcount]
    omega
  · intro r c hc
    have hr : r < (consumers param.layer (i, j)).length := (List.getElem?_eq_some.1 hc).1
    obtain ⟨l2, h2, h3, h4, h5⟩ := consumersBelow_index hc
    have hb2 : l2.bottom[c.2]? = some l2.bottom[c.2] := List.getElem?_eq_getElem h3
    obtain ⟨_, l0, h6, h7, _⟩ := source_valid ha h2 hb2
    rw [h4] at h6 h7
    simp only [] at h6 h7
    rw [hl] at h6
    cases h6
    have hbeq : l2.bottom[c.2] = l.top[j] := by
      rw [hb] at h7; exact (Option.some.inj h7).symm
    have hs : 1 < (analysisOf param.layer).FanoutCount
        ((analysisOf param.layer).source c.1 c.2) := by rw [h4]; exact hN2
    have hcb := cloneOf_bottom_split ha h2 hb2 hs
    rw [h4, h5, hname, hbeq] at hcb
    simp only [] at hcb
    refine ⟨_, _, ?_, hcb, ?_⟩
    · rw [ho]
      exact rewriteLayers_clone_at _ _ _ c.1 l2 h2
    · rw [htop, List.getElem?_map, List.getElem?_range]
      · rfl
      · unfold consumers at hr
        rw [FanoutCount, hcount]
        unfold siteLossWeight
        omega

/-- In the scenario network `A(top=x)`, `B(bottom=x, top=y)`, `C(bottom=x)` the slot `(0, 0)`
has fan-out count 2 and layer `A` has pairwise distinct output names. -/
theorem C1_fanout_conservation_witness :
    InsertSplits netABC = .ok netABCSplit ∧ FanoutCount netABC.layer (0, 0) = 2 ∧
      ∃ (S : LayerParameter) (b : String),
        netABCSplit.layer[splitLayerPos netABC.layer 0 0]? = some S ∧
        S.top = (List.range (FanoutCount netABC.layer (0, 0))).map (SplitBlobName "A" b 0) ∧
        (if siteLossWeight netABC.layer (0, 0) ≠ 0 then 1 else 0) +
          (consumers netABC.layer (0, 0)).length = FanoutCount netABC.layer (0, 0) := by
  refine ⟨by decide, by decide, ?_⟩
  obtain ⟨S, b, _, h2, _, _, _, _, _, h8, _, _, _, _, h13, _⟩ :=
    C1_fanout_conservation netABC netABCSplit (by decide) 0 0 (mkLayer "A" [] ["x"] [])
      (by decide) (by decide) (by decide)
  exact ⟨S, b, h2, h8, h13⟩

/-- C2: for the three-layer network `A(top=x)`, `B(bottom=x, top=y)`, `C(bottom=x)`, whatever
the types and remaining fields of the layers and of the network, `InsertSplits` returns exactly
the four layers `A(top=x)`, the layer of type `Split` named `x_A_0_split` with bottom `x` and
tops `x_A_0_split_0`, `x_A_0_split_1`, then `B(bottom=x_A_0_split_0, top=y)` and
`C(bottom=x_A_0_split_1)`, in that order. -/
theorem C2_three_layer_scenario (tA tB tC rA rB rC netName netRest : String) :
    InsertSplits
      { name := netName, rest := netRest,
        layer := [
          { name := "A", type := tA, bottom := [], top := ["x"], loss_weight := [], rest := rA },
          { name := "B", type := tB, bottom := ["x"], top := ["y"], loss_weight := [],
            rest := rB },
          { name := "C", type := tC, bottom := ["x"], top := [], loss_weight := [],
            rest := rC }] } =
      .ok
        { name := netName, rest := netRest,
          layer := [
            { name := "A", type := tA, bottom := [], top := ["x"], loss_weight := [],
              rest := rA },
            { name := "x_A_0_split", type := "Split", bottom := ["x"],
              top := ["x_A_0_split_0", "x_A_0_split_1"], loss_weight := [], rest := "" },
            { name := "B", type := tB, bottom := ["x_A_0_split_0"], top := ["y"],
              loss_weight := [], rest := rB },
            { name := "C", type := tC, bottom := ["x_A_0_split_1"], top := [],
              loss_weight := [], rest := rC }] } := by
  simp [InsertSplits, Analyze, analyzeLayers, analyzeLayer, analyzeBottoms, analyzeTops,
    analyzeLoss, Analysis.empty, Function.update, rewriteLayers, rewriteLayer, rewriteBottoms,
    rewriteTops]
  decide

/-- C3 (as stated) fails: on each of three networks the pass succeeds and a second run on its
output returns a different network. In `netTwice` a layer lists one output name twice; in
`netShadow` an input layer already declares a name that the pass generates; in `netClash` the
pass generates the same names for two different slots. -/
theorem C3_counterexample :
    (InsertSplits netTwice = .ok netTwiceSplit ∧
      InsertSplits netTwiceSplit ≠ .ok netTwiceSplit) ∧
    (InsertSplits netShadow = .ok netShadowSplit ∧
      InsertSplits netShadowSplit ≠ .ok netShadowSplit) ∧
    (InsertSplits netClash = .ok netClashSplit ∧
      InsertSplits netClashSplit ≠ .ok netClashSplit) := by
  decide

/-- C3 (amended): when `InsertSplits` succeeds on a network in which every layer lists
pairwise distinct output names, the names generated for the Split outputs are pairwise
distinct and none of them is an output name of an input layer, then applying `InsertSplits`
to the output succeeds and returns that output; no output slot of the output has a fan-out
count above one. -/
theorem C3_idempotent (param out : NetParameter) (h : InsertSplits param = .ok out)
    (hnd : ∀ l ∈ param.layer, l.top.Nodup)
    (hdist : (generatedNames param.layer).Nodup)
    (hfresh : ∀ g ∈ generatedNames param.layer, ∀ l ∈ param.layer, g ∉ l.top) :
    InsertSplits out = .ok out ∧ ∀ s, FanoutCount out.layer s ≤ 1 := by
  obtain ⟨ha, ho⟩ := InsertSplits_ok h
  have cx : SplitCtx param.layer (analysisOf param.layer) := ⟨ha, hnd, hdist, hfresh⟩
  have hlayer : out.layer = rewritten (analysisOf param.layer) param.layer := by rw [ho]; rfl
  obtain ⟨a2, ha2⟩ := rewritten_analyze_ok cx
  rw [← hlayer] at ha2
  have hle : ∀ s, a2.top_idx_to_bottom_count s ≤ 1 := by
    apply rewritten_count_le_one cx
    rw [← hlayer]; exact ha2
  constructor
  · rw [InsertSplits_of_Analyze ha2, rewriteLayers_noop a2 hle]
  · intro s
    unfold FanoutCount analysisOf
    rw [ha2]
    exact hle s

/-- The scenario network `A(top=x)`, `B(bottom=x, top=y)`, `C(bottom=x)` meets the
hypotheses, and the pass returns its rewritten form unchanged. -/
theorem C3_idempotent_witness :
    InsertSplits netABC = .ok netABCSplit ∧
      generatedNames netABC.layer = ["x_A_0_split_0", "x_A_0_split_1"] ∧
      InsertSplits netABCSplit = .ok netABCSplit :=
  ⟨by decide, by decide,
    (C3_idempotent netABC netABCSplit (by decide) (by decide) (by decide) (by decide)).1⟩

/-- C4 (as stated) fails: the single layer `L(top=[p, p], loss_weight=[1, 1])` has no consumer
at all, yet `InsertSplits` returns two layers for it; and the single layer `A(bottom=zz)` has
no produced tensor at all, yet `InsertSplits` fails on it and returns no network. -/
theorem C4_counterexample :
    ((∀ s, consumerCount netTwiceLoss.layer s ≤ 1) ∧
      (∀ i l j, netTwiceLoss.layer[i]? = some l → declaredLoss l j ≠ 0 →
        consumerCount netTwiceLoss.layer (i, j) = 0) ∧
      InsertSplits netTwiceLoss = .ok netTwiceLossSplit ∧
      netTwiceLossSplit.layer.length = 2 ∧ netTwiceLoss.layer.length = 1) ∧
    ((∀ s, consumerCount netDangling.layer s ≤ 1) ∧
      (∀ i l j, netDangling.layer[i]? = some l → declaredLoss l j ≠ 0 →
        consumerCount netDangling.layer (i, j) = 0) ∧
      ∃ e, InsertSplits netDangling = .error e) := by
  have e1 : ∀ s, consumerCount netTwiceLoss.layer s = 0 := by
    intro s
    simp [consumerCount, refCount, netTwiceLoss, mkNet, mkLayer]
  have e2 : ∀ s, consumerCount netDangling.layer s = 0 := by
    intro s
    simp [consumerCount, refCount, netDangling, mkNet, mkLayer, producer]
  refine ⟨⟨?_, ?_, by decide, by decide, by decide⟩, ?_, ?_, ⟨_, rfl⟩⟩
  · intro s; rw [e1]; omega
  · intro i l j _ _; exact e1 _
  · intro s; rw [e2]; omega
  · intro i l j _ _; exact e2 _

/-- C4 (amended): when `InsertSplits` succeeds on a network in which every layer has pairwise
distinct output names, every output slot has at most one consumer and no slot with a declared
nonzero loss weight has a consumer, the rewritten network equals the input network. -/
theorem C4_noop_on_single_consumer (param out : NetParameter)
    (h : InsertSplits param = .ok out)
    (hnd : ∀ l ∈ param.layer, l.top.Nodup)
    (h1 : ∀ s, consumerCount param.layer s ≤ 1)
    (h2 : ∀ i l j, param.layer[i]? = some l → declaredLoss l j ≠ 0 →
      consumerCount param.layer (i, j) = 0) :
    out = param := by
  obtain ⟨ha, ho⟩ := InsertSplits_ok h
  rw [ho, rewriteLayers_noop _ (count_le_one ha hnd h1 h2)]

/-- A chain `A(top=x)`, `B(bottom=x, top=y, loss_weight=[1])` meets the hypotheses and is
returned unchanged. -/
theorem C4_noop_on_single_consumer_witness :
    InsertSplits (mkNet [mkLayer "A" [] ["x"] [], mkLayer "B" ["x"] ["y"] [1]]) =
        .ok (mkNet [mkLayer "A" [] ["x"] [], mkLayer "B" ["x"] ["y"] [1]]) ∧
      mkNet [mkLayer "A" [] ["x"] [], mkLayer "B" ["x"] ["y"] [1]] =
        mkNet [mkLayer "A" [] ["x"] [], mkLayer "B" ["x"] ["y"] [1]] := by
  have e : ∀ s, consumerCount
      (mkNet [mkLayer "A" [] ["x"] [], mkLayer "B" ["x"] ["y"] [1]]).layer s =
      if s = (0, 0) then 1 else 0 := by
    intro s
    by_cases hs : s = (0, 0)
    · subst hs
      rw [if_pos rfl]
      decide
    · rw [if_neg hs]
      simp only [consumerCount, refCount, mkNet, mkLayer, producer, lastIdx, List.length_cons,
        List.length_nil, List.getElem?_cons_zero, List.getElem?_cons_succ, List.countP_nil,
        List.countP_cons, Nat.zero_add, Nat.add_zero]
      rw [if_neg]
      simp only [if_true, decide_eq_true_eq, Option.some.injEq]
      exact fun e => hs e.symm
  refine ⟨by decide, ?_⟩
  refine C4_noop_on_single_consumer _ _ (by decide) (by decide) ?_ ?_
  · intro s; rw [e]; split <;> omega
  · intro i l j hl hd
    rw [e, if_neg]
    rintro ⟨rfl, rfl⟩
    simp [mkNet, mkLayer] at hl
    subst hl
    simp [declaredLoss] at hd

/-- C5: `InsertSplits` fails if and only if some layer `i` has an input name that is not an
output name of any layer with index strictly less than `i`; a failing call produces no
rewritten network; in particular a single layer that names only its own output as input
fails. -/
theorem C5_fails_iff_dangling_reference (param : NetParameter) :
    ((∃ e, InsertSplits param = .error e) ↔
      ∃ i l b, param.layer[i]? = some l ∧ b ∈ l.bottom ∧ Dangling param.layer i b) ∧
    ((∃ e, InsertSplits param = .error e) ↔ ¬ ∃ out, InsertSplits param = .ok out) ∧
    (∃ e, InsertSplits (mkNet [mkLayer "A" ["x"] ["x"] []]) = .error e) := by
  refine ⟨⟨?_, ?_⟩, ⟨?_, ?_⟩, ?_⟩
  · rintro ⟨e, he⟩
    rw [InsertSplits_error_iff, Analyze_error_iff] at he
    obtain ⟨i, j, l, b, hf, _⟩ := he
    rw [FirstUnresolved_iff] at hf
    exact ⟨i, l, b, hf.1, List.getElem?_mem hf.2.1, hf.2.2.1⟩
  · rintro ⟨i, l, b, hl, hb, hd⟩
    cases ha : Analyze param.layer with
    | error e => exact ⟨e, (InsertSplits_error_iff param e).2 ha⟩
    | ok a =>
      exact absurd ((producer_eq_none param.layer b i).2 hd) ((Analyze_ok ha).2 i l b hl hb)
  · rintro ⟨e, he⟩ ⟨out, ho⟩
    rw [he] at ho
    cases ho
  · intro h
    cases hr : InsertSplits param with
    | error e => exact ⟨e, rfl⟩
    | ok out => exact absurd ⟨out, hr⟩ h
  · exact ⟨_, rfl⟩

/-- C7: when `InsertSplits` succeeds, the rewritten network has as many layers as the input
network plus one per output slot whose fan-out count is greater than one: `sites` lists those
slots without repetition. -/
theorem C7_layer_count (param out : NetParameter) (h : InsertSplits param = .ok out) :
    ∃ sites : List (Nat × Nat), sites.Nodup ∧
      (∀ s, s ∈ sites ↔ 1 < FanoutCount param.layer s) ∧
      out.layer.length = param.layer.length + sites.length := by
  obtain ⟨ha, ho⟩ := InsertSplits_ok h
  refine ⟨splitSiteList (analysisOf param.layer) 0 param.layer, splitSiteList_nodup _ _ _, ?_, ?_⟩
  · intro s
    rw [splitSiteList_mem]
    simp only [Nat.zero_le, Nat.sub_zero, true_and, FanoutCount, Analysis.FanoutCount]
    constructor
    · exact fun h => h.2
    · intro hs
      exact ⟨count_pos_valid ha (by omega), hs⟩
  · rw [ho, splitSiteList_length]
    exact rewriteLayers_length _ _ _ _

/-- A network on which the pass succeeds and inserts one Split layer. -/
theorem C7_layer_count_witness :
    ∃ sites : List (Nat × Nat), sites.Nodup ∧
      (∀ s, s ∈ sites ↔
        1 < FanoutCount [mkLayer "A" [] ["x"] [], mkLayer "B" ["x"] ["y"] [],
          mkLayer "C" ["x"] [] []] s) ∧
      (4 : Nat) = 3 + sites.length :=
  C7_layer_count
    (mkNet [mkLayer "A" [] ["x"] [], mkLayer "B" ["x"] ["y"] [], mkLayer "C" ["x"] [] []])
    (mkNet [mkLayer "A" [] ["x"] [],
      { name := "x_A_0_split", type := "Split", bottom := ["x"],
        top := ["x_A_0_split_0", "x_A_0_split_1"], loss_weight := [], rest := "" },
      mkLayer "B" ["x_A_0_split_0"] ["y"] [], mkLayer "C" ["x_A_0_split_1"] [] []])
    (by decide)

/-- C8 (as stated) fails: on the network `L(top=[p, p], loss_weight=[1])`, `M(bottom=p)` the
pass succeeds and slot `(0, 1)` has fan-out count 2; layer `L` declares no loss weight for
slot 1 (its only weight is for slot 0), so the original loss weight of the slot is zero, yet
the Split layer of the slot has the `loss_weight` list `[1, 0]` and not the empty list. -/
theorem C8_counterexample :
    InsertSplits netTwiceOneLoss = .ok netTwiceOneLossSplit ∧
      netTwiceOneLoss.layer[0]? = some (mkLayer "L" [] ["p", "p"] [1]) ∧
      FanoutCount netTwiceOneLoss.layer (0, 1) = 2 ∧
      declaredLoss (mkLayer "L" [] ["p", "p"] [1]) 1 = 0 ∧
      (netTwiceOneLossSplit.layer[splitLayerPos netTwiceOneLoss.layer 0 1]?).map
        (fun S => S.loss_weight) = some [1, 0] := by
  decide

/-- C8 (amended): when `InsertSplits` succeeds, for every output slot `(i, j)` with fan-out
count `N > 1` of a layer `l` whose output names are pairwise distinct, with `w` the loss
weight that `l` declares for slot `j`, the Split layer of the slot has `N` outputs and the
`loss_weight` list `[w, 0, ..., 0]` of length `N` when `w` is nonzero, and the empty list when
`w` is zero; in both cases the list sums to `w`. The weight that the first pass records for
the slot is `w`. -/
theorem C8_split_loss_weights (param out : NetParameter) (h : InsertSplits param = .ok out)
    (i j : Nat) (l : LayerParameter) (hl : param.layer[i]? = some l) (hnd : l.top.Nodup)
    (hN : 1 < FanoutCount param.layer (i, j)) :
    ∃ S, out.layer[splitLayerPos param.layer i j]? = some S ∧
      S.type = "Split" ∧
      S.top.length = FanoutCount param.layer (i, j) ∧
      S.loss_weight =
        (if declaredLoss l j ≠ 0 then
          declaredLoss l j :: List.replicate (FanoutCount param.layer (i, j) - 1) 0
        else []) ∧
      (declaredLoss l j ≠ 0 → S.loss_weight.length = FanoutCount param.layer (i, j)) ∧
      S.loss_weight.sum = declaredLoss l j ∧
      siteLossWeight param.layer (i, j) = declaredLoss l j := by
  obtain ⟨ha, ho⟩ := InsertSplits_ok h
  have hi : i < param.layer.length := (List.getElem?_eq_some.1 hl).1
  have hw : siteLossWeight param.layer (i, j) = declaredLoss l j :=
    (Analyze_ok ha).1.lw i l hi hl hnd j
  obtain ⟨l2, hl2, hj⟩ := count_pos_valid ha (s := (i, j)) (by unfold FanoutCount at hN; omega)
  simp only [] at hl2 hj
  rw [hl] at hl2
  cases hl2
  have hb : l.top[j]? = some l.top[j] := List.getElem?_eq_getElem hj
  have hlw : (splitLayerOf (analysisOf param.layer) i j l.top[j]).loss_weight =
      (if declaredLoss l j ≠ 0 then
        declaredLoss l j :: List.replicate (FanoutCount param.layer (i, j) - 1) 0
      else []) := by
    rw [← hw, splitLayerOf_eq]
    simp only [siteLossWeight, FanoutCount, Analysis.FanoutCount]
    split
    · exact map_ite_zero_range _ _ (by unfold FanoutCount at hN; omega)
    · rfl
  refine ⟨splitLayerOf (analysisOf param.layer) i j l.top[j], ?_, ?_, ?_, hlw, ?_, ?_, hw⟩
  · rw [ho]
    exact rewriteLayers_split_at _ _ _ i j l _ hl hb hN
  · rw [splitLayerOf_eq]
  · rw [splitLayerOf_eq]
    simp [FanoutCount]
  · intro hne
    rw [hlw, if_pos hne, List.length_cons, List.length_replicate]
    omega
  · rw [hlw]
    split
    · simp
    · rename_i hz
      simp only [ne_eq, not_not] at hz
      simp [hz]

/-- The scenario of a producer with a loss weight and one consumer, `L(top=[p, q],
loss_weight=[1])`, `M(bottom=p)`, `N(bottom=q)`: the output names of `L` are distinct, slot
`(0, 0)` has fan-out count 2 and declares the weight 1, and its Split layer has the loss
weights `[1, 0]`. -/
theorem C8_split_loss_weights_witness :
    InsertSplits netLoss = .ok netLossSplit ∧
      FanoutCount netLoss.layer (0, 0) = 2 ∧
      declaredLoss (mkLayer "L" [] ["p", "q"] [1]) 0 = 1 ∧
      ∃ S, netLossSplit.layer[splitLayerPos netLoss.layer 0 0]? = some S ∧
        S.loss_weight = [1, 0] := by
  refine ⟨by decide, by decide, by decide, ?_⟩
  obtain ⟨S, h1, _, _, h4, _⟩ := C8_split_loss_weights netLoss netLossSplit (by decide) 0 0
    (mkLayer "L" [] ["p", "q"] [1]) (by decide) (by decide) (by decide)
  refine ⟨S, h1, ?_⟩
  rw [h4]
  decide

/-- C9 (the code drops a declared loss weight): on `L(top=[p, q], loss_weight=[1, 2])`,
`M(bottom=p)` layer `L` declares the loss weight 2 for slot 1, slot 1 is not split (its fan-out
count is 1), and the rewritten network has cleared the whole `loss_weight` list of the clone of
`L`, so the weight 2 appears on no output of any layer. -/
theorem C9_declared_loss_weight_dropped :
    InsertSplits netTwoLosses = .ok netTwoLossesSplit ∧
      declaredLoss (mkLayer "L" [] ["p", "q"] [1, 2]) 1 = 2 ∧
      FanoutCount netTwoLosses.layer (0, 1) = 1 ∧
      (netTwoLossesSplit.layer[cloneLayerPos netTwoLosses.layer 0]?).map
        (fun C => C.loss_weight) = some [] ∧
      ∀ l ∈ netTwoLossesSplit.layer, (2 : ℚ) ∉ l.loss_weight := by
  decide

/-- C10: when `InsertSplits` succeeds on a network whose layer `i` is `L` with `top=[p, q]` and
`loss_weight=[1]`, where exactly one input reference `cp` resolved to slot `(i, 0)` and exactly
one input reference `cq` resolved to slot `(i, 1)`: slot `(i, 0)` has fan-out count 2 and its
Split layer, right after the clone of `L`, has the two outputs `SplitBlobName L.name p 0 0` and
`SplitBlobName L.name p 0 1` and the `loss_weight` list `[1, 0]`; the consumer `cp` is renamed
to the output with fan-out index 1; the clone of `L` has no loss weight; slot `(i, 1)` has
fan-out count 1 and gets no Split layer (the clone of the next layer comes two positions
after the clone of `L`), and the input `cq` keeps the name `q`. -/
theorem C10_loss_scenario (param out : NetParameter) (h : InsertSplits param = .ok out)
    (i : Nat) (L : LayerParameter) (p q : String) (hL : param.layer[i]? = some L)
    (htop : L.top = [p, q]) (hlw : L.loss_weight = [1]) (cp cq : Nat × Nat)
    (hp : ∀ c, c ∈ consumers param.layer (i, 0) ↔ c = cp)
    (hq : ∀ c, c ∈ consumers param.layer (i, 1) ↔ c = cq) :
    FanoutCount param.layer (i, 0) = 2 ∧
    splitLayerPos param.layer i 0 = cloneLayerPos param.layer i + 1 ∧
    out.layer[splitLayerPos param.layer i 0]? =
      some { name := SplitLayerName L.name p 0, type := "Split", bottom := [p],
             top := [SplitBlobName L.name p 0 0, SplitBlobName L.name p 0 1],
             loss_weight := [1, 0], rest := "" } ∧
    (∃ C, out.layer[cloneLayerPos param.layer cp.1]? = some C ∧
      C.bottom[cp.2]? = some (SplitBlobName L.name p 0 1)) ∧
    (∃ C, out.layer[cloneLayerPos param.layer i]? = some C ∧ C.name = L.name ∧
      C.top = [p, q] ∧ C.loss_weight = []) ∧
    FanoutCount param.layer (i, 1) = 1 ∧
    cloneLayerPos param.layer (i + 1) = cloneLayerPos param.layer i + 2 ∧
    (∃ C, out.layer[cloneLayerPos param.layer cq.1]? = some C ∧
      C.bottom[cq.2]? = some q) := by
  obtain ⟨ha, ho⟩ := InsertSplits_ok h
  have inv := (Analyze_ok ha).1
  have hi : i < param.layer.length := (List.getElem?_eq_some.1 hL).1
  have hcp : consumers param.layer (i, 0) = [cp] :=
    list_eq_singleton_of_mem_iff (consumersBelow_nodup _ _ _ _) hp
  have hcq : consumers param.layer (i, 1) = [cq] :=
    list_eq_singleton_of_mem_iff (consumersBelow_nodup _ _ _ _) hq
  have hcp0 : (consumersBelow (analysisOf param.layer) param.layer param.layer.length
      (i, 0))[0]? = some cp := by
    have : (consumers param.layer (i, 0))[0]? = some cp := by rw [hcp]; rfl
    exact this
  have hcq0 : (consumersBelow (analysisOf param.layer) param.layer param.layer.length
      (i, 1))[0]? = some cq := by
    have : (consumers param.layer (i, 1))[0]? = some cq := by rw [hcq]; rfl
    exact this
  obtain ⟨lp, p1, p2, p3, p4⟩ := consumersBelow_index hcp0
  obtain ⟨lq, q1, q2, q3, _⟩ := consumersBelow_index hcq0
  have hbp : lp.bottom[cp.2]? = some lp.bottom[cp.2] := List.getElem?_eq_getElem p2
  have hbq : lq.bottom[cq.2]? = some lq.bottom[cq.2] := List.getElem?_eq_getElem q2
  obtain ⟨_, l0, s1, s2, s3⟩ := source_valid ha p1 hbp
  rw [p3] at s1 s2 s3
  simp only [] at s1 s2 s3
  rw [hL] at s1
  cases s1
  rw [htop] at s2 s3
  have ep : lp.bottom[cp.2] = p := by
    simp only [List.getElem?_cons_zero, Option.some.injEq] at s2
    exact s2.symm
  rw [ep] at s3
  have hpq : p ≠ q := by
    intro e
    subst e
    simp [lastIdx] at s3
  obtain ⟨_, l1, t1, t2, _⟩ := source_valid ha q1 hbq
  rw [q3] at t1 t2
  simp only [] at t1 t2
  rw [hL] at t1
  cases t1
  rw [htop] at t2
  have eq : lq.bottom[cq.2] = q := by
    simp only [List.getElem?_cons_succ, List.getElem?_cons_zero, Option.some.injEq] at t2
    exact t2.symm
  have hnd : L.top.Nodup := by
    rw [htop]
    simp [hpq]
  have hd0 : declaredLoss L 0 = 1 := by
    simp [declaredLoss, htop, hlw]
  have hd1 : declaredLoss L 1 = 0 := by
    simp [declaredLoss, htop, hlw]
  have hname : (analysisOf param.layer).layer_idx_to_layer_name i = L.name :=
    inv.lname i L hi hL
  have hw0 : (analysisOf param.layer).top_idx_to_loss_weight (i, 0) = 1 := by
    rw [inv.lw i L hi hL hnd 0, hd0]
  have hc0 : (analysisOf param.layer).top_idx_to_bottom_count (i, 0) = 2 := by
    rw [count_nodup ha hL hnd 0, ← consumersBelow_length, hd0]
    have : (consumers param.layer (i, 0)).length = 1 := by rw [hcp]; rfl
    unfold consumers at this
    rw [this]
    simp
  have hc1 : (analysisOf param.layer).top_idx_to_bottom_count (i, 1) = 1 := by
    rw [count_nodup ha hL hnd 1, ← consumersBelow_length, hd1]
    have : (consumers param.layer (i, 1)).length = 1 := by rw [hcq]; rfl
    unfold consumers at this
    rw [this]
    simp
  have hsb : splitsBelow (analysisOf param.layer) i L.top.length = 1 := by
    rw [htop]
    simp [splitsBelow, List.range_succ, Analysis.FanoutCount, hc0, hc1]
  have hmoved : lossMoved (analysisOf param.layer) i 0 L.top = true := by
    rw [lossMoved_iff]
    refine ⟨0, Nat.le_refl _, by rw [htop]; simp, ?_, ?_⟩
    · show 1 < (analysisOf param.layer).top_idx_to_bottom_count (i, 0)
      rw [hc0]; omega
    · rw [hw0]; exact one_ne_zero
  refine ⟨hc0, ?_, ?_, ?_, ?_, hc1, ?_, ?_⟩
  · simp [splitLayerPos, cloneLayerPos, splitPos, splitsBelow]
  · rw [ho]
    have hb0 : L.top[0]? = some p := by rw [htop]; rfl
    have := rewriteLayers_split_at (analysisOf param.layer) param.layer (fun _ => 0) i 0 L p
      hL hb0 (by show 1 < (analysisOf param.layer).top_idx_to_bottom_count (i, 0)
                 rw [hc0]; omega)
    rw [splitLayerOf_eq, hname, hw0] at this
    simp only [Analysis.FanoutCount, hc0] at this
    rw [splitLayerPos, this]
    simp [List.range_succ]
  · have hs : 1 < (analysisOf param.layer).FanoutCount
        ((analysisOf param.layer).source cp.1 cp.2) := by
      rw [p3]
      show 1 < (analysisOf param.layer).top_idx_to_bottom_count (i, 0)
      rw [hc0]; omega
    have hcb := cloneOf_bottom_split ha p1 hbp hs
    rw [p3, p4, hname, ep, hw0] at hcb
    simp only [] at hcb
    refine ⟨cloneOf (analysisOf param.layer) cp.1 lp
      (splitIdxAfter (analysisOf param.layer) 0 (param.layer.take cp.1) (fun _ => 0)), ?_, ?_⟩
    · rw [ho]
      exact rewriteLayers_clone_at _ _ _ cp.1 lp p1
    · rw [hcb]
      simp
  · refine ⟨cloneOf (analysisOf param.layer) i L
      (splitIdxAfter (analysisOf param.layer) 0 (param.layer.take i) (fun _ => 0)), ?_, ?_, ?_, ?_⟩
    · rw [ho]
      exact rewriteLayers_clone_at _ _ _ i L hL
    · rfl
    · rw [cloneOf_top, htop]
    · rw [cloneOf_loss_weight, hmoved]
      rfl
  · rw [cloneLayerPos, cloneLayerPos, clonePos_succ _ _ i L hL, hsb]
  · have hs : ¬ 1 < (analysisOf param.layer).FanoutCount
        ((analysisOf param.layer).source cq.1 cq.2) := by
      rw [q3]
      show ¬ 1 < (analysisOf param.layer).top_idx_to_bottom_count (i, 1)
      rw [hc1]; omega
    have hcb := cloneOf_bottom_kept (analysisOf param.layer) param.layer q1 hbq hs
    rw [eq] at hcb
    refine ⟨cloneOf (analysisOf param.layer) cq.1 lq
      (splitIdxAfter (analysisOf param.layer) 0 (param.layer.take cq.1) (fun _ => 0)), ?_, hcb⟩
    rw [ho]
    exact rewriteLayers_clone_at _ _ _ cq.1 lq q1

/-- The scenario on the three layers `L(top=[p, q], loss_weight=[1])`, `M(bottom=p)`,
`N(bottom=q)`: the hypotheses hold with `cp = (1, 0)` and `cq = (2, 0)`. -/
theorem C10_loss_scenario_witness :
    InsertSplits netLoss = .ok netLossSplit ∧
      consumers netLoss.layer (0, 0) = [(1, 0)] ∧ consumers netLoss.layer (0, 1) = [(2, 0)] ∧
      FanoutCount netLoss.layer (0, 0) = 2 ∧ FanoutCount netLoss.layer (0, 1) = 1 ∧
      netLossSplit.layer[splitLayerPos netLoss.layer 0 0]? =
        some { name := SplitLayerName "L" "p" 0, type := "Split", bottom := ["p"],
               top := [SplitBlobName "L" "p" 0 0, SplitBlobName "L" "p" 0 1],
               loss_weight := [1, 0], rest := "" } := by
  have e0 : consumers netLoss.layer (0, 0) = [(1, 0)] := by decide
  have e1 : consumers netLoss.layer (0, 1) = [(2, 0)] := by decide
  have := C10_loss_scenario netLoss netLossSplit (by decide) 0 (mkLayer "L" [] ["p", "q"] [1])
    "p" "q" (by decide) rfl rfl (1, 0) (2, 0) (by intro c; rw [e0]; simp)
    (by intro c; rw [e1]; simp)
  exact ⟨by decide, e0, e1, this.1, this.2.2.2.2.2.1, this.2.2.1⟩

/-! ### The generated names -/

/-- C11: `SplitLayerName` is the tensor name, `_`, the producer layer name, `_`, the decimal
numeral of the slot index and `_split`; `SplitBlobName` is that layer name followed by `_`
and the decimal numeral of the fan-out index. The numerals consist of decimal digits and
denote the index they were printed from. -/
theorem C11_generated_name_format (layer_name blob_name : String) (blob_idx split_idx : Nat) :
    SplitLayerName layer_name blob_name blob_idx =
        blob_name ++ "_" ++ layer_name ++ "_" ++ toString blob_idx ++ "_split" ∧
      SplitBlobName layer_name blob_name blob_idx split_idx =
        SplitLayerName layer_name blob_name blob_idx ++ "_" ++ toString split_idx ∧
      (toString blob_idx).data.all Char.isDigit = true ∧
      (toString split_idx).data.all Char.isDigit = true ∧
      decimalValue (toString blob_idx) = blob_idx ∧
      decimalValue (toString split_idx) = split_idx := by
  refine ⟨rfl, SplitBlobName_eq_append _ _ _ _, ?_, ?_, decimalValue_toString _,
    decimalValue_toString _⟩
  · rw [List.all_eq_true]; exact toString_nat_isDigit _
  · rw [List.all_eq_true]; exact toString_nat_isDigit _

/-- C12, as written, fails: the producer layer `y_z` with tensor `x` and the producer layer
`z` with tensor `x_y` are different, yet for the same slot index (and the same fan-out index)
they get the same Split layer name and the same Split output name. -/
theorem C12_counterexample :
    ("y_z", "x", 0) ≠ ("z", "x_y", 0) ∧
      SplitLayerName "y_z" "x" 0 = SplitLayerName "z" "x_y" 0 ∧
      SplitBlobName "y_z" "x" 0 0 = SplitBlobName "z" "x_y" 0 0 := by
  decide

/-- C12, amended: two (layer name, tensor name, slot index, fan-out index) tuples yield the
same `SplitBlobName` exactly when they have the same slot index, the same fan-out index and
the same string "tensor name, `_`, layer name"; two (layer name, tensor name, slot index)
triples yield the same `SplitLayerName` exactly when they have the same slot index and the same
such string. Hence two different tuples (triples) never yield the same name when they have
the same producer layer name, or the same tensor name, or when neither producer layer name,
or neither tensor name, contains the character `_`. -/
theorem C12_names_collision_free (layer_name blob_name layer_name2 blob_name2 : String)
    (blob_idx split_idx blob_idx2 split_idx2 : Nat) :
    (SplitBlobName layer_name blob_name blob_idx split_idx =
        SplitBlobName layer_name2 blob_name2 blob_idx2 split_idx2 ↔
      blob_name ++ "_" ++ layer_name = blob_name2 ++ "_" ++ layer_name2 ∧
        blob_idx = blob_idx2 ∧ split_idx = split_idx2) ∧
    (SplitLayerName layer_name blob_name blob_idx =
        SplitLayerName layer_name2 blob_name2 blob_idx2 ↔
      blob_name ++ "_" ++ layer_name = blob_name2 ++ "_" ++ layer_name2 ∧
        blob_idx = blob_idx2) ∧
    ((layer_name = layer_name2 ∨ blob_name = blob_name2 ∨
        (NoUnderscore layer_name ∧ NoUnderscore layer_name2) ∨
        (NoUnderscore blob_name ∧ NoUnderscore blob_name2)) →
      ((layer_name, blob_name, blob_idx, split_idx) ≠
          (layer_name2, blob_name2, blob_idx2, split_idx2) →
        SplitBlobName layer_name blob_name blob_idx split_idx ≠
          SplitBlobName layer_name2 blob_name2 blob_idx2 split_idx2) ∧
      ((layer_name, blob_name, blob_idx) ≠ (layer_name2, blob_name2, blob_idx2) →
        SplitLayerName layer_name blob_name blob_idx ≠
          SplitLayerName layer_name2 blob_name2 blob_idx2)) := by
  refine ⟨SplitBlobName_eq_iff _ _ _ _ _ _ _ _, SplitLayerName_eq_iff _ _ _ _ _ _, ?_⟩
  intro hn
  constructor
  · intro hne he
    obtain ⟨e, e3, e4⟩ := (SplitBlobName_eq_iff _ _ _ _ _ _ _ _).1 he
    obtain ⟨e1, e2⟩ := joined_injective hn e
    exact hne (by rw [e1, e2, e3, e4])
  · intro hne he
    obtain ⟨e, e3⟩ := (SplitLayerName_eq_iff _ _ _ _ _ _).1 he
    obtain ⟨e1, e2⟩ := joined_injective hn e
    exact hne (by rw [e1, e2, e3])

/-- The amended C12 on names that contain `_`: the tensor `conv1_1` produced by the layers
`conv1_1` and `conv1_2` (the same tensor name), and the tensors `pool_1` and `pool_2` produced
by the layer `conv1_1` (the same layer name), get different names. -/
theorem C12_names_collision_free_witness :
    SplitBlobName "conv1_1" "conv1_1" 0 0 ≠ SplitBlobName "conv1_2" "conv1_1" 0 0 ∧
      SplitLayerName "conv1_1" "conv1_1" 0 ≠ SplitLayerName "conv1_2" "conv1_1" 0 ∧
      SplitBlobName "conv1_1" "pool_1" 0 0 ≠ SplitBlobName "conv1_1" "pool_2" 0 0 ∧
      SplitLayerName "conv1_1" "pool_1" 0 ≠ SplitLayerName "conv1_1" "pool_2" 0 :=
  ⟨((C12_names_collision_free "conv1_1" "conv1_1" "conv1_2" "conv1_1" 0 0 0 0).2.2
      (Or.inr (Or.inl rfl))).1 (by decide),
    ((C12_names_collision_free "conv1_1" "conv1_1" "conv1_2" "conv1_1" 0 0 0 0).2.2
      (Or.inr (Or.inl rfl))).2 (by decide),
    ((C12_names_collision_free "conv1_1" "pool_1" "conv1_1" "pool_2" 0 0 0 0).2.2
      (Or.inl rfl)).1 (by decide),
    ((C12_names_collision_free "conv1_1" "pool_1" "conv1_1" "pool_2" 0 0 0 0).2.2
      (Or.inl rfl)).2 (by decide)⟩

/-! ### The layout and the frame of the rewritten network -/

/-- C13: when `InsertSplits` succeeds, the rewritten layer list is the concatenation, over the
input layers in their order, of the segment of each layer: its clone followed by the Split
layers of its output slots with fan-out count above one, in increasing slot order. Hence the
clones form, in the original order, a sublist of the rewritten list; the clone of layer `i`
sits right after the segments of the layers before it; and the Split layer of each split slot
of layer `i` sits after the clone of layer `i` and before the position of the clone of layer
`i + 1`, which for the last layer is the end of the list. -/
theorem C13_rewritten_layout (param out : NetParameter) (h : InsertSplits param = .ok out) :
    out.layer = param.layer.enum.flatMap (layerSegment param.layer) ∧
      List.Sublist (param.layer.enum.map (fun p => cloneLayer param.layer p.1 p.2)) out.layer ∧
      (∀ i l, param.layer[i]? = some l →
        cloneLayerPos param.layer i =
          ((param.layer.enum.take i).flatMap (layerSegment param.layer)).length ∧
        out.layer[cloneLayerPos param.layer i]? = some (cloneLayer param.layer i l) ∧
        ∀ j b, l.top[j]? = some b → 1 < FanoutCount param.layer (i, j) →
          out.layer[splitLayerPos param.layer i j]? =
            some (splitLayerOf (analysisOf param.layer) i j b) ∧
          cloneLayerPos param.layer i < splitLayerPos param.layer i j ∧
          splitLayerPos param.layer i j < cloneLayerPos param.layer (i + 1)) ∧
      cloneLayerPos param.layer param.layer.length = out.layer.length := by
  obtain ⟨_, ho⟩ := InsertSplits_ok h
  have hout : out.layer = rewritten (analysisOf param.layer) param.layer := by rw [ho]; rfl
  have hseg := rewritten_eq_segments param.layer
  refine ⟨by rw [hout, hseg], ?_, ?_, ?_⟩
  · rw [hout, hseg]
    exact map_sublist_flatMap _ _
      (fun p : Nat × LayerParameter => ⟨splitLayersOf param.layer p.1 p.2, rfl⟩) _
  · intro i l hl
    have hi : i < param.layer.length := (List.getElem?_eq_some.1 hl).1
    refine ⟨(segments_length param.layer i (Nat.le_of_lt hi)).symm, ?_, ?_⟩
    · rw [hout]
      exact rewriteLayers_clone_at _ _ _ i l hl
    · intro j b hb hc
      refine ⟨?_, ?_⟩
      · rw [hout]
        exact rewriteLayers_split_at _ _ _ i j l b hl hb hc
      · exact splitPos_bounds _ _ hl (List.getElem?_eq_some.1 hb).1 hc
  · rw [hout, rewritten_length]
    rfl

/-- The layout on the scenario network `A(top=x)`, `B(bottom=x, top=y)`, `C(bottom=x)`: the
pass succeeds and the four rewritten layers are the three segments in order. -/
theorem C13_rewritten_layout_witness :
    InsertSplits netABC = .ok netABCSplit ∧
      netABCSplit.layer = netABC.layer.enum.flatMap (layerSegment netABC.layer) ∧
      netABCSplit.layer.length = 4 :=
  ⟨by decide, (C13_rewritten_layout netABC netABCSplit (by decide)).1, by decide⟩

/-- C14: when `InsertSplits` succeeds, the name and the remaining fields of the network are
those of the input network, and the clone of every input layer `l` has the name, the type, the
output list and the remaining (type-specific) fields of `l` and as many inputs as `l`; so the
clone is `l` with, at most, its input names and its `loss_weight` list replaced. -/
theorem C14_clone_frame (param out : NetParameter) (h : InsertSplits param = .ok out) :
    out.name = param.name ∧ out.rest = param.rest ∧
      out = { param with layer := out.layer } ∧
      ∀ i l, param.layer[i]? = some l →
        ∃ c, out.layer[cloneLayerPos param.layer i]? = some c ∧
          c.name = l.name ∧ c.type = l.type ∧ c.top = l.top ∧ c.rest = l.rest ∧
          c.bottom.length = l.bottom.length ∧
          c = { l with bottom := c.bottom, loss_weight := c.loss_weight } := by
  obtain ⟨_, ho⟩ := InsertSplits_ok h
  refine ⟨by rw [ho], by rw [ho], by rw [ho], ?_⟩
  intro i l hl
  refine ⟨cloneLayer param.layer i l, ?_, rfl, rfl, rfl, rfl, cloneOf_bottom_length _ _ _ _, rfl⟩
  rw [ho]
  exact rewriteLayers_clone_at _ _ _ i l hl

/-- The frame on the loss scenario `L(top=[p, q], loss_weight=[1])`, `M(bottom=p)`,
`N(bottom=q)`: the pass succeeds and the clone of `M` differs from `M` in its input name
only. -/
theorem C14_clone_frame_witness :
    InsertSplits netLoss = .ok netLossSplit ∧
      netLossSplit.name = netLoss.name ∧ netLossSplit.rest = netLoss.rest ∧
      ∃ c, netLossSplit.layer[cloneLayerPos netLoss.layer 1]? = some c ∧
        c = { mkLayer "M" ["p"] [] [] with bottom := c.bottom, loss_weight := c.loss_weight } :=
  have h := C14_clone_frame netLoss netLossSplit (by decide)
  ⟨by decide, h.1, h.2.1,
    (h.2.2.2 1 (mkLayer "M" ["p"] [] []) (by decide)).elim
      (fun c hc => ⟨c, hc.1, hc.2.2.2.2.2.2⟩)⟩

/-! ### The maps of the first pass, and the Split layer -/

/-- The most recent declaration before layer `i` depends on the layers below `i` only. -/
theorem producer_congr (ls ls2 : List LayerParameter) (n : String) :
    ∀ i, (∀ i2, i2 < i → ls2[i2]? = ls[i2]?) → producer ls2 i n = producer ls i n := by
  intro i
  induction i with
  | zero => intro _; rfl
  | succ i ih =>
    intro h
    have e := h i (Nat.lt_succ_self i)
    have r := ih (fun i2 h2 => h i2 (Nat.lt_succ_of_lt h2))
    rw [producer, producer, e, r]

/-- C15, as written, fails: in the network `L(top=[p, p], loss_weight=[1, 0])`, `M(bottom=p)`
the analysis succeeds; no input reference resolves to slot `(0, 0)` and `loss_weight[0] = 1` of
layer 0 is nonzero, so the claim gives `(0, 0)` the fan-out count 1 and the loss weight 1, while
the analysis records the fan-out count 0 and the loss weight 0; and slot `(0, 1)`, to which
one input reference resolves and whose `loss_weight[1]` is 0, gets the fan-out count 2. -/
theorem C15_counterexample :
    InsertSplits netTwice = .ok netTwiceSplit ∧
      netTwice.layer[0]? = some (mkLayer "L" [] ["p", "p"] [1, 0]) ∧
      consumerCount netTwice.layer (0, 0) = 0 ∧
      FanoutCount netTwice.layer (0, 0) = 0 ∧
      siteLossWeight netTwice.layer (0, 0) = 0 ∧
      consumerCount netTwice.layer (0, 1) = 1 ∧
      FanoutCount netTwice.layer (0, 1) = 2 := by
  decide

/-- C15, amended: when the analysis pass of `InsertSplits` succeeds, for every layer `i` whose
output names are pairwise distinct and every output slot `k`, the fan-out count of `(i, k)` is
the number of input references that resolve to `(i, k)`, plus one if
`k < min (len loss_weight) (len top)` of layer `i` and `loss_weight[k]` is nonzero; the loss
weight recorded for `(i, k)` is `loss_weight[k]` for `k < min (len loss_weight) (len top)` and
0 otherwise; and the references that resolve to `(i, k)` are those that the analysis recorded
for it. -/
theorem C15_fanout_count (param out : NetParameter) (h : InsertSplits param = .ok out)
    (i k : Nat) (l : LayerParameter) (hl : param.layer[i]? = some l) (hnd : l.top.Nodup) :
    FanoutCount param.layer (i, k) =
        consumerCount param.layer (i, k) +
          (if k < min l.loss_weight.length l.top.length ∧ l.loss_weight.getD k 0 ≠ 0
            then 1 else 0) ∧
      siteLossWeight param.layer (i, k) =
        (if k < min l.loss_weight.length l.top.length then l.loss_weight.getD k 0 else 0) ∧
      consumerCount param.layer (i, k) = (consumers param.layer (i, k)).length := by
  obtain ⟨ha, _⟩ := InsertSplits_ok h
  have inv := (Analyze_ok ha).1
  have hi : i < param.layer.length := (List.getElem?_eq_some.1 hl).1
  have hd : declaredLoss l k =
      if k < min l.loss_weight.length l.top.length then l.loss_weight.getD k 0 else 0 := by
    unfold declaredLoss
    by_cases h1 : k < l.top.length
    · by_cases h2 : k < l.loss_weight.length
      · rw [if_pos h1, if_pos (by omega)]
      · rw [if_pos h1, if_neg (by omega)]
        simp [List.getD, List.getElem?_eq_none (Nat.le_of_not_lt h2)]
    · rw [if_neg h1, if_neg (by omega)]
  have hc : consumerCount param.layer (i, k) =
      refsBelow (analysisOf param.layer) param.layer param.layer.length (i, k) :=
    refCount_eq_refsBelow ha _ _
  refine ⟨?_, ?_, ?_⟩
  · rw [FanoutCount, count_nodup ha hl hnd k, hc, hd]
    congr 1
    by_cases h1 : k < min l.loss_weight.length l.top.length
    · simp [h1]
    · simp [h1]
  · rw [siteLossWeight, inv.lw i l hi hl hnd k, hd]
  · rw [hc, consumers, consumersBelow_length]

/-- The amended C15 on the loss scenario `L(top=[p, q], loss_weight=[1])`, `M(bottom=p)`,
`N(bottom=q)`: slot `(0, 0)` has one consumer and a nonzero loss weight, hence the fan-out
count 2 and the recorded loss weight 1. -/
theorem C15_fanout_count_witness :
    InsertSplits netLoss = .ok netLossSplit ∧
      consumerCount netLoss.layer (0, 0) = 1 ∧
      FanoutCount netLoss.layer (0, 0) = consumerCount netLoss.layer (0, 0) + 1 ∧
      siteLossWeight netLoss.layer (0, 0) = 1 :=
  have h := C15_fanout_count netLoss netLossSplit (by decide) 0 0
    (mkLayer "L" [] ["p", "q"] [1]) (by decide) (by decide)
  ⟨by decide, by decide, h.1, h.2.1⟩

/-- C16: when the analysis succeeds, input `j` of layer `i`, naming `n`, resolves to the slot
`(i0, j0)` where `i0 < i` is the greatest layer index below `i` whose outputs list `n` (no
layer strictly between `i0` and `i` lists `n`) and `j0` is the last output index at which
layer `i0` lists `n`. The slot does not depend on layer `i` and the layers after it, apart from
the reference itself: in any network `param2` that has the same layers below `i` and the same
input `j` of layer `i`, whatever the outputs of layer `i` and whatever the later layers, the
reference resolves to the same slot. -/
theorem C16_resolves_to_most_recent (param out param2 out2 : NetParameter)
    (h : InsertSplits param = .ok out) (h2 : InsertSplits param2 = .ok out2)
    (i j : Nat) (l l2 : LayerParameter) (n : String)
    (hl : param.layer[i]? = some l) (hb : l.bottom[j]? = some n)
    (hpre : ∀ i2, i2 < i → param2.layer[i2]? = param.layer[i2]?)
    (hl2 : param2.layer[i]? = some l2) (hb2 : l2.bottom[j]? = some n) :
    (resolvedSite param.layer i j).1 < i ∧
      (∃ l0, param.layer[(resolvedSite param.layer i j).1]? = some l0 ∧
        l0.top[(resolvedSite param.layer i j).2]? = some n ∧
        ∀ j2, (resolvedSite param.layer i j).2 < j2 → l0.top[j2]? ≠ some n) ∧
      (∀ i2 l3, (resolvedSite param.layer i j).1 < i2 → i2 < i →
        param.layer[i2]? = some l3 → n ∉ l3.top) ∧
      resolvedSite param2.layer i j = resolvedSite param.layer i j := by
  obtain ⟨ha, _⟩ := InsertSplits_ok h
  obtain ⟨ha2, _⟩ := InsertSplits_ok h2
  have inv := (Analyze_ok ha).1
  have inv2 := (Analyze_ok ha2).1
  have hi : i < param.layer.length := (List.getElem?_eq_some.1 hl).1
  have hi2 : i < param2.layer.length := (List.getElem?_eq_some.1 hl2).1
  have hp := inv.src i j l n hi hl hb
  have hp2 := inv2.src i j l2 n hi2 hl2 hb2
  rw [producer_congr param.layer param2.layer n i hpre, hp] at hp2
  obtain ⟨h1, l0, h3, h4, h5⟩ := producer_eq_some _ _ _ _ hp
  obtain ⟨h6, h7⟩ := lastIdx_eq_some h4
  exact ⟨h1, ⟨l0, h3, h6, h7⟩, h5, (Option.some.inj hp2).symm⟩

/-- In the network `A(top=x)`, `B(bottom=x, top=x)`, `C(bottom=x, top=x)`, `D(bottom=x)` the
input of `B` resolves to the output of `A`, as it does in the scenario network
`A(top=x)`, `B(bottom=x, top=y)`, `C(bottom=x)`, although `B` and `C` declare `x` again; the
input of `D` resolves to the output of `C`. -/
theorem C16_resolves_to_most_recent_witness :
    (∃ out, InsertSplits netRedeclared = .ok out) ∧
      InsertSplits netABC = .ok netABCSplit ∧
      resolvedSite netRedeclared.layer 1 0 = (0, 0) ∧
      resolvedSite netRedeclared.layer 3 0 = (2, 0) ∧
      resolvedSite netABC.layer 1 0 = resolvedSite netRedeclared.layer 1 0 :=
  ⟨⟨_, rfl⟩, by decide, by decide, by decide,
    (C16_resolves_to_most_recent netRedeclared _ netABC netABCSplit rfl (by decide) 1 0
      (mkLayer "B" ["x"] ["x"] []) (mkLayer "B" ["x"] ["y"] []) "x" (by decide) (by decide)
      (by intro i2 hi2
          have : i2 = 0 := by omega
          subst this
          decide)
      (by decide) (by decide)).2.2.2⟩

/-- C17: whatever the prior content `t` of the target, `ConfigureSplitLayer` leaves it with
the name `SplitLayerName layer_name blob_name blob_idx`, the type `Split`, the single input
`blob_name`, and exactly `split_count` outputs, output `k` being
`SplitBlobName layer_name blob_name blob_idx k`. Its remaining fields are at their defaults,
its `loss_weight` list is built from the arguments alone, and the result is the same for every
prior content. -/
theorem C17_configure_split_layer (layer_name blob_name : String) (blob_idx split_count : Nat)
    (loss_weight : ℚ) (t : LayerParameter) :
    (ConfigureSplitLayer layer_name blob_name blob_idx split_count loss_weight t).name =
        SplitLayerName layer_name blob_name blob_idx ∧
      (ConfigureSplitLayer layer_name blob_name blob_idx split_count loss_weight t).type =
        "Split" ∧
      (ConfigureSplitLayer layer_name blob_name blob_idx split_count loss_weight t).bottom =
        [blob_name] ∧
      (ConfigureSplitLayer layer_name blob_name blob_idx split_count loss_weight t).top =
        (List.range split_count).map (SplitBlobName layer_name blob_name blob_idx) ∧
      (ConfigureSplitLayer layer_name blob_name blob_idx split_count loss_weight t).top.length =
        split_count ∧
      (ConfigureSplitLayer layer_name blob_name blob_idx split_count loss_weight t).rest = "" ∧
      (ConfigureSplitLayer layer_name blob_name blob_idx split_count loss_weight t).loss_weight =
        (if loss_weight ≠ 0 then
          (List.range split_count).map (fun k => if k = 0 then loss_weight else 0) else []) ∧
      ∀ t2 : LayerParameter,
        ConfigureSplitLayer layer_name blob_name blob_idx split_count loss_weight t2 =
          ConfigureSplitLayer layer_name blob_name blob_idx split_count loss_weight t := by
  rw [ConfigureSplitLayer_eq]
  refine ⟨rfl, rfl, rfl, rfl, by simp, rfl, rfl, ?_⟩
  intro t2
  rw [ConfigureSplitLayer_eq]

/-! ### The layer registry -/

theorem find_eq_none_iff {β : Type} (registry : CreatorRegistry β) (type : String) :
    LayerRegistry.find registry type = none ↔ type ∉ LayerRegistry.LayerTypeList registry := by
  induction registry with
  | nil => simp [LayerRegistry.find, LayerRegistry.LayerTypeList]
  | cons e rest ih =>
    obtain ⟨k, c⟩ := e
    unfold LayerRegistry.LayerTypeList at ih ⊢
    rw [LayerRegistry.find]
    by_cases hk : k = type
    · simp [hk]
    · rw [if_neg hk, ih]
      simp [Ne.symm hk]

theorem count_eq_zero_iff {β : Type} (registry : CreatorRegistry β) (type : String) :
    LayerRegistry.count registry type = 0 ↔ type ∉ LayerRegistry.LayerTypeList registry := by
  rw [← find_eq_none_iff, LayerRegistry.count]
  cases LayerRegistry.find registry type <;> simp

theorem count_eq_one_iff {β : Type} (registry : CreatorRegistry β) (type : String) :
    LayerRegistry.count registry type = 1 ↔ type ∈ LayerRegistry.LayerTypeList registry := by
  rw [← not_iff_not, ← find_eq_none_iff, LayerRegistry.count]
  cases LayerRegistry.find registry type <;> simp

/-- Reading the map after the assignment `registry[type] = creator`. -/
theorem find_assign {β : Type} (registry : CreatorRegistry β) (type : String)
    (creator : LayerParameter → β) (t : String) :
    LayerRegistry.find (LayerRegistry.assign registry type creator) t =
      if t = type then some creator else LayerRegistry.find registry t := by
  induction registry with
  | nil =>
    simp only [LayerRegistry.assign, LayerRegistry.find]
    by_cases h : type = t
    · simp [h]
    · simp [h, Ne.symm h]
  | cons e rest ih =>
    obtain ⟨k, c⟩ := e
    rw [LayerRegistry.assign]
    by_cases h1 : type < k
    · rw [if_pos h1, LayerRegistry.find]
      by_cases h : type = t
      · simp [h]
      · simp [h, Ne.symm h]
    · rw [if_neg h1]
      by_cases h2 : type = k
      · rw [if_pos h2, LayerRegistry.find, LayerRegistry.find]
        subst h2
        by_cases h : type = t
        · simp [h]
        · simp [h, Ne.symm h]
      · rw [if_neg h2, LayerRegistry.find, LayerRegistry.find, ih]
        by_cases h3 : k = t
        · subst h3
          simp [Ne.symm h2]
        · simp [h3]

/-- The keys of the map after the assignment `registry[type] = creator`. -/
theorem mem_LayerTypeList_assign {β : Type} (registry : CreatorRegistry β) (type : String)
    (creator : LayerParameter → β) (t : String) :
    t ∈ LayerRegistry.LayerTypeList (LayerRegistry.assign registry type creator) ↔
      t = type ∨ t ∈ LayerRegistry.LayerTypeList registry := by
  rw [← not_iff_not, ← find_eq_none_iff, find_assign, not_or, ← find_eq_none_iff]
  by_cases h : t = type
  · simp [h]
  · simp [h]

theorem AddCreator_of_not_mem {β : Type} (registry : CreatorRegistry β) (type : String)
    (creator : LayerParameter → β) (h : type ∉ LayerRegistry.LayerTypeList registry) :
    LayerRegistry.AddCreator registry type creator =
      (.ok (), LayerRegistry.assign registry type creator) := by
  rw [LayerRegistry.AddCreator, if_pos ((count_eq_zero_iff _ _).2 h)]

theorem AddCreator_of_mem {β : Type} (registry : CreatorRegistry β) (type : String)
    (creator : LayerParameter → β) (h : type ∈ LayerRegistry.LayerTypeList registry) :
    LayerRegistry.AddCreator registry type creator =
      (.error ("Layer type " ++ type ++ " already registered."), registry) := by
  rw [LayerRegistry.AddCreator, if_neg (fun h0 => (count_eq_zero_iff _ _).1 h0 h)]

/-- An entry of the registry survives every later `AddCreator` call. -/
theorem find_AddCreator_of_some {β : Type} (registry : CreatorRegistry β) (t : String)
    (c : LayerParameter → β) (h : LayerRegistry.find registry t = some c) (type : String)
    (creator : LayerParameter → β) :
    LayerRegistry.find (LayerRegistry.AddCreator registry type creator).2 t = some c := by
  by_cases hm : type ∈ LayerRegistry.LayerTypeList registry
  · rw [AddCreator_of_mem _ _ _ hm]
    exact h
  · rw [AddCreator_of_not_mem _ _ _ hm]
    show LayerRegistry.find (LayerRegistry.assign registry type creator) t = some c
    rw [find_assign, if_neg, h]
    intro e
    subst e
    rw [(find_eq_none_iff _ _).2 hm] at h
    cases h

theorem find_AddCreators_of_some {β : Type} (calls : List (String × (LayerParameter → β))) :
    ∀ (registry : CreatorRegistry β) (t : String) (c : LayerParameter → β),
      LayerRegistry.find registry t = some c →
      LayerRegistry.find (LayerRegistry.AddCreators registry calls) t = some c := by
  induction calls with
  | nil => intro registry t c h; exact h
  | cons e rest ih =>
    intro registry t c h
    rw [LayerRegistry.AddCreators, List.foldl_cons]
    exact ih _ t c (find_AddCreator_of_some registry t c h e.1 e.2)

theorem CreateLayer_of_find {β : Type} (registry : CreatorRegistry β) (param : LayerParameter)
    (creator : LayerParameter → β) (h : LayerRegistry.find registry param.type = some creator) :
    LayerRegistry.CreateLayer registry param = (.ok (creator param), registry) := by
  have hc : LayerRegistry.count registry param.type = 1 := by
    rw [LayerRegistry.count, h]
  rw [LayerRegistry.CreateLayer, if_pos hc, h]

theorem CreateLayer_of_not_mem {β : Type} (registry : CreatorRegistry β)
    (param : LayerParameter) (h : param.type ∉ LayerRegistry.LayerTypeList registry) :
    LayerRegistry.CreateLayer registry param =
      (.error (LayerRegistry.unknownType registry param.type), registry) := by
  rw [LayerRegistry.CreateLayer, if_neg]
  intro h1
  exact h ((count_eq_one_iff _ _).1 h1)

/-- After a successful `AddCreator` the registry maps the type to the creator. -/
theorem find_AddCreator_of_ok {β : Type} (registry : CreatorRegistry β) (type : String)
    (creator : LayerParameter → β) :
    (LayerRegistry.AddCreator registry type creator).1 = .ok () →
      LayerRegistry.find (LayerRegistry.AddCreator registry type creator).2 type =
        some creator := by
  by_cases hm : type ∈ LayerRegistry.LayerTypeList registry
  · rw [AddCreator_of_mem _ _ _ hm]
    intro h
    cases h
  · rw [AddCreator_of_not_mem _ _ _ hm]
    intro _
    show LayerRegistry.find (LayerRegistry.assign registry type creator) type = some creator
    rw [find_assign, if_pos rfl]

/-- C18: `AddCreator` fails if and only if the type is already a key of the registry, and
succeeds if and only if it is not. When it succeeds, the registry afterwards maps the type
to the creator, maps every other key as before, and has the old keys and the new one as its
keys; when it fails, the registry is as before. -/
theorem C18_add_creator {β : Type} (registry : CreatorRegistry β) (type : String)
    (creator : LayerParameter → β) :
    ((∃ e, (LayerRegistry.AddCreator registry type creator).1 = .error e) ↔
        type ∈ LayerRegistry.LayerTypeList registry) ∧
      ((LayerRegistry.AddCreator registry type creator).1 = .ok () ↔
        type ∉ LayerRegistry.LayerTypeList registry) ∧
      ((LayerRegistry.AddCreator registry type creator).1 = .ok () →
        LayerRegistry.find (LayerRegistry.AddCreator registry type creator).2 type =
            some creator ∧
          (∀ t, t ≠ type →
            LayerRegistry.find (LayerRegistry.AddCreator registry type creator).2 t =
              LayerRegistry.find registry t) ∧
          ∀ t, t ∈ LayerRegistry.LayerTypeList
              (LayerRegistry.AddCreator registry type creator).2 ↔
            t = type ∨ t ∈ LayerRegistry.LayerTypeList registry) ∧
      ((∃ e, (LayerRegistry.AddCreator registry type creator).1 = .error e) →
        (LayerRegistry.AddCreator registry type creator).2 = registry) := by
  by_cases hm : type ∈ LayerRegistry.LayerTypeList registry
  · rw [AddCreator_of_mem _ _ _ hm]
    refine ⟨⟨fun _ => hm, fun _ => ⟨_, rfl⟩⟩, ⟨fun h => (nomatch h), fun h => absurd hm h⟩,
      fun h => (nomatch h), fun _ => rfl⟩
  · rw [AddCreator_of_not_mem _ _ _ hm]
    refine ⟨⟨fun h => ?_, fun h => absurd h hm⟩, ⟨fun _ => hm, fun _ => rfl⟩, fun _ => ?_,
      fun h => ?_⟩
    · obtain ⟨e, he⟩ := h
      cases he
    · refine ⟨?_, ?_, ?_⟩
      · show LayerRegistry.find (LayerRegistry.assign registry type creator) type = some creator
        rw [find_assign, if_pos rfl]
      · intro t ht
        show LayerRegistry.find (LayerRegistry.assign registry type creator) t = _
        rw [find_assign, if_neg ht]
      · intro t
        exact mem_LayerTypeList_assign registry type creator t
    · obtain ⟨e, he⟩ := h
      cases he

/-- C19: `CreateLayer` fails if and only if the type of the declaration is not a key of the
registry; otherwise it returns what the creator registered under that type returns on the
declaration. After a successful `AddCreator` of creator `c` under type `t`, and after any
further `AddCreator` calls, `CreateLayer` on a declaration of type `t` returns `c param`.
`CreateLayer` leaves the registry as it was. -/
theorem C19_create_layer {β : Type} (registry : CreatorRegistry β) (param : LayerParameter) :
    ((∃ e, (LayerRegistry.CreateLayer registry param).1 = .error e) ↔
        param.type ∉ LayerRegistry.LayerTypeList registry) ∧
      (∀ creator, LayerRegistry.find registry param.type = some creator →
        (LayerRegistry.CreateLayer registry param).1 = .ok (creator param)) ∧
      (param.type ∈ LayerRegistry.LayerTypeList registry →
        ∃ creator, LayerRegistry.find registry param.type = some creator ∧
          (LayerRegistry.CreateLayer registry param).1 = .ok (creator param)) ∧
      (∀ (c : LayerParameter → β) (calls : List (String × (LayerParameter → β))),
        (LayerRegistry.AddCreator registry param.type c).1 = .ok () →
        (LayerRegistry.CreateLayer
          (LayerRegistry.AddCreators (LayerRegistry.AddCreator registry param.type c).2 calls)
          param).1 = .ok (c param)) ∧
      (LayerRegistry.CreateLayer registry param).2 = registry := by
  have hsome : ∀ creator, LayerRegistry.find registry param.type = some creator →
      (LayerRegistry.CreateLayer registry param).1 = .ok (creator param) := by
    intro creator h
    rw [CreateLayer_of_find _ _ _ h]
  refine ⟨?_, hsome, ?_, ?_, ?_⟩
  · by_cases hm : param.type ∈ LayerRegistry.LayerTypeList registry
    · cases hf : LayerRegistry.find registry param.type with
      | none => exact absurd hm ((find_eq_none_iff _ _).1 hf)
      | some creator =>
        rw [hsome creator hf]
        exact ⟨fun h => h.elim (fun e he => (nomatch he)), fun h => absurd hm h⟩
    · rw [CreateLayer_of_not_mem _ _ hm]
      exact ⟨fun _ => hm, fun _ => ⟨_, rfl⟩⟩
  · intro hm
    cases hf : LayerRegistry.find registry param.type with
    | none => exact absurd hm ((find_eq_none_iff _ _).1 hf)
    | some creator => exact ⟨creator, rfl, hsome creator hf⟩
  · intro c calls hok
    have h1 := find_AddCreator_of_ok registry param.type c hok
    have h2 := find_AddCreators_of_some calls _ _ _ h1
    rw [CreateLayer_of_find _ _ _ h2]
  · by_cases hm : param.type ∈ LayerRegistry.LayerTypeList registry
    · cases hf : LayerRegistry.find registry param.type with
      | none => exact absurd hm ((find_eq_none_iff _ _).1 hf)
      | some creator => rw [CreateLayer_of_find _ _ _ hf]
    · rw [CreateLayer_of_not_mem _ _ hm]

/-! ### The blocking queue in single-threaded use -/

theorem pushAll_queue {T : Type} (xs : List T) :
    ∀ q : BlockingQueue T, (q.pushAll xs).queue_ = q.queue_ ++ xs := by
  induction xs with
  | nil => intro q; simp [BlockingQueue.pushAll]
  | cons x xs ih =>
    intro q
    have := ih (q.push x)
    rw [BlockingQueue.pushAll] at this ⊢
    rw [List.foldl_cons, this]
    simp [BlockingQueue.push]

theorem try_pop_cons {T : Type} (front : T) (rest : List T) (t : T) :
    (BlockingQueue.mk (front :: rest)).try_pop t = (true, front, BlockingQueue.mk rest) := rfl

theorem try_pop_nil {T : Type} (t : T) :
    (BlockingQueue.mk ([] : List T)).try_pop t = (false, t, BlockingQueue.mk []) := rfl

/-- As many `try_pop` calls as the queue has elements return them in order, front first. -/
theorem tryPopN_length {T : Type} (xs : List T) :
    ∀ t : T, BlockingQueue.tryPopN xs.length (BlockingQueue.mk xs) t =
      (xs.map (fun x => (true, x)), BlockingQueue.mk []) := by
  induction xs with
  | nil => intro t; rfl
  | cons x xs ih =>
    intro t
    rw [List.length_cons, BlockingQueue.tryPopN, try_pop_cons]
    simp only [ih x, List.map_cons]

theorem getLast?_cons_getD {T : Type} (x t : T) (xs : List T) :
    (x :: xs).getLast?.getD t = xs.getLast?.getD x := by
  cases xs with
  | nil => rfl
  | cons y ys =>
    rw [List.getLast?_cons_cons, List.getLast?_eq_getLast _ (List.cons_ne_nil y ys)]
    rfl

/-- One more `try_pop` call than the queue has elements: the last call returns `false` and
leaves the output variable as the call before it left it. -/
theorem tryPopN_length_succ {T : Type} (xs : List T) :
    ∀ t : T, BlockingQueue.tryPopN (xs.length + 1) (BlockingQueue.mk xs) t =
      (xs.map (fun x => (true, x)) ++ [(false, xs.getLast?.getD t)], BlockingQueue.mk []) := by
  induction xs with
  | nil => intro t; rfl
  | cons x xs ih =>
    intro t
    rw [List.length_cons, BlockingQueue.tryPopN, try_pop_cons]
    simp only [ih x, List.map_cons, List.cons_append, getLast?_cons_getD]

/-- C20: in single-threaded use the queue is a FIFO list. `push` appends at the back.
`try_pop` returns whether the list has an oldest element; on an empty queue it leaves the
output argument and the queue as they were, on a non-empty queue it stores the oldest element
in the output argument and removes exactly that element. `try_peek` returns the same flag and
stores the same element as `try_pop`, and leaves the queue as it was. `size` is the number of
elements. After pushing the elements of `xs` on a new queue, as many `try_pop` calls as `xs`
has elements return `true` with the elements of `xs` in order and leave the queue empty, and
the next `try_pop` returns `false` and leaves the output argument as the last call left it. -/
theorem C20_blocking_queue_fifo {T : Type} (q : BlockingQueue T) (x t : T) (xs : List T) :
    (q.push x).queue_ = fifoPush q.queue_ x ∧
      (q.try_pop t).1 = (fifoOldest q.queue_).isSome ∧
      (q.try_pop t).2.1 = (fifoOldest q.queue_).getD t ∧
      (q.try_pop t).2.2.queue_ = fifoRemoveOldest q.queue_ ∧
      (q.queue_ = [] → q.try_pop t = (false, t, q)) ∧
      (∀ front rest, q.queue_ = front :: rest →
        q.try_pop t = (true, front, { queue_ := rest })) ∧
      (q.try_peek t).1 = (q.try_pop t).1 ∧
      (q.try_peek t).2.1 = (q.try_pop t).2.1 ∧
      (q.try_peek t).2.2 = q ∧
      q.size = q.queue_.length ∧
      (BlockingQueue.new.pushAll xs).queue_ = xs ∧
      BlockingQueue.tryPopN xs.length (BlockingQueue.new.pushAll xs) t =
        (xs.map (fun y => (true, y)), BlockingQueue.new) ∧
      BlockingQueue.tryPopN (xs.length + 1) (BlockingQueue.new.pushAll xs) t =
        (xs.map (fun y => (true, y)) ++ [(false, xs.getLast?.getD t)], BlockingQueue.new) := by
  have hq : q = BlockingQueue.mk q.queue_ := rfl
  have hp : BlockingQueue.new.pushAll xs = BlockingQueue.mk xs := by
    have := pushAll_queue xs (BlockingQueue.new : BlockingQueue T)
    rw [show (BlockingQueue.new.pushAll xs) = BlockingQueue.mk (BlockingQueue.new.pushAll xs).queue_
      from rfl, this]
    rfl
  refine ⟨rfl, ?_, ?_, ?_, ?_, ?_, ?_, ?_, ?_, rfl, ?_, ?_, ?_⟩
  · rw [hq]; cases q.queue_ <;> rfl
  · rw [hq]; cases q.queue_ <;> rfl
  · rw [hq]; cases q.queue_ <;> rfl
  · intro h; rw [hq, h]; rfl
  · intro front rest h; rw [hq, h]; rfl
  · rw [hq]; cases q.queue_ <;> rfl
  · rw [hq]; cases q.queue_ <;> rfl
  · rw [hq]; cases q.queue_ <;> rfl
  · rw [hp]
  · rw [hp, tryPopN_length]; rfl
  · rw [hp, tryPopN_length_succ]; rfl

/-! ### The inputs and the loss weights of the clones -/

/-- C21, as written, fails: in the network `L(top=[p, p], loss_weight=[1])`, `M(bottom=p)`
the input of `M` resolves to slot `(0, 1)`, whose fan-out count is 2 and for which `L`
declares no loss weight (its only weight is for slot 0); the input is the only reference to
the slot, of rank 0, so the claim renames it to fan-out index 0, yet the clone of `M` reads
the output with fan-out index 1. -/
theorem C21_counterexample :
    InsertSplits netTwiceOneLoss = .ok netTwiceOneLossSplit ∧
      netTwiceOneLoss.layer[0]? = some (mkLayer "L" [] ["p", "p"] [1]) ∧
      netTwiceOneLoss.layer[1]? = some (mkLayer "M" ["p"] [] []) ∧
      resolvedSite netTwiceOneLoss.layer 1 0 = (0, 1) ∧
      FanoutCount netTwiceOneLoss.layer (0, 1) = 2 ∧
      declaredLoss (mkLayer "L" [] ["p", "p"] [1]) 1 = 0 ∧
      consumers netTwiceOneLoss.layer (0, 1) = [(1, 0)] ∧
      referenceRank netTwiceOneLoss.layer 1 0 = 0 ∧
      (netTwiceOneLossSplit.layer[cloneLayerPos netTwiceOneLoss.layer 1]?).map
        (fun c => c.bottom) = some [SplitBlobName "L" "p" 1 1] ∧
      SplitBlobName "L" "p" 1 1 ≠ SplitBlobName "L" "p" 1 0 := by
  decide

/-- C21, amended: when `InsertSplits` succeeds, input `j` of the clone of layer `i`, which
names `b` in the input network and resolved to the slot `s`, keeps the name `b` when the
fan-out count of `s` is at most 1. Otherwise, when the layer `l0` that produces `s` lists
pairwise distinct output names, it is `SplitBlobName` of the name of `l0`, `b`, the slot index
of `s` and the fan-out index `k`, where `k` is the rank of `(i, j)` among the input references
that resolved to `s`, in (layer index, input index) order, when the loss weight that `l0`
declares for the slot is zero, and that rank plus one when it is nonzero; `k` is below the
fan-out count, and at least 1 when the loss weight is nonzero. The rank is the position of
`(i, j)` in the list of the references that resolved to `s`, which has no repetition. -/
theorem C21_input_renaming (param out : NetParameter) (h : InsertSplits param = .ok out)
    (i j : Nat) (l : LayerParameter) (b : String)
    (hl : param.layer[i]? = some l) (hb : l.bottom[j]? = some b) :
    ∃ c, out.layer[cloneLayerPos param.layer i]? = some c ∧
      (FanoutCount param.layer (resolvedSite param.layer i j) ≤ 1 → c.bottom[j]? = some b) ∧
      (1 < FanoutCount param.layer (resolvedSite param.layer i j) →
        ∃ l0, param.layer[(resolvedSite param.layer i j).1]? = some l0 ∧
          l0.top[(resolvedSite param.layer i j).2]? = some b ∧
          (l0.top.Nodup →
            ∃ k, c.bottom[j]? =
                some (SplitBlobName l0.name b (resolvedSite param.layer i j).2 k) ∧
              k = (if declaredLoss l0 (resolvedSite param.layer i j).2 = 0
                then referenceRank param.layer i j else referenceRank param.layer i j + 1) ∧
              k < FanoutCount param.layer (resolvedSite param.layer i j) ∧
              (declaredLoss l0 (resolvedSite param.layer i j).2 ≠ 0 → 1 ≤ k))) ∧
      (consumers param.layer (resolvedSite param.layer i j))[referenceRank param.layer i j]? =
        some (i, j) ∧
      (consumers param.layer (resolvedSite param.layer i j)).Nodup := by
  obtain ⟨ha, ho⟩ := InsertSplits_ok h
  have inv := (Analyze_ok ha).1
  have hi : i < param.layer.length := (List.getElem?_eq_some.1 hl).1
  have hj : j < l.bottom.length := (List.getElem?_eq_some.1 hb).1
  refine ⟨cloneLayer param.layer i l, ?_, ?_, ?_, ?_, ?_⟩
  · rw [ho]
    exact rewriteLayers_clone_at _ _ _ i l hl
  · intro hc
    exact cloneOf_bottom_kept _ _ hl hb (by
      show ¬ 1 < FanoutCount param.layer (resolvedSite param.layer i j)
      omega)
  · intro hc
    obtain ⟨g1, l0, g2, g3, _⟩ := source_valid ha hl hb
    refine ⟨l0, g2, g3, ?_⟩
    intro hnd
    have hcb := cloneOf_bottom_split ha hl hb hc
    have hlt := rename_index_lt_of_ok ha hl hb
    have hi0 := (List.getElem?_eq_some.1 g2).1
    have hw : (analysisOf param.layer).top_idx_to_loss_weight
        ((analysisOf param.layer).source i j) =
        declaredLoss l0 ((analysisOf param.layer).source i j).2 :=
      inv.lw _ l0 hi0 g2 hnd _
    rw [inv.lname _ l0 hi0 g2, hw] at hcb
    rw [hw] at hlt
    refine ⟨_, hcb, ?_, hlt, ?_⟩
    · unfold referenceRank resolvedSite
      by_cases hz : declaredLoss l0 ((analysisOf param.layer).source i j).2 = 0
      · rw [if_pos hz, if_neg (not_not.2 hz), Nat.zero_add]
      · rw [if_neg hz, if_pos hz, Nat.add_comm]
    · intro hz
      have hz2 : declaredLoss l0 ((analysisOf param.layer).source i j).2 ≠ 0 := hz
      rw [if_pos hz2]
      omega
  · exact consumersBelow_getElem? _ _ i j l hl hj _ hi
  · exact consumersBelow_nodup _ _ _ _

/-- The input renaming on the loss scenario `L(top=[p, q], loss_weight=[1])`, `M(bottom=p)`,
`N(bottom=q)`: the output names of `L` are distinct, the input of `M` is the only reference to
the split slot `(0, 0)`, for which `L` declares the loss weight 1, and gets fan-out index 1;
the input of `N` keeps its name. -/
theorem C21_input_renaming_witness :
    InsertSplits netLoss = .ok netLossSplit ∧
      resolvedSite netLoss.layer 1 0 = (0, 0) ∧ referenceRank netLoss.layer 1 0 = 0 ∧
      declaredLoss (mkLayer "L" [] ["p", "q"] [1]) 0 = 1 ∧
      (∃ c, netLossSplit.layer[cloneLayerPos netLoss.layer 1]? = some c ∧
        c.bottom[0]? = some (SplitBlobName "L" "p" 0 1)) ∧
      ∃ c, netLossSplit.layer[cloneLayerPos netLoss.layer 2]? = some c ∧
        c.bottom[0]? = some "q" := by
  refine ⟨by decide, by decide, by decide, by decide, ?_, ?_⟩
  · obtain ⟨c, h1, _, h3, _⟩ := C21_input_renaming netLoss netLossSplit (by decide) 1 0
      (mkLayer "M" ["p"] [] []) "p" (by decide) (by decide)
    obtain ⟨l0, g1, _, g3⟩ := h3 (by decide)
    have e0 : l0 = mkLayer "L" [] ["p", "q"] [1] := by
      have e : (resolvedSite netLoss.layer 1 0).1 = 0 := by decide
      rw [e] at g1
      exact (Option.some.inj g1).symm
    subst e0
    obtain ⟨k, g4, g5, _⟩ := g3 (by decide)
    refine ⟨c, h1, ?_⟩
    have e1 : k = 1 := by rw [g5]; decide
    have e2 : (resolvedSite netLoss.layer 1 0).2 = 0 := by decide
    rw [g4, e1, e2]
    rfl
  · obtain ⟨c, h1, h2, _⟩ := C21_input_renaming netLoss netLossSplit (by decide) 2 0
      (mkLayer "N" ["q"] [] []) "q" (by decide) (by decide)
    exact ⟨c, h1, h2 (by decide)⟩

/-- C22: when `InsertSplits` succeeds, the clone of input layer `i` has the empty
`loss_weight` list if some output slot of the layer has a fan-out count above one and a
nonzero recorded loss weight, and the `loss_weight` list of the input layer otherwise. -/
theorem C22_clone_loss_weight (param out : NetParameter) (h : InsertSplits param = .ok out)
    (i : Nat) (l : LayerParameter) (hl : param.layer[i]? = some l) :
    ∃ c, out.layer[cloneLayerPos param.layer i]? = some c ∧
      ((∃ j, j < l.top.length ∧ 1 < FanoutCount param.layer (i, j) ∧
          siteLossWeight param.layer (i, j) ≠ 0) → c.loss_weight = []) ∧
      ((¬ ∃ j, j < l.top.length ∧ 1 < FanoutCount param.layer (i, j) ∧
          siteLossWeight param.layer (i, j) ≠ 0) → c.loss_weight = l.loss_weight) := by
  obtain ⟨_, ho⟩ := InsertSplits_ok h
  have hm := lossMoved_iff (analysisOf param.layer) i l.top 0
  refine ⟨cloneLayer param.layer i l, ?_, ?_, ?_⟩
  · rw [ho]
    exact rewriteLayers_clone_at _ _ _ i l hl
  · rintro ⟨j, h1, h2, h3⟩
    have : lossMoved (analysisOf param.layer) i 0 l.top = true :=
      hm.2 ⟨j, Nat.zero_le _, by omega, h2, h3⟩
    show (cloneOf _ _ _ _).loss_weight = []
    rw [cloneOf_loss_weight, if_pos this]
  · intro hn
    have : ¬ lossMoved (analysisOf param.layer) i 0 l.top = true := by
      intro hlm
      obtain ⟨j, _, h1, h2, h3⟩ := hm.1 hlm
      exact hn ⟨j, by omega, h2, h3⟩
    show (cloneOf _ _ _ _).loss_weight = l.loss_weight
    rw [cloneOf_loss_weight, if_neg this]

/-- The loss weights of the clones on the scenario `L(top=[p, q], loss_weight=[1])`,
`M(bottom=p)`, `N(bottom=q)`: slot `(0, 0)` is split and carries the loss weight 1, so the
clone of `L` has no loss weights. -/
theorem C22_clone_loss_weight_witness :
    InsertSplits netLoss = .ok netLossSplit ∧
      FanoutCount netLoss.layer (0, 0) = 2 ∧ siteLossWeight netLoss.layer (0, 0) = 1 ∧
      ∃ c, netLossSplit.layer[cloneLayerPos netLoss.layer 0]? = some c ∧ c.loss_weight = [] := by
  refine ⟨by decide, by decide, by decide, ?_⟩
  obtain ⟨c, h1, h2, _⟩ := C22_clone_loss_weight netLoss netLossSplit (by decide) 0
    (mkLayer "L" [] ["p", "q"] [1]) (by decide)
  exact ⟨c, h1, h2 ⟨0, by decide, by decide, by decide⟩⟩

/-! ### The shape that the Flatten layer gives its output -/

theorem foldl_push_back {α β : Type} (f : α → β) (xs : List α) :
    ∀ init : List β, xs.foldl (fun acc i => acc ++ [f i]) init = init ++ xs.map f := by
  induction xs with
  | nil => intro init; simp
  | cons x xs ih => intro init; simp [ih]

theorem map_range_take {β : Type} (f : Nat → β) (n k : Nat) (hk : k ≤ n) :
    ((List.range n).map f).take k = (List.range k).map f := by
  rw [← List.map_take, List.take_range, Nat.min_eq_left hk]

theorem map_range_drop {β : Type} (f : Nat → β) (n k : Nat) :
    ((List.range n).map f).drop k = (List.range' k (n - k)).map f := by
  rw [← List.map_drop, List.range_eq_range']
  congr 1
  by_cases h : k ≤ n
  · have e := List.range'_append_1 0 k (n - k)
    rw [Nat.zero_add, Nat.sub_add_cancel h] at e
    rw [← e]
    have hlen : (List.range' 0 k).length = k := by simp
    exact List.drop_left' hlen
  · rw [List.drop_eq_nil_of_le (by simp; omega), show n - k = 0 by omega]
    rfl

theorem prod_flatten (shape : List Int) (start_axis end_axis : Nat)
    (h : start_axis ≤ end_axis) :
    (shape.take start_axis ++
        [((shape.drop start_axis).take (end_axis + 1 - start_axis)).prod] ++
        shape.drop (end_axis + 1)).prod = shape.prod := by
  have e : shape.drop (end_axis + 1) =
      (shape.drop start_axis).drop (end_axis + 1 - start_axis) := by
    rw [List.drop_drop]
    congr 1
    omega
  rw [e, List.prod_append, List.prod_append, List.prod_singleton, mul_assoc, ← List.prod_append,
    List.take_append_drop, ← List.prod_append, List.take_append_drop]

/-- The shape vector that `FlattenLayer::Reshape` hands to `Reshape` of the output blob. -/
theorem Reshape_eq {Blob : Type} (api : BlobApi Blob) (type : String)
    (start_axis end_axis : Nat) (bottom0 top0 : Blob) :
    FlattenLayer.Reshape api type false start_axis end_axis bottom0 top0 =
      if api.count (api.Reshape top0 ((List.range start_axis).map (api.shape bottom0) ++
          [api.countRange bottom0 start_axis (end_axis + 1)] ++
          (List.range' (end_axis + 1) (api.num_axes bottom0 - (end_axis + 1))).map
            (api.shape bottom0))) = api.count bottom0
      then .ok (api.Reshape top0 ((List.range start_axis).map (api.shape bottom0) ++
          [api.countRange bottom0 start_axis (end_axis + 1)] ++
          (List.range' (end_axis + 1) (api.num_axes bottom0 - (end_axis + 1))).map
            (api.shape bottom0)))
      else .error (.count_mismatch
        (api.count (api.Reshape top0 ((List.range start_axis).map (api.shape bottom0) ++
          [api.countRange bottom0 start_axis (end_axis + 1)] ++
          (List.range' (end_axis + 1) (api.num_axes bottom0 - (end_axis + 1))).map
            (api.shape bottom0))))
        (api.count bottom0)) := by
  simp only [FlattenLayer.Reshape, foldl_push_back, List.nil_append, Bool.false_eq_true,
    if_false]

theorem shapeBlobApi_shapeOf (b : List Int) : shapeBlobApi.shapeOf b = b := by
  apply List.ext_getElem?
  intro n
  simp only [BlobApi.shapeOf, shapeBlobApi, List.getElem?_map]
  by_cases h : n < b.length
  · rw [List.getElem?_range h, List.getElem?_eq_getElem h]
    simp [List.getD, List.getElem?_eq_getElem h]
  · rw [List.getElem?_eq_none (by simpa using h), List.getElem?_eq_none (by omega)]
    rfl

/-- The blob that is its shape vector has the members that `BlobApi.Lawful` asks for. -/
theorem shapeBlobApi_lawful : shapeBlobApi.Lawful := by
  constructor
  · intro b
    rw [shapeBlobApi_shapeOf]
    rfl
  · intro b start_axis end_axis _ _
    rw [shapeBlobApi_shapeOf]
    rfl
  · intro b shape
    rw [shapeBlobApi_shapeOf]
    rfl

/-- C23, as written, fails: when the output blob is the input blob, `FlattenLayer::Reshape` on
a blob of shape `[2, 3, 4, 5]` with the canonical axes `start_axis = 1` and `end_axis = 2`
stops at its first check, that the layer does not compute in place, and sets no shape. -/
theorem C23_counterexample :
    1 ≤ 2 ∧ 2 < shapeBlobApi.num_axes [2, 3, 4, 5] ∧
      FlattenLayer.Reshape shapeBlobApi "Flatten" true 1 2 [2, 3, 4, 5] [2, 3, 4, 5] =
        .error (.in_place "Flatten Layer does not allow in-place computation.") := by
  decide

/-- C23, amended: for canonical axes with `start_axis ≤ end_axis < num_axes`, and with
`count()`, `count(start_axis, end_axis)` and `Reshape(shape)` of `Blob` computing what the claim
takes them to compute, `FlattenLayer::Reshape` never fails at its final check of the two
counts; and when the output blob is not the input blob it returns, leaving the output blob
with the shape of the input up to `start_axis`, then the single dimension that is the product
of the dimensions `start_axis` to `end_axis`, then the shape of the input after `end_axis`; the
product of the output shape is the product of the input shape, and the two counts are equal. -/
theorem C23_flatten_reshape {Blob : Type} (api : BlobApi Blob) (hlaw : api.Lawful)
    (type : String) (in_place : Bool) (start_axis end_axis : Nat) (bottom0 top0 : Blob)
    (h1 : start_axis ≤ end_axis) (h2 : end_axis < api.num_axes bottom0) :
    (∀ top_count bottom_count,
        FlattenLayer.Reshape api type in_place start_axis end_axis bottom0 top0 ≠
          .error (.count_mismatch top_count bottom_count)) ∧
      (in_place = false →
        ∃ top, FlattenLayer.Reshape api type in_place start_axis end_axis bottom0 top0 =
            .ok top ∧
          api.shapeOf top =
            (api.shapeOf bottom0).take start_axis ++
              [(((api.shapeOf bottom0).drop start_axis).take
                (end_axis + 1 - start_axis)).prod] ++
              (api.shapeOf bottom0).drop (end_axis + 1) ∧
          (api.shapeOf top).prod = (api.shapeOf bottom0).prod ∧
          api.count top = api.count bottom0) := by
  have hshape : (List.range start_axis).map (api.shape bottom0) ++
      [api.countRange bottom0 start_axis (end_axis + 1)] ++
      (List.range' (end_axis + 1) (api.num_axes bottom0 - (end_axis + 1))).map
        (api.shape bottom0) =
      (api.shapeOf bottom0).take start_axis ++
        [(((api.shapeOf bottom0).drop start_axis).take (end_axis + 1 - start_axis)).prod] ++
        (api.shapeOf bottom0).drop (end_axis + 1) := by
    rw [hlaw.countRange_eq bottom0 start_axis (end_axis + 1) (by omega) (by omega)]
    unfold BlobApi.shapeOf
    rw [map_range_take _ _ _ (by omega), map_range_drop _ _ (end_axis + 1)]
  have hcount : api.count (api.Reshape top0 ((List.range start_axis).map (api.shape bottom0) ++
      [api.countRange bottom0 start_axis (end_axis + 1)] ++
      (List.range' (end_axis + 1) (api.num_axes bottom0 - (end_axis + 1))).map
        (api.shape bottom0))) = api.count bottom0 := by
    rw [hlaw.count_eq, hlaw.Reshape_shape, hlaw.count_eq, hshape, prod_flatten _ _ _ h1]
  have hok := Reshape_eq api type start_axis end_axis bottom0 top0
  rw [if_pos hcount] at hok
  refine ⟨?_, ?_⟩
  · intro top_count bottom_count
    cases in_place with
    | false => rw [hok]; exact fun e => nomatch e
    | true =>
      simp only [FlattenLayer.Reshape, if_true]
      exact fun e => nomatch e
  · intro hp
    subst hp
    refine ⟨_, hok, ?_, ?_, hcount⟩
    · rw [hlaw.Reshape_shape, hshape]
    · rw [hlaw.Reshape_shape, hshape, prod_flatten _ _ _ h1]

/-- The Flatten layer on a blob of shape `[2, 3, 4, 5]` with `start_axis = 1` and
`end_axis = 2`: the output gets the shape `[2, 12, 5]`, and the final check passes. -/
theorem C23_flatten_reshape_witness :
    shapeBlobApi.Lawful ∧ 1 ≤ 2 ∧ 2 < shapeBlobApi.num_axes [2, 3, 4, 5] ∧
      FlattenLayer.Reshape shapeBlobApi "Flatten" false 1 2 [2, 3, 4, 5] [] =
        .ok [2, 12, 5] ∧
      ∀ top_count bottom_count,
        FlattenLayer.Reshape shapeBlobApi "Flatten" false 1 2 [2, 3, 4, 5] [] ≠
          .error (.count_mismatch top_count bottom_count) :=
  ⟨shapeBlobApi_lawful, by decide, by decide, by decide,
    (C23_flatten_reshape shapeBlobApi shapeBlobApi_lawful "Flatten" false 1 2 [2, 3, 4, 5] []
      (by decide) (by decide)).1⟩

/-! ### Name resolution in the rewritten network -/

/-- C24: when `InsertSplits` succeeds, every input name of every layer of the rewritten
network is an output name of a strictly earlier layer of the rewritten network; in particular
the single input of the Split layer of a split slot `(i, j)` is an output name of the clone of
layer `i`, which stands before it. Hence `InsertSplits` succeeds on the rewritten network. -/
theorem C24_output_is_resolvable (param out : NetParameter) (h : InsertSplits param = .ok out) :
    (∀ (p : Nat) (X : LayerParameter) (b : String), out.layer[p]? = some X → b ∈ X.bottom →
        ∃ (p0 : Nat) (X0 : LayerParameter), p0 < p ∧ out.layer[p0]? = some X0 ∧ b ∈ X0.top) ∧
      (∀ i j l b, param.layer[i]? = some l → l.top[j]? = some b →
        1 < FanoutCount param.layer (i, j) →
        ∃ S c, out.layer[splitLayerPos param.layer i j]? = some S ∧ S.bottom = [b] ∧
          out.layer[cloneLayerPos param.layer i]? = some c ∧ b ∈ c.top ∧
          cloneLayerPos param.layer i < splitLayerPos param.layer i j) ∧
      ∃ out2, InsertSplits out = .ok out2 := by
  obtain ⟨ha, ho⟩ := InsertSplits_ok h
  have hout : out.layer = rewritten (analysisOf param.layer) param.layer := by rw [ho]; rfl
  refine ⟨?_, ?_, ?_⟩
  · intro p X b hX hb
    rw [hout] at hX ⊢
    exact rewritten_resolved ha hX hb
  · intro i j l b hl hb hc
    refine ⟨splitLayerOf (analysisOf param.layer) i j b, cloneLayer param.layer i l, ?_, ?_, ?_,
      ?_, ?_⟩
    · rw [hout]
      exact rewritten_split_at _ _ hl hb hc
    · rw [splitLayerOf_eq]
    · rw [hout]
      exact rewritten_clone_at _ _ hl
    · show b ∈ (cloneOf _ _ _ _).top
      rw [cloneOf_top]
      exact List.getElem?_mem hb
    · exact (splitPos_bounds _ _ hl (List.getElem?_eq_some.1 hb).1 hc).1
  · obtain ⟨a2, ha2⟩ := rewritten_analyze_isOk ha
    rw [← hout] at ha2
    exact ⟨_, InsertSplits_of_Analyze ha2⟩

/-- On the scenario network `A(top=x)`, `B(bottom=x, top=y)`, `C(bottom=x)` the pass succeeds,
and it succeeds again on the four layers it returns. -/
theorem C24_output_is_resolvable_witness :
    InsertSplits netABC = .ok netABCSplit ∧ ∃ out2, InsertSplits netABCSplit = .ok out2 :=
  ⟨by decide, (C24_output_is_resolvable netABC netABCSplit (by decide)).2.2⟩

/-- C25, as written, fails: in the network `Z(top=x_A_0_split_0)`, `A(top=x)`, `B(bottom=x)`,
`C(bottom=x)`, `E(bottom=x_A_0_split_0)` the input of `E` resolves to slot 0 of `Z`, whose
fan-out count is 1, so it is not renamed; the clone of `Z` is layer 0 of the rewritten network
and the clone of `E` is layer 5, but there the name resolves to output 0 of the Split layer at
position 2, which was created for the output of `A`. And in the network `z(top=x_y)`,
`y_z(top=x)`, `B(bottom=x_y)`, `D(bottom=x)`, `E(bottom=x)`, `F(bottom=x_y)` the input of `B`
resolves to the split slot `(0, 0)`, whose Split layer is at position 1 of the rewritten
network, but the renamed input of the clone of `B`, at position 4, resolves to output 0 of
the Split layer at position 3, which was created for the output of `y_z`. -/
theorem C25_counterexample :
    (InsertSplits netClash = .ok netClashSplit ∧
      netClash.layer[2]? = some (mkLayer "B" ["x_y"] [] []) ∧
      resolvedSite netClash.layer 2 0 = (0, 0) ∧
      FanoutCount netClash.layer (0, 0) = 2 ∧
      splitLayerPos netClash.layer 0 0 = 1 ∧
      cloneLayerPos netClash.layer 2 = 4 ∧
      netClashSplit.layer[4]? = some (mkLayer "B" ["x_y_z_0_split_0"] [] []) ∧
      producer netClashSplit.layer 4 "x_y_z_0_split_0" = some (3, 0) ∧
      resolvedSite netClashSplit.layer 4 0 = (3, 0)) ∧
    InsertSplits netShadow = .ok netShadowSplit ∧
      netShadow.layer[4]? = some (mkLayer "E" ["x_A_0_split_0"] [] []) ∧
      resolvedSite netShadow.layer 4 0 = (0, 0) ∧
      FanoutCount netShadow.layer (0, 0) = 1 ∧
      cloneLayerPos netShadow.layer 0 = 0 ∧
      cloneLayerPos netShadow.layer 4 = 5 ∧
      netShadowSplit.layer[5]? = some (mkLayer "E" ["x_A_0_split_0"] [] []) ∧
      splitLayerPos netShadow.layer 1 0 = 2 ∧
      producer netShadowSplit.layer 5 "x_A_0_split_0" = some (2, 0) ∧
      resolvedSite netShadowSplit.layer 5 0 = (2, 0) := by
  decide

/-- C25, amended: when `InsertSplits` succeeds and the names generated for the Split outputs
are pairwise distinct and none of them is an output name of an input layer, the most recent
earlier producer in the rewritten network, which is also what the first pass records on the
rewritten network, is as follows. The input of the Split layer of a split slot `(i, j)` resolves
to slot `j` of the clone of layer `i`. Input `k` of the clone of layer `i`, whose original
resolved to the slot `s`, resolves, when `s` is split, to an output of the Split layer of `s`,
and otherwise it keeps its name and resolves to slot `s.2` of the clone of layer `s.1`. -/
theorem C25_dataflow_preserved (param out : NetParameter) (h : InsertSplits param = .ok out)
    (hdist : (generatedNames param.layer).Nodup)
    (hfresh : ∀ g ∈ generatedNames param.layer, ∀ l ∈ param.layer, g ∉ l.top) :
    (∀ i j l b, param.layer[i]? = some l → l.top[j]? = some b →
        1 < FanoutCount param.layer (i, j) →
        ∃ S, out.layer[splitLayerPos param.layer i j]? = some S ∧ S.bottom = [b] ∧
          producer out.layer (splitLayerPos param.layer i j) b =
            some (cloneLayerPos param.layer i, j) ∧
          resolvedSite out.layer (splitLayerPos param.layer i j) 0 =
            (cloneLayerPos param.layer i, j)) ∧
      (∀ i k l b, param.layer[i]? = some l → l.bottom[k]? = some b →
        ∃ c n, out.layer[cloneLayerPos param.layer i]? = some c ∧ c.bottom[k]? = some n ∧
          (1 < FanoutCount param.layer (resolvedSite param.layer i k) →
            ∃ r, r < FanoutCount param.layer (resolvedSite param.layer i k) ∧
              producer out.layer (cloneLayerPos param.layer i) n =
                some (splitLayerPos param.layer (resolvedSite param.layer i k).1
                  (resolvedSite param.layer i k).2, r) ∧
              resolvedSite out.layer (cloneLayerPos param.layer i) k =
                (splitLayerPos param.layer (resolvedSite param.layer i k).1
                  (resolvedSite param.layer i k).2, r)) ∧
          (FanoutCount param.layer (resolvedSite param.layer i k) ≤ 1 →
            n = b ∧
            producer out.layer (cloneLayerPos param.layer i) n =
              some (cloneLayerPos param.layer (resolvedSite param.layer i k).1,
                (resolvedSite param.layer i k).2) ∧
            resolvedSite out.layer (cloneLayerPos param.layer i) k =
              (cloneLayerPos param.layer (resolvedSite param.layer i k).1,
                (resolvedSite param.layer i k).2))) := by
  obtain ⟨ha, ho⟩ := InsertSplits_ok h
  have inv := (Analyze_ok ha).1
  have hout : out.layer = rewritten (analysisOf param.layer) param.layer := by rw [ho]; rfl
  obtain ⟨a2, ha2⟩ := rewritten_analyze_isOk ha
  rw [hout]
  refine ⟨?_, ?_⟩
  · intro i j l b hl hb hc
    have hS := rewritten_split_at (analysisOf param.layer) param.layer hl hb hc
    have hbot : (splitLayerOf (analysisOf param.layer) i j b).bottom = [b] := by
      rw [splitLayerOf_eq]
    have hres := resolve_split_bottom_of_fresh ha hfresh hl hb hc
    refine ⟨_, hS, hbot, hres, ?_⟩
    exact resolvedSite_of_producer ha2 hS (by rw [hbot]; rfl) hres
  · intro i k l b hl hb
    have hi : i < param.layer.length := (List.getElem?_eq_some.1 hl).1
    have hc := rewritten_clone_at (analysisOf param.layer) param.layer hl
    obtain ⟨g1, l0, g2, g3, _⟩ := source_valid ha hl hb
    by_cases hs : 1 < FanoutCount param.layer (resolvedSite param.layer i k)
    · have hcb := cloneOf_bottom_split ha hl hb hs
      have hres := resolve_generated_of_fresh hdist hfresh g2 g3 hs
        (rename_index_lt_of_ok ha hl hb) g1 (Nat.le_of_lt hi)
      refine ⟨_, _, hc, hcb, ?_, ?_⟩
      · intro _
        exact ⟨_, rename_index_lt_of_ok ha hl hb, hres,
          resolvedSite_of_producer ha2 hc hcb hres⟩
      · intro hle
        omega
    · have hcb := cloneOf_bottom_kept (analysisOf param.layer) param.layer hl hb hs
      have hres := @resolve_original_of_fresh param.layer (analysisOf param.layer) hfresh i
        (Nat.le_of_lt hi) b _ (inv.src i k l b hi hl hb)
      refine ⟨_, _, hc, hcb, ?_, ?_⟩
      · intro hlt
        exact absurd hlt hs
      · intro _
        exact ⟨rfl, hres, resolvedSite_of_producer ha2 hc hcb hres⟩

/-- On the scenario network `A(top=x)`, `B(bottom=x, top=y)`, `C(bottom=x)` the generated
names `x_A_0_split_0` and `x_A_0_split_1` are distinct and new, the input of the Split layer
(position 1) resolves to slot 0 of the clone of `A`, and the renamed input of `C` (position 3)
resolves to output 1 of the Split layer. -/
theorem C25_dataflow_preserved_witness :
    InsertSplits netABC = .ok netABCSplit ∧
      generatedNames netABC.layer = ["x_A_0_split_0", "x_A_0_split_1"] ∧
      splitLayerPos netABC.layer 0 0 = 1 ∧ cloneLayerPos netABC.layer 0 = 0 ∧
      (∃ S, netABCSplit.layer[splitLayerPos netABC.layer 0 0]? = some S ∧ S.bottom = ["x"] ∧
        producer netABCSplit.layer (splitLayerPos netABC.layer 0 0) "x" =
          some (cloneLayerPos netABC.layer 0, 0)) ∧
      resolvedSite netABCSplit.layer 3 0 = (1, 1) := by
  have hw := C25_dataflow_preserved netABC netABCSplit (by decide) (by decide) (by decide)
  refine ⟨by decide, by decide, by decide, by decide, ?_, by decide⟩
  obtain ⟨S, h1, h2, h3, _⟩ := hw.1 0 0 (mkLayer "A" [] ["x"] []) "x" (by decide) (by decide)
    (by decide)
  exact ⟨S, h1, h2, h3⟩

end caffe
